import Mathlib

/-!
OsmAnd-core: tile-scoped symbol resources.

A shallow embedding of `src/Map/MapRendererTiledSymbolsResource.cpp`
(`obtainData`, `uploadToGPU`, `unloadFromGPU`, `releaseData`,
`getGpuResourceFor`) together with the collaborators the file calls.

Objects that C++ shares through `std::shared_ptr` are identified by a natural
number (their address); the objects themselves live in the `World`, which is
passed explicitly.  Qt hash containers are association lists; the order in
which a hash container is walked is a parameter (`HashOrder`).
-/

namespace OsmAnd

/-! ## Value types -/

/-- Identity of a `MapSymbol` object (symbols are compared by reference). -/
abbrev MapSymbol := Nat

/-- Identity of a `GPUAPI::ResourceInGPU` object (never the null pointer). -/
abbrev ResourceInGPU := Nat

/-- Identity of a `GroupResources` object. -/
abbrev GroupRef := Nat

/-- Content of a CPU-side bitmap. -/
abbrev Bitmap := Nat

/-- The type `QHash<shared_ptr<MapSymbol>, shared_ptr<ResourceInGPU>>`: at most one entry per key. -/
abbrev GpuMap := List (MapSymbol × ResourceInGPU)

/-- Result of `QHash::constFind`: the value stored under the key, `none` for `cend()`. -/
def QHash.constFind : GpuMap → MapSymbol → Option ResourceInGPU
  | [], _ => none
  | (k, v) :: rest, s => if k = s then some v else QHash.constFind rest s

/-- Effect of `QHash::insert`: the value of an existing key is replaced. -/
def QHash.insert (m : GpuMap) (s : MapSymbol) (r : ResourceInGPU) : GpuMap :=
  (s, r) :: m.filter (fun e => decide (e.1 ≠ s))

/-- Update of a store indexed by object identity. -/
def upd {β : Type} (f : Nat → β) (k : Nat) (v : β) : Nat → β :=
  fun x => if x = k then v else f x

/-- The order in which a Qt hash container hands out its entries: some
rearrangement of the order of insertion. -/
structure HashOrder where
  ord : {α : Type} → List α → List α
  perm : ∀ {α : Type} (l : List α), (ord l).Perm l

/-- Entries come out in the order they went in. -/
def HashOrder.insertion : HashOrder := ⟨fun l => l, fun l => List.Perm.refl l⟩

/-- Entries come out last-inserted first. -/
def HashOrder.reversed : HashOrder := ⟨fun l => l.reverse, fun l => List.reverse_perm l⟩

/-- A `MapSymbolsGroup`: its symbols, and its id when the object is a
`MapSymbolsGroupShareableById` (when the dynamic cast succeeds). -/
structure MapSymbolsGroup where
  symbols : List MapSymbol
  shareableId : Option Nat
deriving DecidableEq, Repr

/-- The class `GroupResources`: one group and its symbol-to-GPU-resource map. -/
structure GroupResources where
  group : MapSymbolsGroup
  resourcesInGPU : GpuMap
deriving DecidableEq, Repr

/-- The payload `TiledMapSymbolsData` a provider returns for a tile. -/
structure TiledMapSymbolsData where
  symbolsGroups : List MapSymbolsGroup
deriving DecidableEq, Repr

/-! ## The shared cache -/

/-- Modelled from the spec: the state of one id in a
`SharedGroupsResourcesCollection` (the class is not part of the sources):
unseen, claimed for loading with the number of futures handed out, or resolved
with its live reference count. -/
inductive CacheEntry where
  | absent
  | promised (waiters : Nat)
  | resolved (resource : GroupRef) (refs : Nat)
deriving DecidableEq, Repr

/-- Modelled from the spec: a `SharedGroupsResourcesCollection`, keyed by group id. -/
abbrev SharedGroupsResourcesCollection := Nat → CacheEntry

/-- Modelled from the spec: the three answers of
`obtainReferenceOrFutureReferenceOrMakePromise`. In the C++ signature the
first two are `true` with the reference, respectively the future, filled in,
and the third is `false`. -/
inductive ObtainAnswer where
  | resolved (resource : GroupRef)
  | future (id : Nat)
  | claimed
deriving DecidableEq, Repr

/-- Modelled from the spec: `obtainReferenceOrFutureReferenceOrMakePromise`
(section 4.1). A resolved id is returned with its count incremented, an id
being loaded yields a future, an unseen id is marked as claimed. -/
def obtainReferenceOrFutureReferenceOrMakePromise
    (c : SharedGroupsResourcesCollection) (id : Nat) :
    ObtainAnswer × SharedGroupsResourcesCollection :=
  match c id with
  | .resolved r n => (.resolved r, upd c id (.resolved r (n + 1)))
  | .promised k => (.future id, upd c id (.promised (k + 1)))
  | .absent => (.claimed, upd c id (.promised 0))

/-- Modelled from the spec: `fulfilPromiseAndReference` (section 4.1). Only a
claimed id can be published; the count covers the claimant and every future
handed out. Publishing anything else is a fatal contract violation (`none`). -/
def fulfilPromiseAndReference
    (c : SharedGroupsResourcesCollection) (id : Nat) (r : GroupRef) :
    Option SharedGroupsResourcesCollection :=
  match c id with
  | .promised k => some (upd c id (.resolved r (k + 1)))
  | _ => none

/-- Modelled from the spec: `releaseReference` (section 4.1). The count is
decremented; at zero with removal allowed the entry is removed and removal is
reported. Releasing an id that holds no reference is a fatal contract
violation (`none`). The result is the cache, `wasRemoved` and the references
remaining. -/
def releaseReference
    (c : SharedGroupsResourcesCollection) (id : Nat) (allowRemoval : Bool) :
    Option (SharedGroupsResourcesCollection × Bool × Nat) :=
  match c id with
  | .resolved r (n + 1) =>
    if n = 0 ∧ allowRemoval = true then some (upd c id .absent, true, 0)
    else some (upd c id (.resolved r n), false, n)
  | _ => none

/-- Modelled from the spec: `getReferencesCount` (section 4.1). -/
def getReferencesCount (c : SharedGroupsResourcesCollection) (id : Nat) : Nat :=
  match c id with
  | .resolved _ n => n
  | .promised k => k
  | .absent => 0

/-- Modelled from the spec: `get()` on a future of the cache (sections 4.1 and
4.2). For a published id it returns the published `GroupResources` at once.
For an id that is still claimed the wait lasts until the loader that claimed
it publishes: `inFlight` is what that loader publishes, and its
`fulfilPromiseAndReference` turns the entry into a resolved one whose count
covers the loader and every future handed out. When nobody ever publishes the
id the wait does not end (`none`). The result is the value of the future and
the cache once the wait is over. -/
def futureGet (c : SharedGroupsResourcesCollection) (inFlight : Nat → Option GroupRef)
    (id : Nat) : Option (GroupRef × SharedGroupsResourcesCollection) :=
  match c id with
  | .resolved r _ => some (r, c)
  | .promised k =>
    match inFlight id with
    | some r => some (r, upd c id (.resolved r (k + 1)))
    | none => none
  | .absent => none

/-! ## The world and the tile resource -/

/-- Everything outside one tile resource that the methods read or write. -/
structure World where
  /-- The `GroupResources` objects, by identity. -/
  groups : GroupRef → GroupResources
  /-- The identity the next `new GroupResources` receives. -/
  nextGroup : GroupRef
  /-- The field `bitmap` of every `MapSymbol` (`none`: the pointer is null). -/
  bitmap : MapSymbol → Option Bitmap
  /-- The member `_sharedGroupsResources` of the collection, by zoom level. -/
  sharedGroupsResources : Nat → SharedGroupsResourcesCollection
  /-- Modelled from the spec: the loads in flight in other tile resources, by
  zoom level and group id: the `GroupResources` that the loader which claimed
  the id publishes while a future for the id is awaited; `none` when no loader
  will publish the id. -/
  inFlight : Nat → Nat → Option GroupRef
  /-- Modelled from the spec: the owner's symbol registry, (symbol, tile resource) pairs. -/
  registry : List (MapSymbol × Nat)
  /-- Modelled from the spec: the tasks posted to the GPU-thread dispatcher, oldest first;
  each task releases one GPU resource. -/
  dispatcher : List ResourceInGPU

/-- The members of a `MapRendererTiledSymbolsResource`. -/
structure MapRendererTiledSymbolsResource where
  /-- Identity of this resource (`shared_from_this()`). -/
  self : Nat
  /-- Whether `link.lock()` yields the collection. -/
  link : Bool
  zoom : Nat
  _sourceData : Option TiledMapSymbolsData
  _uniqueGroupsResources : List GroupRef
  _referencedSharedGroupsResources : List GroupRef
  _resourcesInGPU : GpuMap
deriving DecidableEq, Repr

/-- What a method did to its collaborators, in program order. The group of an
upload is the group whose loop iteration made the call. -/
inductive Event where
  | uploadSymbolToGPU (group : GroupRef) (symbol : MapSymbol) (result : Option ResourceInGPU)
  | obtainProviderFor
  | providerObtainData
  | acceptGroup (group : MapSymbolsGroup) (accepted : Bool)
  | fulfilPromiseAndReference (id : Nat) (resource : GroupRef)
  | releaseReference (id : Nat) (allowRemoval : Bool) (wasRemoved : Bool)
  | registerMapSymbol (symbol : MapSymbol) (tile : Nat)
  | unregisterMapSymbol (symbol : MapSymbol) (tile : Nat)
  | invokeAsync (resource : ResourceInGPU)
deriving DecidableEq, Repr

/-! ## uploadToGPU -/

/-- The locals of `uploadToGPU` while one of its two upload loops runs:
the owner's GPU state, the `QMultiHash` being filled (in insertion order),
`anyUploadFailed`, the upload calls made so far, whether every
`assert(symbol->bitmap)` passed so far, and whether the call has crashed. -/
structure UploadPass (σ : Type) where
  owner : σ
  uploaded : List (GroupRef × MapSymbol × ResourceInGPU)
  anyUploadFailed : Bool
  calls : List Event
  assertsHeld : Bool
  /-- Whether the arguments of the `LogPrintf` of a failed upload,
  `symbol->bitmap->width()` and `symbol->bitmap->height()` (lines 209-211 and
  246-248), were read from a null `bitmap`: the call has crashed at that
  point and nothing after it is executed. -/
  nullDereferenced : Bool := false

/-- The inner loop over the symbols of one group (lines 199-219 and 236-256):
upload each symbol, stop at the first failure. A failed upload is logged with
the size of the symbol's bitmap, which dereferences `symbol->bitmap`. -/
def uploadSymbols {σ : Type} (up : σ → MapSymbol → Option ResourceInGPU × σ)
    (w : World) (g : GroupRef) : List MapSymbol → UploadPass σ → UploadPass σ
  | [], st => st
  | s :: rest, st =>
    match up st.owner s with
    | (none, o) =>
      { owner := o
        uploaded := st.uploaded
        anyUploadFailed := true
        calls := st.calls ++ [Event.uploadSymbolToGPU g s none]
        assertsHeld := st.assertsHeld && (w.bitmap s).isSome
        nullDereferenced := st.nullDereferenced || (w.bitmap s).isNone }
    | (some r, o) =>
      uploadSymbols up w g rest
        { owner := o
          uploaded := st.uploaded ++ [(g, s, r)]
          anyUploadFailed := st.anyUploadFailed
          calls := st.calls ++ [Event.uploadSymbolToGPU g s (some r)]
          assertsHeld := st.assertsHeld && (w.bitmap s).isSome
          nullDereferenced := st.nullDereferenced }

/-- The loop over `_uniqueGroupsResources` (lines 197-222). -/
def uploadUnique {σ : Type} (up : σ → MapSymbol → Option ResourceInGPU × σ)
    (w : World) : List GroupRef → UploadPass σ → UploadPass σ
  | [], st => st
  | g :: gs, st =>
    let st1 := uploadSymbols up w g (w.groups g).group.symbols st
    if st1.anyUploadFailed then st1 else uploadUnique up w gs st1

/-- The loop over `_referencedSharedGroupsResources` (lines 226-259): a group
without symbols and a group whose `resourcesInGPU` is not empty are skipped. -/
def uploadShared {σ : Type} (up : σ → MapSymbol → Option ResourceInGPU × σ)
    (w : World) : List GroupRef → UploadPass σ → UploadPass σ
  | [], st => st
  | g :: gs, st =>
    if (w.groups g).group.symbols.isEmpty then uploadShared up w gs st
    else if !(w.groups g).resourcesInGPU.isEmpty then uploadShared up w gs st
    else
      let st1 := uploadSymbols up w g (w.groups g).group.symbols st
      if st1.anyUploadFailed then st1 else uploadShared up w gs st1

/-- One step of the two final loops (lines 275-302): drop the bitmap, record
the resource in the tile's map and in the group's map. -/
def commitUploaded (acc : MapRendererTiledSymbolsResource × World)
    (e : GroupRef × MapSymbol × ResourceInGPU) : MapRendererTiledSymbolsResource × World :=
  ({ acc.1 with _resourcesInGPU := QHash.insert acc.1._resourcesInGPU e.2.1 e.2.2 },
   { acc.2 with
      bitmap := upd acc.2.bitmap e.2.1 none
      groups := upd acc.2.groups e.1
        { (acc.2.groups e.1) with
          resourcesInGPU := QHash.insert (acc.2.groups e.1).resourcesInGPU e.2.1 e.2.2 } })

/-- What `uploadToGPU` leaves behind. -/
structure UploadResult (σ : Type) where
  ok : Bool
  tile : MapRendererTiledSymbolsResource
  world : World
  owner : σ
  /-- The `uploadSymbolToGPU` calls made, in order. -/
  calls : List Event
  /-- Whether every `assert(static_cast<bool>(symbol->bitmap))` passed. -/
  assertsHeld : Bool
  /-- Whether the call crashed on the null `bitmap` of a symbol whose upload
  failed (lines 209-211 and 246-248). When it did, the call has not returned:
  `ok` is not a value any caller receives, `calls` are the calls made up to the
  crash, and `tile` and `world` are the state at the crash. -/
  nullDereferenced : Bool

/-- The locals of `uploadToGPU` after the loop over the unique groups (line 222). -/
def uniquePass {σ : Type} (up : σ → MapSymbol → Option ResourceInGPU × σ)
    (o : σ) (t : MapRendererTiledSymbolsResource) (w : World) : UploadPass σ :=
  uploadUnique up w t._uniqueGroupsResources
    { owner := o, uploaded := [], anyUploadFailed := false, calls := [], assertsHeld := true }

/-- The locals of `uploadToGPU` after the loop over the referenced shared
groups (line 259); `uploaded` is `sharedUploaded`, which starts empty. After a
crash in the loop over the unique groups the second loop is never reached. -/
def sharedPass {σ : Type} (up : σ → MapSymbol → Option ResourceInGPU × σ)
    (o : σ) (t : MapRendererTiledSymbolsResource) (w : World) : UploadPass σ :=
  if (uniquePass up o t w).nullDereferenced then
    { owner := (uniquePass up o t w).owner
      uploaded := []
      anyUploadFailed := (uniquePass up o t w).anyUploadFailed
      calls := (uniquePass up o t w).calls
      assertsHeld := (uniquePass up o t w).assertsHeld
      nullDereferenced := true }
  else
    uploadShared up w t._referencedSharedGroupsResources
      { owner := (uniquePass up o t w).owner
        uploaded := []
        anyUploadFailed := (uniquePass up o t w).anyUploadFailed
        calls := (uniquePass up o t w).calls
        assertsHeld := (uniquePass up o t w).assertsHeld
        nullDereferenced := false }

/-- The method `uploadToGPU` (lines 184-305). `up` is the owner's
`uploadSymbolToGPU` acting on the owner's GPU state; it reads the symbol and
writes neither to the tile resource nor to the groups nor to the symbols. The
assertions are recorded instead of enforced (they are compiled out of release
builds). Of the diagnostic `LogPrintf` calls only the dereference of
`symbol->bitmap` in their arguments is kept: on a null bitmap the call crashes
(`nullDereferenced`), before anything is written to the tile or the world. The
unused local `collection` is left out. -/
def uploadToGPU {σ : Type} (O : HashOrder) (up : σ → MapSymbol → Option ResourceInGPU × σ)
    (o : σ) (t : MapRendererTiledSymbolsResource) (w : World) : UploadResult σ :=
  let u := uniquePass up o t w
  let s := sharedPass up o t w
  if s.anyUploadFailed then
    { ok := false, tile := t, world := w, owner := s.owner, calls := s.calls,
      assertsHeld := s.assertsHeld, nullDereferenced := s.nullDereferenced }
  else
    let a := (O.ord u.uploaded).foldl commitUploaded (t, w)
    let b := (O.ord s.uploaded).foldl commitUploaded a
    { ok := true, tile := b.1, world := b.2, owner := s.owner, calls := s.calls,
      assertsHeld := s.assertsHeld, nullDereferenced := s.nullDereferenced }

/-- The value a call of `uploadToGPU` hands to its caller: `none` when the
call crashed instead of returning. -/
def UploadResult.returned {σ : Type} (r : UploadResult σ) : Option Bool :=
  if r.nullDereferenced then none else some r.ok

/-- The entries the two final loops walk, in the order they are walked. -/
def committed {σ : Type} (O : HashOrder) (up : σ → MapSymbol → Option ResourceInGPU × σ)
    (o : σ) (t : MapRendererTiledSymbolsResource) (w : World) :
    List (GroupRef × MapSymbol × ResourceInGPU) :=
  O.ord (uniquePass up o t w).uploaded ++ O.ord (sharedPass up o t w).uploaded

/-- Whether an event is an upload call that failed. -/
def Event.isFailedUpload : Event → Bool
  | .uploadSymbolToGPU _ _ none => true
  | _ => false

/-- The method `getGpuResourceFor` (lines 488-494); `none` is `nullptr`. -/
def getGpuResourceFor (t : MapRendererTiledSymbolsResource) (mapSymbol : MapSymbol) :
    Option ResourceInGPU :=
  QHash.constFind t._resourcesInGPU mapSymbol

/-! ## obtainData -/

/-- One run of `provider->obtainData(tileId, zoom, tile_, callback)` seen from
the caller: the provider hands candidate groups to the callback, one at a
time, and may let its next move depend on the answers; in the end it reports
whether the request succeeded and which tile, if any, it produced. -/
inductive ProviderRun where
  | ask (group : MapSymbolsGroup) (next : Bool → ProviderRun)
  | done (requestSucceeded : Bool) (tile : Option TiledMapSymbolsData)

/-- The variables the acceptance callback captures by reference (lines 48-56),
and the calls made so far. -/
structure CallbackState where
  sharedGroupsResources : SharedGroupsResourcesCollection
  referencedSharedGroupsResources : List GroupRef
  futureReferencedSharedGroupsResources : List Nat
  loadedSharedGroups : List Nat
  trace : List Event

/-- The acceptance callback (lines 57-93): the answer given to the provider
and the captured variables afterwards. -/
def acceptGroup (st : CallbackState) (symbolsGroup : MapSymbolsGroup) : Bool × CallbackState :=
  match symbolsGroup.shareableId with
  | none => (true, { st with trace := st.trace ++ [Event.acceptGroup symbolsGroup true] })
  | some id =>
    match obtainReferenceOrFutureReferenceOrMakePromise st.sharedGroupsResources id with
    | (.resolved r, c) =>
      (false, { st with
        sharedGroupsResources := c
        referencedSharedGroupsResources := st.referencedSharedGroupsResources ++ [r]
        trace := st.trace ++ [Event.acceptGroup symbolsGroup false] })
    | (.future f, c) =>
      (false, { st with
        sharedGroupsResources := c
        futureReferencedSharedGroupsResources := st.futureReferencedSharedGroupsResources ++ [f]
        trace := st.trace ++ [Event.acceptGroup symbolsGroup false] })
    | (.claimed, c) =>
      (true, { st with
        sharedGroupsResources := c
        loadedSharedGroups :=
          if st.loadedSharedGroups.contains id then st.loadedSharedGroups
          else st.loadedSharedGroups ++ [id]
        trace := st.trace ++ [Event.acceptGroup symbolsGroup true] })

/-- The provider request with the callback plugged in (lines 55-93). -/
def runProvider : ProviderRun → CallbackState → Bool × Option TiledMapSymbolsData × CallbackState
  | .done requestSucceeded tile, st => (requestSucceeded, tile, st)
  | .ask group next, st => runProvider (next (acceptGroup st group).1) (acceptGroup st group).2

/-- The provider request as `obtainData` issues it (lines 48-93): the callback
starts from the zoom level's shared cache and empty local collections. The
result is `requestSucceeded`, `tile_` and the captured variables at the end. -/
def requestTile (run : ProviderRun) (t : MapRendererTiledSymbolsResource) (w : World) :
    Bool × Option TiledMapSymbolsData × CallbackState :=
  runProvider run
    { sharedGroupsResources := w.sharedGroupsResources t.zoom
      referencedSharedGroupsResources := []
      futureReferencedSharedGroupsResources := []
      loadedSharedGroups := []
      trace := [Event.obtainProviderFor, Event.providerObtainData] }

/-- A tile resource, the world, and the calls made on the way to them. -/
structure Step where
  tile : MapRendererTiledSymbolsResource
  world : World
  trace : List Event

/-- The loop over `tile->symbolsGroups` (lines 110-142). `none`: a promise was
fulfilled twice, a fatal contract violation. -/
def classifyGroups (loadedSharedGroups : List Nat) : List MapSymbolsGroup → Step → Option Step
  | [], st => some st
  | group :: rest, st =>
    let groupResources := st.world.nextGroup
    let w1 : World := { st.world with
      groups := upd st.world.groups groupResources { group := group, resourcesInGPU := [] }
      nextGroup := groupResources + 1 }
    let asUnique : Step :=
      { tile := { st.tile with
          _uniqueGroupsResources := st.tile._uniqueGroupsResources ++ [groupResources] }
        world := w1
        trace := st.trace }
    match group.shareableId with
    | none => classifyGroups loadedSharedGroups rest asUnique
    | some id =>
      if !loadedSharedGroups.contains id then classifyGroups loadedSharedGroups rest asUnique
      else
        match fulfilPromiseAndReference (w1.sharedGroupsResources st.tile.zoom) id groupResources with
        | none => none
        | some c =>
          classifyGroups loadedSharedGroups rest
            { tile := { st.tile with
                _referencedSharedGroupsResources :=
                  st.tile._referencedSharedGroupsResources ++ [groupResources] }
              world := { w1 with
                sharedGroupsResources := upd w1.sharedGroupsResources st.tile.zoom c }
              trace := st.trace ++ [Event.fulfilPromiseAndReference id groupResources] }

/-- The loop over the collected futures (lines 145-162): each future is
awaited and its value appended to the referenced-shared list. `none`: a wait
that never ends. -/
def awaitFutures : List Nat → Step → Option Step
  | [], st => some st
  | futureGroup :: rest, st =>
    match futureGet (st.world.sharedGroupsResources st.tile.zoom)
        (st.world.inFlight st.tile.zoom) futureGroup with
    | none => none
    | some (groupResources, c) =>
      awaitFutures rest
        { st with
          tile := { st.tile with
            _referencedSharedGroupsResources :=
              st.tile._referencedSharedGroupsResources ++ [groupResources] }
          world := { st.world with
            sharedGroupsResources := upd st.world.sharedGroupsResources st.tile.zoom c } }

/-- Modelled from the spec: the owner's `registerMapSymbol` adds the pair to the registry. -/
def registerMapSymbol (self : Nat) (acc : World × List Event) (symbol : MapSymbol) :
    World × List Event :=
  ({ acc.1 with registry := acc.1.registry ++ [(symbol, self)] },
   acc.2 ++ [Event.registerMapSymbol symbol self])

/-- Modelled from the spec: the owner's `unregisterMapSymbol` takes the pair out of the registry. -/
def unregisterMapSymbol (self : Nat) (acc : World × List Event) (symbol : MapSymbol) :
    World × List Event :=
  ({ acc.1 with registry := acc.1.registry.erase (symbol, self) },
   acc.2 ++ [Event.unregisterMapSymbol symbol self])

/-- One of the two registration loops (lines 166-175). -/
def registerGroups (self : Nat) (groups : List GroupRef) (acc : World × List Event) :
    World × List Event :=
  groups.foldl
    (fun a groupResources =>
      (a.1.groups groupResources).group.symbols.foldl (registerMapSymbol self) a)
    acc

/-- What `obtainData` leaves behind: the value returned, the caller's
`dataAvailable`, the tile resource, the world and the calls made. -/
structure ObtainResult where
  ok : Bool
  dataAvailable : Bool
  tile : MapRendererTiledSymbolsResource
  world : World
  trace : List Event

/-- The method `obtainData` (lines 33-182). `provider` is what the owner's
`obtainProviderFor` yields for the collection and how that provider behaves
for this tile; `dataAvailable` is the caller's flag before the call.
`none`: the call does not return (fatal contract violation, or a wait on a
promise that nobody fulfils). -/
def obtainData (provider : Option ProviderRun) (dataAvailable : Bool)
    (t : MapRendererTiledSymbolsResource) (w : World) : Option ObtainResult :=
  if !t.link then
    some { ok := false, dataAvailable := dataAvailable, tile := t, world := w, trace := [] }
  else
    match provider with
    | none =>
      some { ok := false, dataAvailable := dataAvailable, tile := t, world := w,
             trace := [Event.obtainProviderFor] }
    | some run =>
      let r := requestTile run t w
      let w1 : World := { w with
        sharedGroupsResources := upd w.sharedGroupsResources t.zoom r.2.2.sharedGroupsResources }
      if !r.1 then
        some { ok := false, dataAvailable := dataAvailable, tile := t, world := w1,
               trace := r.2.2.trace }
      else
        match r.2.1 with
        | none =>
          some { ok := true, dataAvailable := false, tile := { t with _sourceData := none },
                 world := w1, trace := r.2.2.trace }
        | some tile =>
          let t1 := { t with
            _sourceData := some tile
            _referencedSharedGroupsResources := r.2.2.referencedSharedGroupsResources }
          match classifyGroups r.2.2.loadedSharedGroups tile.symbolsGroups
              { tile := t1, world := w1, trace := r.2.2.trace } with
          | none => none
          | some c =>
            match awaitFutures r.2.2.futureReferencedSharedGroupsResources c with
            | none => none
            | some f =>
              let u := registerGroups t.self f.tile._uniqueGroupsResources (f.world, f.trace)
              let s := registerGroups t.self f.tile._referencedSharedGroupsResources u
              some { ok := true, dataAvailable := true
                     tile := { f.tile with _sourceData := some { symbolsGroups := [] } }
                     world := s.1, trace := s.2 }

/-! ## unloadFromGPU -/

/-- The loop over `_uniqueGroupsResources` (lines 316-332): clear each map. -/
def unloadUnique (groups : List GroupRef) (w : World) : World :=
  groups.foldl
    (fun a groupResources =>
      { a with
          groups := upd a.groups groupResources
            { (a.groups groupResources) with resourcesInGPU := [] } })
    w

/-- The loop over `_referencedSharedGroupsResources` (lines 337-370): release
the reference, and clear the map when the entry was removed. `none`: the
group is not shareable by id, or the release is a fatal contract violation. -/
def unloadShared (zoom : Nat) : List GroupRef → World × List Event → Option (World × List Event)
  | [], acc => some acc
  | groupResources :: rest, acc =>
    match (acc.1.groups groupResources).group.shareableId with
    | none => none
    | some id =>
      match releaseReference (acc.1.sharedGroupsResources zoom) id true with
      | none => none
      | some (c, wasRemoved, _) =>
        let w1 : World := { acc.1 with
          sharedGroupsResources := upd acc.1.sharedGroupsResources zoom c }
        let w2 : World :=
          if wasRemoved then
            { w1 with
                groups := upd w1.groups groupResources
                  { (w1.groups groupResources) with resourcesInGPU := [] } }
          else w1
        unloadShared zoom rest (w2, acc.2 ++ [Event.releaseReference id true wasRemoved])

/-- The method `unloadFromGPU` (lines 307-372). `none`: the call does not
return normally (the link is dereferenced unchecked, and see `unloadShared`).
The debug-only loop over the unique groups' resources is left out. -/
def unloadFromGPU (t : MapRendererTiledSymbolsResource) (w : World) : Option Step :=
  if !t.link then none
  else
    match unloadShared t.zoom t._referencedSharedGroupsResources
        (unloadUnique t._uniqueGroupsResources w, []) with
    | none => none
    | some r => some { tile := { t with _resourcesInGPU := [] }, world := r.1, trace := r.2 }

/-! ## releaseData -/

/-- Posting one release task per entry of a map (lines 392-410 and 460-478). -/
def postReleases (O : HashOrder) (m : GpuMap) (acc : World × List Event) : World × List Event :=
  (O.ord m).foldl
    (fun a e =>
      ({ a.1 with dispatcher := a.1.dispatcher ++ [e.2] }, a.2 ++ [Event.invokeAsync e.2]))
    acc

/-- The loop over `_uniqueGroupsResources` (lines 384-411): the symbols of
each group are unregistered and one release task is posted per entry of its
map. The map itself is not cleared: every entry stays under its key, its
resource moved out into the posted task. The maps here hold no null resources,
so an entry keeps naming the resource that was moved out of it; the group is
dropped from the tile once the loop is over (line 414). -/
def releaseUnique (O : HashOrder) (self : Nat) (groups : List GroupRef)
    (acc : World × List Event) : World × List Event :=
  groups.foldl
    (fun a groupResources =>
      let a1 := (a.1.groups groupResources).group.symbols.foldl (unregisterMapSymbol self) a
      postReleases O (a1.1.groups groupResources).resourcesInGPU a1)
    acc

/-- The loop over `_referencedSharedGroupsResources` (lines 418-480). `none`:
as for `unloadShared`. -/
def releaseShared (O : HashOrder) (self : Nat) (zoom : Nat) :
    List GroupRef → World × List Event → Option (World × List Event)
  | [], acc => some acc
  | groupResources :: rest, acc =>
    let a1 := (acc.1.groups groupResources).group.symbols.foldl (unregisterMapSymbol self) acc
    if (a1.1.groups groupResources).resourcesInGPU.isEmpty then
      releaseShared O self zoom rest a1
    else
      match (a1.1.groups groupResources).group.shareableId with
      | none => none
      | some id =>
        match releaseReference (a1.1.sharedGroupsResources zoom) id true with
        | none => none
        | some (c, wasRemoved, _) =>
          let w1 : World := { a1.1 with
            sharedGroupsResources := upd a1.1.sharedGroupsResources zoom c }
          let tr := a1.2 ++ [Event.releaseReference id true wasRemoved]
          if !wasRemoved then releaseShared O self zoom rest (w1, tr)
          else
            let a2 := postReleases O (w1.groups groupResources).resourcesInGPU (w1, tr)
            releaseShared O self zoom rest
              ({ a2.1 with
                  groups := upd a2.1.groups groupResources
                    { (a2.1.groups groupResources) with resourcesInGPU := [] } }, a2.2)

/-- The method `releaseData` (lines 374-486). `none`: as for `unloadFromGPU`.
The `use_count()` assertions concern pointer bookkeeping and are left out. -/
def releaseData (O : HashOrder) (t : MapRendererTiledSymbolsResource) (w : World) : Option Step :=
  if !t.link then none
  else
    let u := releaseUnique O t.self t._uniqueGroupsResources (w, [])
    match releaseShared O t.self t.zoom t._referencedSharedGroupsResources u with
    | none => none
    | some r =>
      some { tile := { t with
               _resourcesInGPU := []
               _uniqueGroupsResources := []
               _referencedSharedGroupsResources := []
               _sourceData := none }
             world := r.1, trace := r.2 }

end OsmAnd

namespace OsmAnd

/-! ## Concrete inputs -/

/-- A world before any tile was obtained: no group allocated, every symbol
carries its bitmap, the shared caches are empty and no load is in flight. -/
def World.initial : World :=
  { groups := fun _ => { group := { symbols := [], shareableId := none }, resourcesInGPU := [] }
    nextGroup := 0
    bitmap := fun s => some s
    sharedGroupsResources := fun _ _ => CacheEntry.absent
    inFlight := fun _ _ => none
    registry := []
    dispatcher := [] }

/-- An owner whose upload succeeds for every symbol but `bad`. -/
def uploadExcept (bad : MapSymbol) : Unit → MapSymbol → Option ResourceInGPU × Unit :=
  fun _ s => (if s = bad then none else some (100 + s), ())

/-- An owner whose upload always succeeds. -/
def uploadAlways : Unit → MapSymbol → Option ResourceInGPU × Unit :=
  fun _ s => (some (100 + s), ())

/-- A world with a unique group (object 0, symbols 7 and 8) and a shared group
(object 1, id 42, symbol 9) that some tile has uploaded already. -/
def demoWorld : World :=
  { World.initial with
    groups := upd (upd World.initial.groups 0
        { group := { symbols := [7, 8], shareableId := none }, resourcesInGPU := [] })
      1 { group := { symbols := [9], shareableId := some 42 }, resourcesInGPU := [(9, 109)] }
    nextGroup := 2
    bitmap := upd World.initial.bitmap 9 none
    sharedGroupsResources := upd World.initial.sharedGroupsResources 10
      (upd (World.initial.sharedGroupsResources 10) 42 (CacheEntry.resolved 1 2)) }

/-- A tile resource holding the two groups of `demoWorld`. -/
def demoTile : MapRendererTiledSymbolsResource :=
  { self := 1, link := true, zoom := 10, _sourceData := some { symbolsGroups := [] }
    _uniqueGroupsResources := [0], _referencedSharedGroupsResources := [1]
    _resourcesInGPU := [] }

/-- A fresh tile resource, number 1, at zoom 10. -/
def tileA : MapRendererTiledSymbolsResource :=
  { self := 1, link := true, zoom := 10, _sourceData := none
    _uniqueGroupsResources := [], _referencedSharedGroupsResources := []
    _resourcesInGPU := [] }

/-- A fresh tile resource, number 2, at zoom 10. -/
def tileB : MapRendererTiledSymbolsResource :=
  { self := 2, link := true, zoom := 10, _sourceData := none
    _uniqueGroupsResources := [], _referencedSharedGroupsResources := []
    _resourcesInGPU := [] }

/-- A group shareable under id 42, with symbols 7 and 8. -/
def group42 : MapSymbolsGroup := { symbols := [7, 8], shareableId := some 42 }

/-- A provider that offers `group42` and returns a tile holding it when the
callback accepted it, an empty tile otherwise. -/
def provider42 : ProviderRun :=
  ProviderRun.ask group42 (fun accepted =>
    ProviderRun.done true (some { symbolsGroups := if accepted then [group42] else [] }))

/-- A provider that offers `group42` and then fails (for instance on
cancellation). -/
def failingProvider42 : ProviderRun :=
  ProviderRun.ask group42 (fun _ => ProviderRun.done false none)

/-- The states of a run in which tiles A and B obtain the same shared group,
A and then B upload, and A is unloaded and released while B stays. -/
structure SharedGroupRun where
  aObtained : ObtainResult
  bObtained : ObtainResult
  aUploaded : UploadResult Unit
  bUploaded : UploadResult Unit
  aUnloaded : Step
  aReleased : Step

/-- The run described at `SharedGroupRun`, from `World.initial`. -/
def sharedGroupRun : Option SharedGroupRun :=
  (obtainData (some provider42) false tileA World.initial).bind fun a1 =>
  (obtainData (some provider42) false tileB a1.world).bind fun b1 =>
  let a2 := uploadToGPU HashOrder.insertion uploadAlways () a1.tile b1.world
  let b2 := uploadToGPU HashOrder.insertion uploadAlways () b1.tile a2.world
  (unloadFromGPU a2.tile b2.world).bind fun a3 =>
  (releaseData HashOrder.insertion a3.tile a3.world).bind fun a4 =>
  some { aObtained := a1, bObtained := b1, aUploaded := a2, bUploaded := b2
         aUnloaded := a3, aReleased := a4 }

/-- Whether an event is a `releaseReference` call for the given id. -/
def Event.isReleaseOf (id : Nat) : Event → Bool
  | .releaseReference i _ _ => decide (i = id)
  | _ => false

/-- Tile A obtains the shared group and is released without ever being uploaded. -/
def obtainThenRelease : Option (ObtainResult × Step) :=
  (obtainData (some provider42) false tileA World.initial).bind fun a =>
  (releaseData HashOrder.insertion a.tile a.world).map fun r => (a, r)

/-- Tile A obtains the shared group, then the provider request of tile B fails
after the callback has taken a reference to that group. -/
def obtainThenFailedRequest : Option (ObtainResult × ObtainResult) :=
  (obtainData (some provider42) false tileA World.initial).bind fun a =>
  (obtainData (some failingProvider42) false tileB a.world).map fun b => (a, b)

/-- A group that is not shareable, with symbol 5. -/
def group5 : MapSymbolsGroup := { symbols := [5], shareableId := none }

/-- A provider that offers `group5` and returns a tile holding it. -/
def provider5 : ProviderRun :=
  ProviderRun.ask group5 (fun _ => ProviderRun.done true (some { symbolsGroups := [group5] }))

/-- The provider request of tile A fails after the callback has claimed id 42;
then tile B is offered the same group. -/
def failedRequestThenObtain : Option ObtainResult :=
  (obtainData (some failingProvider42) false tileA World.initial).bind fun a =>
  obtainData (some provider42) false tileB a.world

end OsmAnd

namespace OsmAnd

/-! ## Loop bodies, event classes and reachable states -/

/-- Whether an event is a `registerMapSymbol` call. -/
def Event.isRegister : Event → Bool
  | .registerMapSymbol _ _ => true
  | _ => false

/-- Whether an event is an `unregisterMapSymbol` call. -/
def Event.isUnregister : Event → Bool
  | .unregisterMapSymbol _ _ => true
  | _ => false

/-- Whether an event is a `fulfilPromiseAndReference` call. -/
def Event.isFulfil : Event → Bool
  | .fulfilPromiseAndReference _ _ => true
  | _ => false

/-- Whether an event is a `releaseReference` call. -/
def Event.isRelease : Event → Bool
  | .releaseReference _ _ _ => true
  | _ => false

/-- Whether an event is a task posted with `invokeAsync`. -/
def Event.isInvokeAsync : Event → Bool
  | .invokeAsync _ => true
  | _ => false

/-- Whether an event is a failed upload of a symbol whose `bitmap` is null in
the given world: the upload whose `LogPrintf` dereferences the null pointer. -/
def Event.isFailedUploadWithoutBitmap (w : World) : Event → Bool
  | .uploadSymbolToGPU _ s none => (w.bitmap s).isNone
  | _ => false

/-- The test of lines 114-117: the group is shareable by id and its id is in
`loadedSharedGroups`. -/
def isLoadedShared (loadedSharedGroups : List Nat) (group : MapSymbolsGroup) : Bool :=
  match group.shareableId with
  | none => false
  | some id => loadedSharedGroups.contains id

/-- The `fulfilPromiseAndReference` call made for a group of the tile that is
published as object `groupResources` (line 124). -/
def publication (p : GroupRef × MapSymbolsGroup) : Option Event :=
  p.2.shareableId.map (fun id => Event.fulfilPromiseAndReference id p.1)

/-- The symbols of the groups in a list, group by group, as the registration
and de-registration loops meet them. -/
def symbolsOf (w : World) (groups : List GroupRef) : List MapSymbol :=
  groups.flatMap (fun groupResources => (w.groups groupResources).group.symbols)

/-- One iteration of the loop over `_referencedSharedGroupsResources` in
`unloadFromGPU` (lines 339-369). -/
def unloadSharedGroup (zoom : Nat) (acc : World × List Event) (groupResources : GroupRef) :
    Option (World × List Event) :=
  match (acc.1.groups groupResources).group.shareableId with
  | none => none
  | some id =>
    match releaseReference (acc.1.sharedGroupsResources zoom) id true with
    | none => none
    | some (c, wasRemoved, _) =>
      let w1 : World := { acc.1 with
        sharedGroupsResources := upd acc.1.sharedGroupsResources zoom c }
      let w2 : World :=
        if wasRemoved then
          { w1 with
              groups := upd w1.groups groupResources
                { (w1.groups groupResources) with resourcesInGPU := [] } }
        else w1
      some (w2, acc.2 ++ [Event.releaseReference id true wasRemoved])

/-- One iteration of the loop over `_referencedSharedGroupsResources` in
`releaseData` (lines 420-479). -/
def releaseSharedGroup (O : HashOrder) (self : Nat) (zoom : Nat) (acc : World × List Event)
    (groupResources : GroupRef) : Option (World × List Event) :=
  let a1 := (acc.1.groups groupResources).group.symbols.foldl (unregisterMapSymbol self) acc
  if (a1.1.groups groupResources).resourcesInGPU.isEmpty then some a1
  else
    match (a1.1.groups groupResources).group.shareableId with
    | none => none
    | some id =>
      match releaseReference (a1.1.sharedGroupsResources zoom) id true with
      | none => none
      | some (c, wasRemoved, _) =>
        let w1 : World := { a1.1 with
          sharedGroupsResources := upd a1.1.sharedGroupsResources zoom c }
        let tr := a1.2 ++ [Event.releaseReference id true wasRemoved]
        if !wasRemoved then some (w1, tr)
        else
          let a2 := postReleases O (w1.groups groupResources).resourcesInGPU (w1, tr)
          some ({ a2.1 with
                    groups := upd a2.1.groups groupResources
                      { (a2.1.groups groupResources) with resourcesInGPU := [] } }, a2.2)

/-- The states a tile resource and the world can reach from a given state by
`uploadToGPU` and `unloadFromGPU` calls on that tile resource, whatever the
owner's upload does and in whatever order the hash containers are walked. -/
inductive GpuCalls :
    MapRendererTiledSymbolsResource × World → MapRendererTiledSymbolsResource × World → Prop where
  | done (x : MapRendererTiledSymbolsResource × World) : GpuCalls x x
  | upload {σ : Type} (O : HashOrder) (up : σ → MapSymbol → Option ResourceInGPU × σ) (o : σ)
      (x y : MapRendererTiledSymbolsResource × World) :
      GpuCalls ((uploadToGPU O up o x.1 x.2).tile, (uploadToGPU O up o x.1 x.2).world) y →
      GpuCalls x y
  | unload (x y : MapRendererTiledSymbolsResource × World) (s : Step) :
      unloadFromGPU x.1 x.2 = some s → GpuCalls (s.tile, s.world) y → GpuCalls x y

/-- Tile A obtains a tile with the unique group `group5`, is uploaded,
unloaded and uploaded again. The result is the first and the second upload. -/
def reuploadRun : Option (UploadResult Unit × UploadResult Unit) :=
  (obtainData (some provider5) false tileA World.initial).bind fun a =>
  let u1 := uploadToGPU HashOrder.insertion uploadAlways () a.tile a.world
  (unloadFromGPU u1.tile u1.world).map fun s =>
  (u1, uploadToGPU HashOrder.insertion uploadAlways () s.tile s.world)

/-- Tile A obtains the shared group 42 and is uploaded. -/
def obtainThenUpload : Option (UploadResult Unit) :=
  (obtainData (some provider42) false tileA World.initial).map fun a =>
  uploadToGPU HashOrder.insertion uploadAlways () a.tile a.world

/-- The world of `demoWorld` when the tile is the last holder of the shared
group: the count of id 42 is 1. -/
def demoWorldLast : World :=
  { demoWorld with
    sharedGroupsResources := upd World.initial.sharedGroupsResources 10
      (upd (World.initial.sharedGroupsResources 10) 42 (CacheEntry.resolved 1 1)) }

/-- The relation between the state before and after the classification loop
of `obtainData` (lines 110-142): the groups of the tile become the objects
`nextGroup`, `nextGroup + 1`, ... in order; those shareable with their id
marked to be loaded are published and appended to the referenced-shared list,
the others are appended to the unique list; nothing else changes but the
shared cache. -/
def Classified (loaded : List Nat) (groups : List MapSymbolsGroup) (st c : Step) : Prop :=
  c.tile._uniqueGroupsResources = st.tile._uniqueGroupsResources ++
    ((groups.enumFrom st.world.nextGroup).filter
      (fun p => !isLoadedShared loaded p.2)).map Prod.fst ∧
  c.tile._referencedSharedGroupsResources = st.tile._referencedSharedGroupsResources ++
    ((groups.enumFrom st.world.nextGroup).filter
      (fun p => isLoadedShared loaded p.2)).map Prod.fst ∧
  c.trace = st.trace ++
    ((groups.enumFrom st.world.nextGroup).filter
      (fun p => isLoadedShared loaded p.2)).filterMap publication ∧
  c.world.nextGroup = st.world.nextGroup + groups.length ∧
  (∀ p ∈ groups.enumFrom st.world.nextGroup,
    c.world.groups p.1 = { group := p.2, resourcesInGPU := [] }) ∧
  (∀ x, x < st.world.nextGroup → c.world.groups x = st.world.groups x) ∧
  c.world.registry = st.world.registry ∧
  c.world.bitmap = st.world.bitmap ∧
  c.world.dispatcher = st.world.dispatcher ∧
  c.tile.self = st.tile.self ∧ c.tile.zoom = st.tile.zoom ∧
  c.tile.link = st.tile.link ∧ c.tile._sourceData = st.tile._sourceData ∧
  c.tile._resourcesInGPU = st.tile._resourcesInGPU

/-- A provider that offers the unique group `group5` and the shareable group
`group42`, and returns a tile with `group5` and, when the callback accepted
it, `group42`. -/
def providerBoth : ProviderRun :=
  ProviderRun.ask group5 (fun _ =>
    ProviderRun.ask group42 (fun accepted =>
      ProviderRun.done true
        (some { symbolsGroups := group5 :: (if accepted then [group42] else []) })))

/-- Tile A after `obtainData` with `providerBoth` in `World.initial`. -/
def obtainedBoth : ObtainResult :=
  (obtainData (some providerBoth) false tileA World.initial).getD
    { ok := false, dataAvailable := false, tile := tileA, world := World.initial, trace := [] }

/-- The state of `obtainedBoth` after a successful `uploadToGPU`. -/
def uploadedBoth : UploadResult Unit :=
  uploadToGPU HashOrder.insertion uploadAlways () obtainedBoth.tile obtainedBoth.world

/-- The state of `uploadedBoth` after `unloadFromGPU`. -/
def unloadedBoth : Step :=
  (unloadFromGPU uploadedBoth.tile uploadedBoth.world).getD
    { tile := uploadedBoth.tile, world := uploadedBoth.world, trace := [] }

/-- The state of `unloadedBoth` after `releaseData`. -/
def releasedBoth : Step :=
  (releaseData HashOrder.insertion unloadedBoth.tile unloadedBoth.world).getD
    { tile := unloadedBoth.tile, world := unloadedBoth.world, trace := [] }

/-! ## uploadToGPU: the uploads of a call -/

/-- The group and the symbol of an upload call. -/
def Event.uploadTarget : Event → Option (GroupRef × MapSymbol)
  | .uploadSymbolToGPU g s _ => some (g, s)
  | _ => none

/-- Specification of the uploads of a call of `uploadToGPU`, to compare its
calls with: in order, as pairs of group and symbol, every symbol of every
unique group, then every symbol of every referenced shared group whose map is
empty at the start of the call. -/
def uploadTargets (t : MapRendererTiledSymbolsResource) (w : World) :
    List (GroupRef × MapSymbol) :=
  (t._uniqueGroupsResources.flatMap
    (fun g => (w.groups g).group.symbols.map (fun s => (g, s)))) ++
  ((t._referencedSharedGroupsResources.filter
      (fun g => (w.groups g).resourcesInGPU.isEmpty)).flatMap
    (fun g => (w.groups g).group.symbols.map (fun s => (g, s))))

/-- Specification of "every upload succeeds": whether the owner's
`uploadSymbolToGPU` succeeds for each symbol of a list when it is called for
them one after the other, starting in state `o`. -/
def uploadsSucceed {σ : Type} (up : σ → MapSymbol → Option ResourceInGPU × σ) :
    σ → List MapSymbol → Bool
  | _, [] => true
  | o, s :: rest =>
    match up o s with
    | (none, _) => false
    | (some _, o1) => uploadsSucceed up o1 rest

/-- An owner whose uploads always succeed and return a fresh handle each
time: 200, 201, 202, ... -/
def uploadCounting : Nat → MapSymbol → Option ResourceInGPU × Nat :=
  fun n _ => (some (200 + n), n + 1)

/-- A group that is not shareable, with symbol 7. -/
def group7 : MapSymbolsGroup := { symbols := [7], shareableId := none }

/-- A group that is not shareable, with symbols 7 and 8. -/
def group78 : MapSymbolsGroup := { symbols := [7, 8], shareableId := none }

/-- A provider whose tile holds two groups that share symbol 7. -/
def providerTwin : ProviderRun :=
  ProviderRun.ask group7 (fun _ =>
    ProviderRun.ask group78 (fun _ =>
      ProviderRun.done true (some { symbolsGroups := [group7, group78] })))

/-- Tile A obtains the two groups of `providerTwin` (objects 0 and 1) and is
uploaded by `uploadCounting`. The result is the upload when the hash
containers are walked in insertion order, and when they are walked in
reverse. -/
def twinRun : Option (UploadResult Nat × UploadResult Nat) :=
  (obtainData (some providerTwin) false tileA World.initial).map fun a =>
  (uploadToGPU HashOrder.insertion uploadCounting 0 a.tile a.world,
   uploadToGPU HashOrder.reversed uploadCounting 0 a.tile a.world)

/-- Tile A obtains a tile with the unique group `group5`, is uploaded and
unloaded, and is then uploaded by an owner whose upload of symbol 5 fails.
The result is the first and the second upload. -/
def reuploadFailingRun : Option (UploadResult Unit × UploadResult Unit) :=
  (obtainData (some provider5) false tileA World.initial).bind fun a =>
  let u1 := uploadToGPU HashOrder.insertion uploadAlways () a.tile a.world
  (unloadFromGPU u1.tile u1.world).map fun s =>
  (u1, uploadToGPU HashOrder.insertion (uploadExcept 5) () s.tile s.world)

/-! ## obtainData: loads in flight -/

/-- The provider's tile holds each group that this call is to publish once:
no two groups of the tile that are shareable with their id marked to be loaded
have the same id. -/
def PublishesOnce (loadedSharedGroups : List Nat) (tile : TiledMapSymbolsData) : Prop :=
  ((tile.symbolsGroups.filter (isLoadedShared loadedSharedGroups)).filterMap
    (fun group => group.shareableId)).Nodup

/-- Every future the callback collected resolves: its id is published by this
call (the id is marked to be loaded and the provider's tile holds the group),
or a load of the id is in flight in another tile resource. -/
def FuturesResolve (cb : CallbackState) (tile : TiledMapSymbolsData)
    (inFlight : Nat → Option GroupRef) : Prop :=
  ∀ id ∈ cb.futureReferencedSharedGroupsResources,
    (∃ group ∈ tile.symbolsGroups, group.shareableId = some id ∧ id ∈ cb.loadedSharedGroups) ∨
    (inFlight id).isSome = true

/-- A group shareable under id 41, with symbol 1. -/
def group41 : MapSymbolsGroup := { symbols := [1], shareableId := some 41 }

/-- A group shareable under id 43, with symbol 3. -/
def group43 : MapSymbolsGroup := { symbols := [3], shareableId := some 43 }

/-- A world in which other tile resources are at work at zoom 10: one has
published group 41 as object 0 and holds it, another has claimed id 43 and is
loading it; what it will publish is object 1. -/
def busyWorld : World :=
  { World.initial with
    groups := upd (upd World.initial.groups 0 { group := group41, resourcesInGPU := [] })
      1 { group := group43, resourcesInGPU := [] }
    nextGroup := 2
    sharedGroupsResources := upd World.initial.sharedGroupsResources 10
      (upd (upd (World.initial.sharedGroupsResources 10) 41 (CacheEntry.resolved 0 1))
        43 (CacheEntry.promised 0))
    inFlight := upd World.initial.inFlight 10 (upd (World.initial.inFlight 10) 43 (some 1)) }

/-- A provider that offers `group5`, `group41`, `group42` and `group43` and
returns a tile with those of them the callback accepted. -/
def providerMixed : ProviderRun :=
  ProviderRun.ask group5 (fun a5 =>
    ProviderRun.ask group41 (fun a41 =>
      ProviderRun.ask group42 (fun a42 =>
        ProviderRun.ask group43 (fun a43 =>
          ProviderRun.done true
            (some { symbolsGroups :=
              (if a5 then [group5] else []) ++ (if a41 then [group41] else []) ++
              (if a42 then [group42] else []) ++ (if a43 then [group43] else []) })))))

/-- Tile B after `obtainData` with `providerMixed` in `busyWorld`. -/
def obtainedMixed : ObtainResult :=
  (obtainData (some providerMixed) false tileB busyWorld).getD
    { ok := false, dataAvailable := false, tile := tileB, world := busyWorld, trace := [] }

end OsmAnd

namespace OsmAnd

/-! ## Facts about the hash maps -/

theorem QHash.constFind_insert_self (m : GpuMap) (s : MapSymbol) (r : ResourceInGPU) :
    QHash.constFind (QHash.insert m s r) s = some r := by
  simp [QHash.insert, QHash.constFind]

theorem QHash.constFind_filter_ne (m : GpuMap) (s k : MapSymbol) (h : k ≠ s) :
    QHash.constFind (m.filter (fun e => decide (e.1 ≠ s))) k = QHash.constFind m k := by
  induction m with
  | nil => rfl
  | cons e rest ih =>
    obtain ⟨a, b⟩ := e
    by_cases ha : a = s
    · have hk : ¬ a = k := fun h2 => h (ha ▸ h2.symm)
      rw [List.filter_cons_of_neg (by simpa using ha)]
      rw [ih]
      simp [QHash.constFind, hk]
    · rw [List.filter_cons_of_pos (by simpa using ha)]
      simp only [QHash.constFind]
      rw [ih]

theorem QHash.constFind_insert_other (m : GpuMap) (s k : MapSymbol) (r : ResourceInGPU)
    (h : k ≠ s) : QHash.constFind (QHash.insert m s r) k = QHash.constFind m k := by
  have hs : ¬ s = k := fun h2 => h h2.symm
  unfold QHash.insert
  simp only [QHash.constFind, hs, if_false]
  exact QHash.constFind_filter_ne m s k h

theorem upd_same {β : Type} (f : Nat → β) (k : Nat) (v : β) : upd f k v k = v := by
  simp [upd]

theorem upd_other {β : Type} (f : Nat → β) (k x : Nat) (v : β) (h : x ≠ k) :
    upd f k v x = f x := by
  simp [upd, h]

/-! ## Facts about the upload loops -/

theorem uploadSymbols_flag {σ : Type} (up : σ → MapSymbol → Option ResourceInGPU × σ)
    (w : World) (g : GroupRef) :
    ∀ (syms : List MapSymbol) (st : UploadPass σ),
      st.calls.any Event.isFailedUpload = st.anyUploadFailed →
      (uploadSymbols up w g syms st).calls.any Event.isFailedUpload
        = (uploadSymbols up w g syms st).anyUploadFailed := by
  intro syms
  induction syms with
  | nil => intro st h; simpa [uploadSymbols] using h
  | cons s rest ih =>
    intro st h
    simp only [uploadSymbols]
    split
    · simp [List.any_append, Event.isFailedUpload]
    · apply ih
      simp [List.any_append, Event.isFailedUpload, h]

theorem uploadUnique_flag {σ : Type} (up : σ → MapSymbol → Option ResourceInGPU × σ)
    (w : World) :
    ∀ (gs : List GroupRef) (st : UploadPass σ),
      st.calls.any Event.isFailedUpload = st.anyUploadFailed →
      (uploadUnique up w gs st).calls.any Event.isFailedUpload
        = (uploadUnique up w gs st).anyUploadFailed := by
  intro gs
  induction gs with
  | nil => intro st h; simpa [uploadUnique] using h
  | cons g rest ih =>
    intro st h
    have h1 := uploadSymbols_flag up w g (w.groups g).group.symbols st h
    simp only [uploadUnique]
    split
    · exact h1
    · exact ih _ h1

theorem uploadShared_flag {σ : Type} (up : σ → MapSymbol → Option ResourceInGPU × σ)
    (w : World) :
    ∀ (gs : List GroupRef) (st : UploadPass σ),
      st.calls.any Event.isFailedUpload = st.anyUploadFailed →
      (uploadShared up w gs st).calls.any Event.isFailedUpload
        = (uploadShared up w gs st).anyUploadFailed := by
  intro gs
  induction gs with
  | nil => intro st h; simpa [uploadShared] using h
  | cons g rest ih =>
    intro st h
    have h1 := uploadSymbols_flag up w g (w.groups g).group.symbols st h
    simp only [uploadShared]
    split
    · exact ih _ h
    · split
      · exact ih _ h
      · split
        · exact h1
        · exact ih _ h1

theorem sharedPass_flag {σ : Type} (up : σ → MapSymbol → Option ResourceInGPU × σ) (o : σ)
    (t : MapRendererTiledSymbolsResource) (w : World) :
    (sharedPass up o t w).calls.any Event.isFailedUpload
      = (sharedPass up o t w).anyUploadFailed := by
  have hu : (uniquePass up o t w).calls.any Event.isFailedUpload
      = (uniquePass up o t w).anyUploadFailed :=
    uploadUnique_flag up w t._uniqueGroupsResources _ rfl
  unfold sharedPass
  split
  · exact hu
  · exact uploadShared_flag up w t._referencedSharedGroupsResources _ hu

theorem uploadToGPU_calls {σ : Type} (O : HashOrder)
    (up : σ → MapSymbol → Option ResourceInGPU × σ) (o : σ)
    (t : MapRendererTiledSymbolsResource) (w : World) :
    (uploadToGPU O up o t w).calls = (sharedPass up o t w).calls := by
  simp only [uploadToGPU]
  split <;> rfl

theorem mem_failed_iff (calls : List Event) :
    calls.any Event.isFailedUpload = true ↔
      ∃ g s, Event.uploadSymbolToGPU g s none ∈ calls := by
  constructor
  · intro h
    obtain ⟨e, he, hf⟩ := List.any_eq_true.mp h
    cases e with
    | uploadSymbolToGPU g s r =>
      cases r with
      | none => exact ⟨g, s, he⟩
      | some r => simp [Event.isFailedUpload] at hf
    | _ => simp [Event.isFailedUpload] at hf
  · rintro ⟨g, s, h⟩
    exact List.any_eq_true.mpr ⟨_, h, rfl⟩


/-- How one run of the inner upload loop relates the locals before and after:
the failure flag only rises, nothing recorded is lost, without a failure every
symbol of the group has an entry, and every new entry or call belongs to the
group and, for an entry, has its successful call. -/
theorem uploadSymbols_spec {σ : Type} (up : σ → MapSymbol → Option ResourceInGPU × σ)
    (w : World) (g : GroupRef) :
    ∀ (syms : List MapSymbol) (st : UploadPass σ),
      (st.anyUploadFailed = true → (uploadSymbols up w g syms st).anyUploadFailed = true) ∧
      (∀ e ∈ st.uploaded, e ∈ (uploadSymbols up w g syms st).uploaded) ∧
      (∀ ev ∈ st.calls, ev ∈ (uploadSymbols up w g syms st).calls) ∧
      ((uploadSymbols up w g syms st).anyUploadFailed = false →
        ∀ s ∈ syms, ∃ h, (g, s, h) ∈ (uploadSymbols up w g syms st).uploaded) ∧
      (∀ e ∈ (uploadSymbols up w g syms st).uploaded, e ∈ st.uploaded ∨
        (e.1 = g ∧ Event.uploadSymbolToGPU g e.2.1 (some e.2.2)
          ∈ (uploadSymbols up w g syms st).calls)) ∧
      (∀ ev ∈ (uploadSymbols up w g syms st).calls, ev ∈ st.calls ∨
        ∃ s r, ev = Event.uploadSymbolToGPU g s r) := by
  intro syms
  induction syms with
  | nil =>
    intro st
    simp only [uploadSymbols]
    refine ⟨fun h => h, fun e h => h, fun e h => h, ?_, fun e h => Or.inl h, fun e h => Or.inl h⟩
    intro _ s hs
    cases hs
  | cons s rest ih =>
    intro st
    simp only [uploadSymbols]
    split
    · refine ⟨fun _ => rfl, fun e h => h, ?_, ?_, fun e h => Or.inl h, ?_⟩
      · intro ev h
        exact List.mem_append_left _ h
      · intro h
        cases h
      · intro ev h
        rcases List.mem_append.mp h with h | h
        · exact Or.inl h
        · exact Or.inr ⟨s, none, by simpa using h⟩
    · rename_i r o hup
      obtain ⟨i1, i2, i3, i4, i5, i6⟩ := ih
        { owner := o
          uploaded := st.uploaded ++ [(g, s, r)]
          anyUploadFailed := st.anyUploadFailed
          calls := st.calls ++ [Event.uploadSymbolToGPU g s (some r)]
          assertsHeld := st.assertsHeld && (w.bitmap s).isSome
          nullDereferenced := st.nullDereferenced }
      refine ⟨i1, ?_, ?_, ?_, ?_, ?_⟩
      · intro e h
        exact i2 e (List.mem_append_left _ h)
      · intro ev h
        exact i3 ev (List.mem_append_left _ h)
      · intro hf x hx
        rcases List.mem_cons.mp hx with hx | hx
        · subst hx
          exact ⟨r, i2 _ (List.mem_append_right _ (List.mem_singleton.mpr rfl))⟩
        · exact i4 hf x hx
      · intro e he
        rcases i5 e he with h | h
        · rcases List.mem_append.mp h with h | h
          · exact Or.inl h
          · have he2 : e = (g, s, r) := List.mem_singleton.mp h
            subst he2
            exact Or.inr ⟨rfl, i3 _ (List.mem_append_right _ (List.mem_singleton.mpr rfl))⟩
        · exact Or.inr h
      · intro ev hev
        rcases i6 ev hev with h | h
        · rcases List.mem_append.mp h with h | h
          · exact Or.inl h
          · exact Or.inr ⟨s, some r, List.mem_singleton.mp h⟩
        · exact Or.inr h

/-- The same relation for the loop over the unique groups. -/
theorem uploadUnique_spec {σ : Type} (up : σ → MapSymbol → Option ResourceInGPU × σ)
    (w : World) :
    ∀ (gs : List GroupRef) (st : UploadPass σ),
      (st.anyUploadFailed = true → (uploadUnique up w gs st).anyUploadFailed = true) ∧
      (∀ e ∈ st.uploaded, e ∈ (uploadUnique up w gs st).uploaded) ∧
      (∀ ev ∈ st.calls, ev ∈ (uploadUnique up w gs st).calls) ∧
      ((uploadUnique up w gs st).anyUploadFailed = false →
        ∀ g ∈ gs, ∀ s ∈ (w.groups g).group.symbols,
          ∃ h, (g, s, h) ∈ (uploadUnique up w gs st).uploaded) ∧
      (∀ e ∈ (uploadUnique up w gs st).uploaded, e ∈ st.uploaded ∨
        (e.1 ∈ gs ∧ Event.uploadSymbolToGPU e.1 e.2.1 (some e.2.2)
          ∈ (uploadUnique up w gs st).calls)) ∧
      (∀ ev ∈ (uploadUnique up w gs st).calls, ev ∈ st.calls ∨
        ∃ g ∈ gs, ∃ s r, ev = Event.uploadSymbolToGPU g s r) := by
  intro gs
  induction gs with
  | nil =>
    intro st
    simp only [uploadUnique]
    refine ⟨fun h => h, fun e h => h, fun e h => h, ?_, fun e h => Or.inl h, fun e h => Or.inl h⟩
    intro _ g hg
    cases hg
  | cons g rest ih =>
    intro st
    obtain ⟨s1, s2, s3, s4, s5, s6⟩ := uploadSymbols_spec up w g (w.groups g).group.symbols st
    simp only [uploadUnique]
    split
    · rename_i hf
      refine ⟨fun _ => hf, s2, s3, ?_, ?_, ?_⟩
      · intro h
        rw [hf] at h
        cases h
      · intro e he
        rcases s5 e he with h | ⟨h1, h2⟩
        · exact Or.inl h
        · refine Or.inr ⟨?_, ?_⟩
          · rw [h1]; exact List.mem_cons_self _ _
          · rw [h1]; exact h2
      · intro ev hev
        rcases s6 ev hev with h | ⟨s, r, h⟩
        · exact Or.inl h
        · exact Or.inr ⟨g, List.mem_cons_self _ _, s, r, h⟩
    · rename_i hf
      have hf : (uploadSymbols up w g (w.groups g).group.symbols st).anyUploadFailed = false := by
        simpa using hf
      obtain ⟨i1, i2, i3, i4, i5, i6⟩ :=
        ih (uploadSymbols up w g (w.groups g).group.symbols st)
      refine ⟨fun h => i1 (s1 h), fun e h => i2 e (s2 e h), fun ev h => i3 ev (s3 ev h),
        ?_, ?_, ?_⟩
      · intro h x hx s hs
        rcases List.mem_cons.mp hx with hx | hx
        · subst hx
          obtain ⟨r, hr⟩ := s4 hf s hs
          exact ⟨r, i2 _ hr⟩
        · exact i4 h x hx s hs
      · intro e he
        rcases i5 e he with h | ⟨h1, h2⟩
        · rcases s5 e h with h | ⟨h1, h2⟩
          · exact Or.inl h
          · refine Or.inr ⟨?_, ?_⟩
            · rw [h1]; exact List.mem_cons_self _ _
            · rw [h1]; exact i3 _ h2
        · exact Or.inr ⟨List.mem_cons_of_mem _ h1, h2⟩
      · intro ev hev
        rcases i6 ev hev with h | ⟨x, hx, s, r, h⟩
        · rcases s6 ev h with h | ⟨s, r, h⟩
          · exact Or.inl h
          · exact Or.inr ⟨g, List.mem_cons_self _ _, s, r, h⟩
        · exact Or.inr ⟨x, List.mem_cons_of_mem _ hx, s, r, h⟩

/-- The same relation for the loop over the referenced shared groups, where
only groups with an empty map are uploaded. -/
theorem uploadShared_spec {σ : Type} (up : σ → MapSymbol → Option ResourceInGPU × σ)
    (w : World) :
    ∀ (gs : List GroupRef) (st : UploadPass σ),
      (st.anyUploadFailed = true → (uploadShared up w gs st).anyUploadFailed = true) ∧
      (∀ e ∈ st.uploaded, e ∈ (uploadShared up w gs st).uploaded) ∧
      (∀ ev ∈ st.calls, ev ∈ (uploadShared up w gs st).calls) ∧
      ((uploadShared up w gs st).anyUploadFailed = false →
        ∀ g ∈ gs, (w.groups g).resourcesInGPU = [] → ∀ s ∈ (w.groups g).group.symbols,
          ∃ h, (g, s, h) ∈ (uploadShared up w gs st).uploaded) ∧
      (∀ e ∈ (uploadShared up w gs st).uploaded, e ∈ st.uploaded ∨
        (e.1 ∈ gs ∧ (w.groups e.1).resourcesInGPU = [] ∧
          Event.uploadSymbolToGPU e.1 e.2.1 (some e.2.2) ∈ (uploadShared up w gs st).calls)) ∧
      (∀ ev ∈ (uploadShared up w gs st).calls, ev ∈ st.calls ∨
        ∃ g ∈ gs, (w.groups g).resourcesInGPU = [] ∧ ∃ s r, ev = Event.uploadSymbolToGPU g s r) := by
  intro gs
  induction gs with
  | nil =>
    intro st
    simp only [uploadShared]
    refine ⟨fun h => h, fun e h => h, fun e h => h, ?_, fun e h => Or.inl h, fun e h => Or.inl h⟩
    intro _ g hg
    cases hg
  | cons g rest ih =>
    intro st
    have skip : ((w.groups g).resourcesInGPU = [] → (w.groups g).group.symbols = []) →
        (st.anyUploadFailed = true → (uploadShared up w rest st).anyUploadFailed = true) ∧
        (∀ e ∈ st.uploaded, e ∈ (uploadShared up w rest st).uploaded) ∧
        (∀ ev ∈ st.calls, ev ∈ (uploadShared up w rest st).calls) ∧
        ((uploadShared up w rest st).anyUploadFailed = false →
          ∀ x ∈ g :: rest, (w.groups x).resourcesInGPU = [] → ∀ s ∈ (w.groups x).group.symbols,
            ∃ h, (x, s, h) ∈ (uploadShared up w rest st).uploaded) ∧
        (∀ e ∈ (uploadShared up w rest st).uploaded, e ∈ st.uploaded ∨
          (e.1 ∈ g :: rest ∧ (w.groups e.1).resourcesInGPU = [] ∧
            Event.uploadSymbolToGPU e.1 e.2.1 (some e.2.2)
              ∈ (uploadShared up w rest st).calls)) ∧
        (∀ ev ∈ (uploadShared up w rest st).calls, ev ∈ st.calls ∨
          ∃ x ∈ g :: rest, (w.groups x).resourcesInGPU = [] ∧
            ∃ s r, ev = Event.uploadSymbolToGPU x s r) := by
      intro hskip
      obtain ⟨i1, i2, i3, i4, i5, i6⟩ := ih st
      refine ⟨i1, i2, i3, ?_, ?_, ?_⟩
      · intro h x hx hm s hs
        rcases List.mem_cons.mp hx with hx | hx
        · subst hx
          rw [hskip hm] at hs
          cases hs
        · exact i4 h x hx hm s hs
      · intro e he
        rcases i5 e he with h | ⟨h1, h2, h3⟩
        · exact Or.inl h
        · exact Or.inr ⟨List.mem_cons_of_mem _ h1, h2, h3⟩
      · intro ev hev
        rcases i6 ev hev with h | ⟨x, hx, hm, s, r, h⟩
        · exact Or.inl h
        · exact Or.inr ⟨x, List.mem_cons_of_mem _ hx, hm, s, r, h⟩
    obtain ⟨s1, s2, s3, s4, s5, s6⟩ := uploadSymbols_spec up w g (w.groups g).group.symbols st
    simp only [uploadShared]
    split
    · rename_i he
      exact skip (fun _ => List.isEmpty_iff.mp he)
    · split
      · rename_i hne
        apply skip
        intro hm
        rw [hm] at hne
        simp at hne
      · rename_i hne
        have hm : (w.groups g).resourcesInGPU = [] := by
          cases hq : (w.groups g).resourcesInGPU with
          | nil => rfl
          | cons a b => rw [hq] at hne; simp at hne
        split
        · rename_i hf
          refine ⟨fun _ => hf, s2, s3, ?_, ?_, ?_⟩
          · intro h
            rw [hf] at h
            cases h
          · intro e he
            rcases s5 e he with h | ⟨h1, h2⟩
            · exact Or.inl h
            · refine Or.inr ⟨?_, ?_, ?_⟩
              · rw [h1]; exact List.mem_cons_self _ _
              · rw [h1]; exact hm
              · rw [h1]; exact h2
          · intro ev hev
            rcases s6 ev hev with h | ⟨s, r, h⟩
            · exact Or.inl h
            · exact Or.inr ⟨g, List.mem_cons_self _ _, hm, s, r, h⟩
        · rename_i hf
          have hf : (uploadSymbols up w g (w.groups g).group.symbols st).anyUploadFailed
              = false := by simpa using hf
          obtain ⟨i1, i2, i3, i4, i5, i6⟩ :=
            ih (uploadSymbols up w g (w.groups g).group.symbols st)
          refine ⟨fun h => i1 (s1 h), fun e h => i2 e (s2 e h), fun ev h => i3 ev (s3 ev h),
            ?_, ?_, ?_⟩
          · intro h x hx hxm s hs
            rcases List.mem_cons.mp hx with hx | hx
            · subst hx
              obtain ⟨r, hr⟩ := s4 hf s hs
              exact ⟨r, i2 _ hr⟩
            · exact i4 h x hx hxm s hs
          · intro e he
            rcases i5 e he with h | ⟨h1, h2, h3⟩
            · rcases s5 e h with h | ⟨h1, h2⟩
              · exact Or.inl h
              · refine Or.inr ⟨?_, ?_, ?_⟩
                · rw [h1]; exact List.mem_cons_self _ _
                · rw [h1]; exact hm
                · rw [h1]; exact i3 _ h2
            · exact Or.inr ⟨List.mem_cons_of_mem _ h1, h2, h3⟩
          · intro ev hev
            rcases i6 ev hev with h | ⟨x, hx, hxm, s, r, h⟩
            · rcases s6 ev h with h | ⟨s, r, h⟩
              · exact Or.inl h
              · exact Or.inr ⟨g, List.mem_cons_self _ _, hm, s, r, h⟩
            · exact Or.inr ⟨x, List.mem_cons_of_mem _ hx, hxm, s, r, h⟩

/-! ## The crash on a null bitmap -/

theorem uploadSymbols_null {σ : Type} (up : σ → MapSymbol → Option ResourceInGPU × σ)
    (w : World) (g : GroupRef) :
    ∀ (syms : List MapSymbol) (st : UploadPass σ),
      st.calls.any (Event.isFailedUploadWithoutBitmap w) = st.nullDereferenced →
      (uploadSymbols up w g syms st).calls.any (Event.isFailedUploadWithoutBitmap w)
        = (uploadSymbols up w g syms st).nullDereferenced := by
  intro syms
  induction syms with
  | nil => intro st h; simpa [uploadSymbols] using h
  | cons s rest ih =>
    intro st h
    simp only [uploadSymbols]
    split
    · simp [List.any_append, Event.isFailedUploadWithoutBitmap, h]
    · apply ih
      simp [List.any_append, Event.isFailedUploadWithoutBitmap, h]

theorem uploadUnique_null {σ : Type} (up : σ → MapSymbol → Option ResourceInGPU × σ)
    (w : World) :
    ∀ (gs : List GroupRef) (st : UploadPass σ),
      st.calls.any (Event.isFailedUploadWithoutBitmap w) = st.nullDereferenced →
      (uploadUnique up w gs st).calls.any (Event.isFailedUploadWithoutBitmap w)
        = (uploadUnique up w gs st).nullDereferenced := by
  intro gs
  induction gs with
  | nil => intro st h; simpa [uploadUnique] using h
  | cons g rest ih =>
    intro st h
    have h1 := uploadSymbols_null up w g (w.groups g).group.symbols st h
    simp only [uploadUnique]
    split
    · exact h1
    · exact ih _ h1

theorem uploadShared_null {σ : Type} (up : σ → MapSymbol → Option ResourceInGPU × σ)
    (w : World) :
    ∀ (gs : List GroupRef) (st : UploadPass σ),
      st.calls.any (Event.isFailedUploadWithoutBitmap w) = st.nullDereferenced →
      (uploadShared up w gs st).calls.any (Event.isFailedUploadWithoutBitmap w)
        = (uploadShared up w gs st).nullDereferenced := by
  intro gs
  induction gs with
  | nil => intro st h; simpa [uploadShared] using h
  | cons g rest ih =>
    intro st h
    have h1 := uploadSymbols_null up w g (w.groups g).group.symbols st h
    simp only [uploadShared]
    split
    · exact ih _ h
    · split
      · exact ih _ h
      · split
        · exact h1
        · exact ih _ h1

theorem uniquePass_null {σ : Type} (up : σ → MapSymbol → Option ResourceInGPU × σ) (o : σ)
    (t : MapRendererTiledSymbolsResource) (w : World) :
    (uniquePass up o t w).calls.any (Event.isFailedUploadWithoutBitmap w)
      = (uniquePass up o t w).nullDereferenced :=
  uploadUnique_null up w t._uniqueGroupsResources _ rfl

theorem sharedPass_null {σ : Type} (up : σ → MapSymbol → Option ResourceInGPU × σ) (o : σ)
    (t : MapRendererTiledSymbolsResource) (w : World) :
    (sharedPass up o t w).calls.any (Event.isFailedUploadWithoutBitmap w)
      = (sharedPass up o t w).nullDereferenced := by
  have hu := uniquePass_null up o t w
  unfold sharedPass
  split
  · rename_i hc
    rw [hc] at hu
    exact hu
  · rename_i hc
    have hc2 : (uniquePass up o t w).nullDereferenced = false := by simpa using hc
    rw [hc2] at hu
    exact uploadShared_null up w t._referencedSharedGroupsResources _ hu

/-- A failed upload of a symbol without a bitmap is in particular a failed upload. -/
theorem any_failed_of_any_null (w : World) (calls : List Event)
    (h : calls.any (Event.isFailedUploadWithoutBitmap w) = true) :
    calls.any Event.isFailedUpload = true := by
  obtain ⟨e, he, hp⟩ := List.any_eq_true.mp h
  refine List.any_eq_true.mpr ⟨e, he, ?_⟩
  cases e with
  | uploadSymbolToGPU g s r =>
    cases r with
    | none => rfl
    | some r => simp [Event.isFailedUploadWithoutBitmap] at hp
  | _ => simp [Event.isFailedUploadWithoutBitmap] at hp

theorem uniquePass_failed_of_null {σ : Type} (up : σ → MapSymbol → Option ResourceInGPU × σ)
    (o : σ) (t : MapRendererTiledSymbolsResource) (w : World)
    (h : (uniquePass up o t w).nullDereferenced = true) :
    (uniquePass up o t w).anyUploadFailed = true := by
  have hu : (uniquePass up o t w).calls.any Event.isFailedUpload
      = (uniquePass up o t w).anyUploadFailed :=
    uploadUnique_flag up w t._uniqueGroupsResources _ rfl
  rw [← hu]
  apply any_failed_of_any_null w
  rw [uniquePass_null]
  exact h

/-- The locals after the second upload loop, relative to those after the
first: the failure flag only rises, no call is lost, without a failure every
symbol of every referenced shared group with an empty map has an entry, and
every entry and every new call belongs to such a group. -/
theorem sharedPass_spec {σ : Type} (up : σ → MapSymbol → Option ResourceInGPU × σ) (o : σ)
    (t : MapRendererTiledSymbolsResource) (w : World) :
    ((uniquePass up o t w).anyUploadFailed = true →
      (sharedPass up o t w).anyUploadFailed = true) ∧
    (∀ ev ∈ (uniquePass up o t w).calls, ev ∈ (sharedPass up o t w).calls) ∧
    ((sharedPass up o t w).anyUploadFailed = false →
      ∀ g ∈ t._referencedSharedGroupsResources, (w.groups g).resourcesInGPU = [] →
        ∀ s ∈ (w.groups g).group.symbols, ∃ h, (g, s, h) ∈ (sharedPass up o t w).uploaded) ∧
    (∀ e ∈ (sharedPass up o t w).uploaded,
      e.1 ∈ t._referencedSharedGroupsResources ∧ (w.groups e.1).resourcesInGPU = [] ∧
        Event.uploadSymbolToGPU e.1 e.2.1 (some e.2.2) ∈ (sharedPass up o t w).calls) ∧
    (∀ ev ∈ (sharedPass up o t w).calls, ev ∈ (uniquePass up o t w).calls ∨
      ∃ g ∈ t._referencedSharedGroupsResources, (w.groups g).resourcesInGPU = [] ∧
        ∃ s r, ev = Event.uploadSymbolToGPU g s r) := by
  by_cases hc : (uniquePass up o t w).nullDereferenced = true
  · have hsp : sharedPass up o t w =
        { owner := (uniquePass up o t w).owner
          uploaded := []
          anyUploadFailed := (uniquePass up o t w).anyUploadFailed
          calls := (uniquePass up o t w).calls
          assertsHeld := (uniquePass up o t w).assertsHeld
          nullDereferenced := true } := by
      unfold sharedPass
      rw [if_pos hc]
    rw [hsp]
    refine ⟨fun h => h, fun ev h => h, ?_, ?_, fun ev h => Or.inl h⟩
    · intro h
      have := uniquePass_failed_of_null up o t w hc
      simp only at h
      rw [this] at h
      cases h
    · intro e he
      cases he
  · have hsp : sharedPass up o t w =
        uploadShared up w t._referencedSharedGroupsResources
          { owner := (uniquePass up o t w).owner
            uploaded := []
            anyUploadFailed := (uniquePass up o t w).anyUploadFailed
            calls := (uniquePass up o t w).calls
            assertsHeld := (uniquePass up o t w).assertsHeld
            nullDereferenced := false } := by
      unfold sharedPass
      rw [if_neg hc]
    rw [hsp]
    obtain ⟨s1, _, s3, s4, s5, s6⟩ := uploadShared_spec up w t._referencedSharedGroupsResources
      { owner := (uniquePass up o t w).owner
        uploaded := []
        anyUploadFailed := (uniquePass up o t w).anyUploadFailed
        calls := (uniquePass up o t w).calls
        assertsHeld := (uniquePass up o t w).assertsHeld
        nullDereferenced := false }
    refine ⟨s1, s3, s4, ?_, s6⟩
    intro e he
    rcases s5 e he with h0 | h1
    · cases h0
    · exact h1

end OsmAnd

namespace OsmAnd

/-! ## Facts about the final loops of uploadToGPU -/

theorem commitUploaded_bitmap_none (L : List (GroupRef × MapSymbol × ResourceInGPU))
    (s : MapSymbol) :
    ∀ acc : MapRendererTiledSymbolsResource × World,
      (acc.2.bitmap s = none ∨ ∃ g h, (g, s, h) ∈ L) →
      (L.foldl commitUploaded acc).2.bitmap s = none := by
  induction L with
  | nil =>
    intro acc h
    rcases h with h | ⟨g, r, h⟩
    · exact h
    · cases h
  | cons e rest ih =>
    intro acc h
    simp only [List.foldl_cons]
    apply ih
    by_cases hs : s = e.2.1
    · left
      simp [commitUploaded, upd, hs]
    · rcases h with h | ⟨g, r, h⟩
      · left
        simp [commitUploaded, upd, hs, h]
      · rcases List.mem_cons.mp h with h | h
        · exact absurd (by rw [← h]) hs
        · exact Or.inr ⟨g, r, h⟩

theorem commitUploaded_tile_find (L : List (GroupRef × MapSymbol × ResourceInGPU))
    (s : MapSymbol) :
    ∀ acc : MapRendererTiledSymbolsResource × World,
      (∃ g h, (g, s, h) ∈ L ∧
        QHash.constFind (L.foldl commitUploaded acc).1._resourcesInGPU s = some h) ∨
      ((∀ g h, (g, s, h) ∉ L) ∧
        QHash.constFind (L.foldl commitUploaded acc).1._resourcesInGPU s
          = QHash.constFind acc.1._resourcesInGPU s) := by
  induction L with
  | nil =>
    intro acc
    right
    exact ⟨fun g h hm => List.not_mem_nil _ hm, rfl⟩
  | cons e rest ih =>
    intro acc
    simp only [List.foldl_cons]
    rcases ih (commitUploaded acc e) with ⟨g, h, hm, hf⟩ | ⟨hn, hf⟩
    · exact Or.inl ⟨g, h, List.mem_cons_of_mem _ hm, hf⟩
    · by_cases hs : s = e.2.1
      · left
        refine ⟨e.1, e.2.2, ?_, ?_⟩
        · rw [hs]; exact List.mem_cons_self _ _
        · rw [hf, hs]
          exact QHash.constFind_insert_self _ _ _
      · right
        refine ⟨?_, ?_⟩
        · intro g h hm
          rcases List.mem_cons.mp hm with hm | hm
          · exact hs (by rw [← hm])
          · exact hn g h hm
        · rw [hf]
          exact QHash.constFind_insert_other _ _ _ _ hs

theorem commitUploaded_group_find (L : List (GroupRef × MapSymbol × ResourceInGPU))
    (g : GroupRef) (s : MapSymbol) :
    ∀ acc : MapRendererTiledSymbolsResource × World,
      (∃ h, (g, s, h) ∈ L ∧
        QHash.constFind ((L.foldl commitUploaded acc).2.groups g).resourcesInGPU s = some h) ∨
      ((∀ h, (g, s, h) ∉ L) ∧
        QHash.constFind ((L.foldl commitUploaded acc).2.groups g).resourcesInGPU s
          = QHash.constFind (acc.2.groups g).resourcesInGPU s) := by
  induction L with
  | nil =>
    intro acc
    right
    exact ⟨fun h hm => List.not_mem_nil _ hm, rfl⟩
  | cons e rest ih =>
    intro acc
    simp only [List.foldl_cons]
    rcases ih (commitUploaded acc e) with ⟨h, hm, hf⟩ | ⟨hn, hf⟩
    · exact Or.inl ⟨h, List.mem_cons_of_mem _ hm, hf⟩
    · by_cases hg : g = e.1
      · by_cases hs : s = e.2.1
        · left
          refine ⟨e.2.2, ?_, ?_⟩
          · rw [hg, hs]; exact List.mem_cons_self _ _
          · rw [hf, hg, hs]
            simp only [commitUploaded, upd_same]
            exact QHash.constFind_insert_self _ _ _
        · right
          refine ⟨?_, ?_⟩
          · intro h hm
            rcases List.mem_cons.mp hm with hm | hm
            · exact hs (by rw [← hm])
            · exact hn h hm
          · rw [hf, hg]
            simp only [commitUploaded, upd_same]
            exact QHash.constFind_insert_other _ _ _ _ hs
      · right
        refine ⟨?_, ?_⟩
        · intro h hm
          rcases List.mem_cons.mp hm with hm | hm
          · exact hg (by rw [← hm])
          · exact hn h hm
        · rw [hf]
          simp only [commitUploaded, upd_other _ _ _ _ hg]

theorem commitUploaded_frame (L : List (GroupRef × MapSymbol × ResourceInGPU)) :
    ∀ acc : MapRendererTiledSymbolsResource × World,
      (∀ g, ((L.foldl commitUploaded acc).2.groups g).group = (acc.2.groups g).group) ∧
      (L.foldl commitUploaded acc).2.nextGroup = acc.2.nextGroup ∧
      (L.foldl commitUploaded acc).2.sharedGroupsResources = acc.2.sharedGroupsResources ∧
      (L.foldl commitUploaded acc).2.registry = acc.2.registry ∧
      (L.foldl commitUploaded acc).2.dispatcher = acc.2.dispatcher ∧
      (L.foldl commitUploaded acc).1.self = acc.1.self ∧
      (L.foldl commitUploaded acc).1.link = acc.1.link ∧
      (L.foldl commitUploaded acc).1.zoom = acc.1.zoom ∧
      (L.foldl commitUploaded acc).1._sourceData = acc.1._sourceData ∧
      (L.foldl commitUploaded acc).1._uniqueGroupsResources = acc.1._uniqueGroupsResources ∧
      (L.foldl commitUploaded acc).1._referencedSharedGroupsResources
        = acc.1._referencedSharedGroupsResources := by
  induction L with
  | nil => intro acc; simp
  | cons e rest ih =>
    intro acc
    simp only [List.foldl_cons]
    obtain ⟨h1, h2, h3, h4, h5, h6, h7, h8, h9, h10, h11⟩ := ih (commitUploaded acc e)
    refine ⟨?_, h2, h3, h4, h5, h6, h7, h8, h9, h10, h11⟩
    intro g
    rw [h1 g]
    by_cases hg : g = e.1
    · rw [hg]
      simp only [commitUploaded, upd_same]
    · simp only [commitUploaded, upd_other _ _ _ _ hg]

theorem mem_committed {σ : Type} (O : HashOrder)
    (up : σ → MapSymbol → Option ResourceInGPU × σ) (o : σ)
    (t : MapRendererTiledSymbolsResource) (w : World)
    (e : GroupRef × MapSymbol × ResourceInGPU) :
    e ∈ committed O up o t w ↔
      e ∈ (uniquePass up o t w).uploaded ∨ e ∈ (sharedPass up o t w).uploaded := by
  simp only [committed, List.mem_append, (O.perm _).mem_iff]

theorem uploadToGPU_failed {σ : Type} (O : HashOrder)
    (up : σ → MapSymbol → Option ResourceInGPU × σ) (o : σ)
    (t : MapRendererTiledSymbolsResource) (w : World)
    (h : (sharedPass up o t w).anyUploadFailed = true) :
    (uploadToGPU O up o t w).ok = false ∧ (uploadToGPU O up o t w).tile = t ∧
      (uploadToGPU O up o t w).world = w := by
  simp [uploadToGPU, h]

theorem uploadToGPU_succeeded {σ : Type} (O : HashOrder)
    (up : σ → MapSymbol → Option ResourceInGPU × σ) (o : σ)
    (t : MapRendererTiledSymbolsResource) (w : World)
    (h : (sharedPass up o t w).anyUploadFailed = false) :
    (uploadToGPU O up o t w).ok = true ∧
      (uploadToGPU O up o t w).tile = ((committed O up o t w).foldl commitUploaded (t, w)).1 ∧
      (uploadToGPU O up o t w).world = ((committed O up o t w).foldl commitUploaded (t, w)).2 := by
  simp [uploadToGPU, h, committed, List.foldl_append]

/-- The call crashed exactly when it made a failed upload of a symbol that has
no bitmap. -/
theorem uploadToGPU_null {σ : Type} (O : HashOrder)
    (up : σ → MapSymbol → Option ResourceInGPU × σ) (o : σ)
    (t : MapRendererTiledSymbolsResource) (w : World) :
    (uploadToGPU O up o t w).nullDereferenced
      = (uploadToGPU O up o t w).calls.any (Event.isFailedUploadWithoutBitmap w) := by
  rw [uploadToGPU_calls O, sharedPass_null]
  simp only [uploadToGPU]
  split <;> rfl

theorem mem_null_iff (w : World) (calls : List Event) :
    calls.any (Event.isFailedUploadWithoutBitmap w) = true ↔
      ∃ g s, Event.uploadSymbolToGPU g s none ∈ calls ∧ w.bitmap s = none := by
  constructor
  · intro h
    obtain ⟨e, he, hf⟩ := List.any_eq_true.mp h
    cases e with
    | uploadSymbolToGPU g s r =>
      cases r with
      | none =>
        refine ⟨g, s, he, ?_⟩
        simpa [Event.isFailedUploadWithoutBitmap] using hf
      | some r => simp [Event.isFailedUploadWithoutBitmap] at hf
    | _ => simp [Event.isFailedUploadWithoutBitmap] at hf
  · rintro ⟨g, s, h, hb⟩
    refine List.any_eq_true.mpr ⟨_, h, ?_⟩
    simp [Event.isFailedUploadWithoutBitmap, hb]

/-! ## The symbols of a list of groups -/

theorem symbolsOf_congr (w1 w2 : World)
    (h : ∀ x, (w1.groups x).group = (w2.groups x).group) (gs : List GroupRef) :
    symbolsOf w1 gs = symbolsOf w2 gs := by
  induction gs with
  | nil => rfl
  | cons g rest ih =>
    simp only [symbolsOf, List.flatMap_cons] at ih ⊢
    rw [ih, h g]

theorem symbolsOf_cons (w : World) (g : GroupRef) (gs : List GroupRef) :
    symbolsOf w (g :: gs) = (w.groups g).group.symbols ++ symbolsOf w gs := by
  simp [symbolsOf, List.flatMap_cons]

theorem symbolsOf_append (w : World) (gs hs : List GroupRef) :
    symbolsOf w (gs ++ hs) = symbolsOf w gs ++ symbolsOf w hs := by
  simp [symbolsOf, List.flatMap_append]

end OsmAnd

namespace OsmAnd

/-! ## uploadToGPU: failure -/

/-- Rollback of a failed `uploadToGPU`. Whatever the tile, the world and the
behaviour of the owner's `uploadSymbolToGPU`, when one of the uploads of the
call fails nothing has been written: the tile's quick-lookup map, every
group's map and every bitmap, indeed the whole tile resource and the whole
world, are as before the call. The call then returns false, unless the symbol
whose upload failed has no bitmap: in that case, and only in that case, it
crashes while logging the failure. -/
theorem uploadToGPU_rollback {σ : Type} (O : HashOrder)
    (up : σ → MapSymbol → Option ResourceInGPU × σ) (o : σ)
    (t : MapRendererTiledSymbolsResource) (w : World)
    (h : ∃ g s, Event.uploadSymbolToGPU g s none ∈ (uploadToGPU O up o t w).calls) :
    ((uploadToGPU O up o t w).nullDereferenced = true ↔
      ∃ g s, Event.uploadSymbolToGPU g s none ∈ (uploadToGPU O up o t w).calls ∧
        w.bitmap s = none) ∧
    ((∀ g s, Event.uploadSymbolToGPU g s none ∈ (uploadToGPU O up o t w).calls →
        w.bitmap s ≠ none) →
      (uploadToGPU O up o t w).returned = some false) ∧
    (uploadToGPU O up o t w).ok = false ∧
    (uploadToGPU O up o t w).tile._resourcesInGPU = t._resourcesInGPU ∧
    (∀ g, ((uploadToGPU O up o t w).world.groups g).resourcesInGPU
      = (w.groups g).resourcesInGPU) ∧
    (∀ s, (uploadToGPU O up o t w).world.bitmap s = w.bitmap s) ∧
    (uploadToGPU O up o t w).tile = t ∧
    (uploadToGPU O up o t w).world = w := by
  have hf : (sharedPass up o t w).anyUploadFailed = true := by
    rw [← sharedPass_flag, ← uploadToGPU_calls O]
    exact (mem_failed_iff _).mpr h
  obtain ⟨h1, h2, h3⟩ := uploadToGPU_failed O up o t w hf
  have hnull : (uploadToGPU O up o t w).nullDereferenced = true ↔
      ∃ g s, Event.uploadSymbolToGPU g s none ∈ (uploadToGPU O up o t w).calls ∧
        w.bitmap s = none := by
    rw [uploadToGPU_null]
    exact mem_null_iff w _
  refine ⟨hnull, ?_, h1, ?_, ?_, ?_, h2, h3⟩
  · intro hb
    have hn : (uploadToGPU O up o t w).nullDereferenced = false := by
      cases hq : (uploadToGPU O up o t w).nullDereferenced with
      | false => rfl
      | true =>
        obtain ⟨g, s, hm, hs⟩ := hnull.mp hq
        exact absurd hs (hb g s hm)
    simp only [UploadResult.returned, hn, h1, Bool.false_eq_true, if_false]
  · rw [h2]
  · intro g; rw [h3]
  · intro s; rw [h3]

/-- The rollback at a concrete input: the second symbol of the unique group
fails, it has its bitmap, and the call returns false. -/
theorem uploadToGPU_rollback_example :
    (uploadToGPU HashOrder.insertion (uploadExcept 8) () demoTile demoWorld).calls
      = [Event.uploadSymbolToGPU 0 7 (some 107), Event.uploadSymbolToGPU 0 8 none] ∧
    (uploadToGPU HashOrder.insertion (uploadExcept 8) () demoTile demoWorld).returned
      = some false ∧
    (uploadToGPU HashOrder.insertion (uploadExcept 8) () demoTile demoWorld).tile = demoTile ∧
    (uploadToGPU HashOrder.insertion (uploadExcept 8) () demoTile demoWorld).world = demoWorld :=
  ⟨by decide, by decide,
   (uploadToGPU_rollback HashOrder.insertion (uploadExcept 8) () demoTile demoWorld
     ⟨0, 8, by decide⟩).2.2.2.2.2.2.1,
   (uploadToGPU_rollback HashOrder.insertion (uploadExcept 8) () demoTile demoWorld
     ⟨0, 8, by decide⟩).2.2.2.2.2.2.2⟩

/-- C1, evaluated where it fails. Tile A obtains a tile with one unique group
(object 0, symbol 5) and is uploaded, which drops the bitmap of symbol 5, and
unloaded. In the `uploadToGPU` that follows the upload of symbol 5 fails: the
failure is logged with `symbol->bitmap->width()` (lines 209-211), the bitmap is
null, and the call crashes instead of returning false. -/
theorem uploadToGPU_failure_reads_null_bitmap :
    reuploadFailingRun.map (fun p => p.1.returned) = some (some true) ∧
    reuploadFailingRun.map (fun p => p.1.world.bitmap 5) = some none ∧
    reuploadFailingRun.map (fun p => p.2.calls) = some [Event.uploadSymbolToGPU 0 5 none] ∧
    reuploadFailingRun.map (fun p => p.2.assertsHeld) = some false ∧
    reuploadFailingRun.map (fun p => p.2.nullDereferenced) = some true ∧
    reuploadFailingRun.map (fun p => p.2.returned) = some none := by
  decide

/-! ## uploadToGPU: the uploads made -/

theorem uploadSymbols_targets {σ : Type} (up : σ → MapSymbol → Option ResourceInGPU × σ)
    (w : World) (g : GroupRef) :
    ∀ (syms : List MapSymbol) (st : UploadPass σ),
      (uploadSymbols up w g syms st).anyUploadFailed = false →
      (uploadSymbols up w g syms st).calls.map Event.uploadTarget
        = st.calls.map Event.uploadTarget ++ syms.map (fun s => some (g, s)) := by
  intro syms
  induction syms with
  | nil => intro st _; simp [uploadSymbols]
  | cons s rest ih =>
    intro st
    simp only [uploadSymbols]
    split
    · intro h
      simp at h
    · intro h
      rw [ih _ h]
      simp [Event.uploadTarget]

theorem uploadUnique_targets {σ : Type} (up : σ → MapSymbol → Option ResourceInGPU × σ)
    (w : World) :
    ∀ (gs : List GroupRef) (st : UploadPass σ),
      (uploadUnique up w gs st).anyUploadFailed = false →
      (uploadUnique up w gs st).calls.map Event.uploadTarget
        = st.calls.map Event.uploadTarget ++
          (gs.flatMap (fun g => (w.groups g).group.symbols.map (fun s => (g, s)))).map some := by
  intro gs
  induction gs with
  | nil => intro st _; simp [uploadUnique]
  | cons g rest ih =>
    intro st
    simp only [uploadUnique]
    split
    · rename_i hf
      intro h
      rw [hf] at h
      cases h
    · rename_i hf
      intro h
      have hf2 : (uploadSymbols up w g (w.groups g).group.symbols st).anyUploadFailed
          = false := by simpa using hf
      rw [ih _ h, uploadSymbols_targets up w g _ st hf2]
      simp [List.flatMap_cons, List.map_append, List.map_map, Function.comp_def]

theorem uploadShared_targets {σ : Type} (up : σ → MapSymbol → Option ResourceInGPU × σ)
    (w : World) :
    ∀ (gs : List GroupRef) (st : UploadPass σ),
      (uploadShared up w gs st).anyUploadFailed = false →
      (uploadShared up w gs st).calls.map Event.uploadTarget
        = st.calls.map Event.uploadTarget ++
          ((gs.filter (fun g => (w.groups g).resourcesInGPU.isEmpty)).flatMap
            (fun g => (w.groups g).group.symbols.map (fun s => (g, s)))).map some := by
  intro gs
  induction gs with
  | nil => intro st _; simp [uploadShared]
  | cons g rest ih =>
    intro st
    simp only [uploadShared]
    split
    · rename_i he
      intro h
      rw [ih _ h]
      have hs : (w.groups g).group.symbols = [] := List.isEmpty_iff.mp he
      by_cases hm : (w.groups g).resourcesInGPU.isEmpty = true
      · simp [List.filter_cons, hm, hs, List.flatMap_cons]
      · simp [List.filter_cons, hm]
    · split
      · rename_i hne
        intro h
        rw [ih _ h]
        have hm : (w.groups g).resourcesInGPU.isEmpty = false := by simpa using hne
        simp [List.filter_cons, hm]
      · rename_i hne
        have hm : (w.groups g).resourcesInGPU.isEmpty = true := by simpa using hne
        split
        · rename_i hf
          intro h
          rw [hf] at h
          cases h
        · rename_i hf
          intro h
          have hf2 : (uploadSymbols up w g (w.groups g).group.symbols st).anyUploadFailed
              = false := by simpa using hf
          rw [ih _ h, uploadSymbols_targets up w g _ st hf2]
          simp [List.filter_cons, hm, List.flatMap_cons, List.map_append, List.map_map,
            Function.comp_def]

theorem uniquePass_ok_of_sharedPass_ok {σ : Type}
    (up : σ → MapSymbol → Option ResourceInGPU × σ) (o : σ)
    (t : MapRendererTiledSymbolsResource) (w : World)
    (h : (sharedPass up o t w).anyUploadFailed = false) :
    (uniquePass up o t w).anyUploadFailed = false ∧
    (uniquePass up o t w).nullDereferenced = false := by
  have huf : (uniquePass up o t w).anyUploadFailed = false := by
    cases hq : (uniquePass up o t w).anyUploadFailed with
    | false => rfl
    | true =>
      have := (sharedPass_spec up o t w).1 hq
      rw [h] at this
      cases this
  refine ⟨huf, ?_⟩
  cases hq : (uniquePass up o t w).nullDereferenced with
  | false => rfl
  | true =>
    have := uniquePass_failed_of_null up o t w hq
    rw [huf] at this
    cases this

/-- Without a failure the calls of `uploadToGPU` are one upload per pair of
`uploadTargets`, in that order. -/
theorem sharedPass_targets {σ : Type} (up : σ → MapSymbol → Option ResourceInGPU × σ) (o : σ)
    (t : MapRendererTiledSymbolsResource) (w : World)
    (h : (sharedPass up o t w).anyUploadFailed = false) :
    (sharedPass up o t w).calls.map Event.uploadTarget = (uploadTargets t w).map some := by
  obtain ⟨huf, hnc⟩ := uniquePass_ok_of_sharedPass_ok up o t w h
  have hu := uploadUnique_targets up w t._uniqueGroupsResources
    { owner := o, uploaded := [], anyUploadFailed := false, calls := [], assertsHeld := true }
    huf
  have hsp : sharedPass up o t w =
      uploadShared up w t._referencedSharedGroupsResources
        { owner := (uniquePass up o t w).owner
          uploaded := []
          anyUploadFailed := (uniquePass up o t w).anyUploadFailed
          calls := (uniquePass up o t w).calls
          assertsHeld := (uniquePass up o t w).assertsHeld
          nullDereferenced := false } := by
    unfold sharedPass
    rw [if_neg (by simp [hnc])]
  rw [hsp] at h ⊢
  rw [uploadShared_targets up w _ _ h]
  have hu2 : (uniquePass up o t w).calls.map Event.uploadTarget
      = (t._uniqueGroupsResources.flatMap
          (fun g => (w.groups g).group.symbols.map (fun s => (g, s)))).map some := by
    simpa using hu
  simp only [uploadTargets, List.map_append]
  rw [hu2]

theorem uploadSymbols_succeed {σ : Type} (up : σ → MapSymbol → Option ResourceInGPU × σ)
    (w : World) (g : GroupRef) :
    ∀ (syms rest : List MapSymbol) (st : UploadPass σ),
      uploadsSucceed up st.owner (syms ++ rest) = true →
      (uploadSymbols up w g syms st).anyUploadFailed = st.anyUploadFailed ∧
      uploadsSucceed up (uploadSymbols up w g syms st).owner rest = true := by
  intro syms
  induction syms with
  | nil =>
    intro rest st h
    exact ⟨rfl, by simpa [uploadSymbols] using h⟩
  | cons s syms ih =>
    intro rest st h
    rcases hup : up st.owner s with ⟨a, o1⟩
    cases a with
    | none => simp [uploadsSucceed, hup] at h
    | some r =>
      have h2 : uploadsSucceed up o1 (syms ++ rest) = true := by
        simpa [uploadsSucceed, hup] using h
      have h3 := ih rest
        { owner := o1
          uploaded := st.uploaded ++ [(g, s, r)]
          anyUploadFailed := st.anyUploadFailed
          calls := st.calls ++ [Event.uploadSymbolToGPU g s (some r)]
          assertsHeld := st.assertsHeld && (w.bitmap s).isSome
          nullDereferenced := st.nullDereferenced } h2
      simp only [uploadSymbols, hup]
      exact h3

theorem uploadUnique_succeed {σ : Type} (up : σ → MapSymbol → Option ResourceInGPU × σ)
    (w : World) :
    ∀ (gs : List GroupRef) (rest : List MapSymbol) (st : UploadPass σ),
      st.anyUploadFailed = false →
      uploadsSucceed up st.owner (symbolsOf w gs ++ rest) = true →
      (uploadUnique up w gs st).anyUploadFailed = false ∧
      uploadsSucceed up (uploadUnique up w gs st).owner rest = true := by
  intro gs
  induction gs with
  | nil =>
    intro rest st hf h
    exact ⟨by simpa [uploadUnique] using hf, by simpa [uploadUnique, symbolsOf] using h⟩
  | cons g gs ih =>
    intro rest st hf h
    rw [symbolsOf_cons, List.append_assoc] at h
    obtain ⟨h1, h2⟩ := uploadSymbols_succeed up w g _ _ st h
    rw [hf] at h1
    simp only [uploadUnique, h1, Bool.false_eq_true, if_false]
    exact ih rest _ h1 h2

theorem uploadShared_succeed {σ : Type} (up : σ → MapSymbol → Option ResourceInGPU × σ)
    (w : World) :
    ∀ (gs : List GroupRef) (rest : List MapSymbol) (st : UploadPass σ),
      st.anyUploadFailed = false →
      uploadsSucceed up st.owner
        (symbolsOf w (gs.filter (fun g => (w.groups g).resourcesInGPU.isEmpty)) ++ rest)
          = true →
      (uploadShared up w gs st).anyUploadFailed = false ∧
      uploadsSucceed up (uploadShared up w gs st).owner rest = true := by
  intro gs
  induction gs with
  | nil =>
    intro rest st hf h
    exact ⟨by simpa [uploadShared] using hf, by simpa [uploadShared, symbolsOf] using h⟩
  | cons g gs ih =>
    intro rest st hf h
    simp only [uploadShared]
    split
    · rename_i he
      have hs : (w.groups g).group.symbols = [] := List.isEmpty_iff.mp he
      apply ih rest st hf
      by_cases hm : (w.groups g).resourcesInGPU.isEmpty = true
      · simpa [List.filter_cons, hm, symbolsOf_cons, hs] using h
      · simpa [List.filter_cons, hm] using h
    · split
      · rename_i hne
        have hm : (w.groups g).resourcesInGPU.isEmpty = false := by simpa using hne
        apply ih rest st hf
        simpa [List.filter_cons, hm] using h
      · rename_i hne
        have hm : (w.groups g).resourcesInGPU.isEmpty = true := by simpa using hne
        have h0 : uploadsSucceed up st.owner ((w.groups g).group.symbols ++
            (symbolsOf w (gs.filter (fun g => (w.groups g).resourcesInGPU.isEmpty)) ++ rest))
              = true := by
          simpa [List.filter_cons, hm, symbolsOf_cons, List.append_assoc] using h
        obtain ⟨h1, h2⟩ := uploadSymbols_succeed up w g _ _ st h0
        rw [hf] at h1
        simp only [h1, Bool.false_eq_true, if_false]
        exact ih rest _ h1 h2

theorem uploadTargets_symbols (t : MapRendererTiledSymbolsResource) (w : World) :
    (uploadTargets t w).map Prod.snd
      = symbolsOf w t._uniqueGroupsResources ++
        symbolsOf w (t._referencedSharedGroupsResources.filter
          (fun g => (w.groups g).resourcesInGPU.isEmpty)) := by
  simp [uploadTargets, symbolsOf, List.map_flatMap, List.map_map, Function.comp_def]

/-- When the owner's upload succeeds for each symbol the call is to upload,
no upload of the call fails. -/
theorem sharedPass_succeed {σ : Type} (up : σ → MapSymbol → Option ResourceInGPU × σ) (o : σ)
    (t : MapRendererTiledSymbolsResource) (w : World)
    (h : uploadsSucceed up o ((uploadTargets t w).map Prod.snd) = true) :
    (sharedPass up o t w).anyUploadFailed = false := by
  rw [uploadTargets_symbols] at h
  obtain ⟨h1, h2⟩ := uploadUnique_succeed up w t._uniqueGroupsResources _
    { owner := o, uploaded := [], anyUploadFailed := false, calls := [], assertsHeld := true }
    rfl h
  have huf : (uniquePass up o t w).anyUploadFailed = false := h1
  have hnc : (uniquePass up o t w).nullDereferenced = false := by
    cases hq : (uniquePass up o t w).nullDereferenced with
    | false => rfl
    | true =>
      have := uniquePass_failed_of_null up o t w hq
      rw [huf] at this
      cases this
  unfold sharedPass
  rw [if_neg (by simp [hnc])]
  have h3 : uploadsSucceed up (uniquePass up o t w).owner
      (symbolsOf w (t._referencedSharedGroupsResources.filter
        (fun g => (w.groups g).resourcesInGPU.isEmpty)) ++ []) = true := by
    simpa using h2
  exact (uploadShared_succeed up w t._referencedSharedGroupsResources []
    { owner := (uniquePass up o t w).owner
      uploaded := []
      anyUploadFailed := (uniquePass up o t w).anyUploadFailed
      calls := (uniquePass up o t w).calls
      assertsHeld := (uniquePass up o t w).assertsHeld
      nullDereferenced := false } huf h3).1

theorem filterMap_of_map_eq_some {α β : Type} (f : α → Option β) :
    ∀ (l : List α) (T : List β), l.map f = T.map some → l.filterMap f = T := by
  intro l
  induction l with
  | nil =>
    intro T h
    cases T with
    | nil => rfl
    | cons a T => simp at h
  | cons x rest ih =>
    intro T h
    cases T with
    | nil => simp at h
    | cons a T =>
      simp only [List.map_cons, List.cons.injEq] at h
      rw [List.filterMap_cons, h.1, ih T h.2]

/-- In a list whose images under `f` hold `b` once, two elements that `f`
sends to `b` are the same element. -/
theorem eq_of_count_filterMap_eq_one {α : Type} (f : α → Option MapSymbol) (b : MapSymbol) :
    ∀ (l : List α), (l.filterMap f).count b = 1 →
      ∀ x ∈ l, ∀ y ∈ l, f x = some b → f y = some b → x = y := by
  intro l
  induction l with
  | nil => intro _ x hx; cases hx
  | cons a rest ih =>
    intro h x hx y hy hfx hfy
    by_cases ha : f a = some b
    · have h0 : (rest.filterMap f).count b = 0 := by
        rw [List.filterMap_cons, ha] at h
        simpa [List.count_cons] using h
      have hnot : ∀ z ∈ rest, f z ≠ some b := by
        intro z hz hzb
        have : b ∈ rest.filterMap f := List.mem_filterMap.mpr ⟨z, hz, hzb⟩
        exact (List.count_eq_zero.mp h0) this
      have hxa : x = a := by
        rcases List.mem_cons.mp hx with h1 | h1
        · exact h1
        · exact absurd hfx (hnot x h1)
      have hya : y = a := by
        rcases List.mem_cons.mp hy with h1 | h1
        · exact h1
        · exact absurd hfy (hnot y h1)
      rw [hxa, hya]
    · have h1 : (rest.filterMap f).count b = 1 := by
        cases hfa : f a with
        | none =>
          rw [List.filterMap_cons, hfa] at h
          exact h
        | some c =>
          have hc : c ≠ b := fun hcb => ha (by rw [hfa, hcb])
          rw [List.filterMap_cons, hfa] at h
          simpa [List.count_cons, hc] using h
      have hx2 : x ∈ rest := by
        rcases List.mem_cons.mp hx with h2 | h2
        · exact absurd (h2 ▸ hfx) ha
        · exact h2
      have hy2 : y ∈ rest := by
        rcases List.mem_cons.mp hy with h2 | h2
        · exact absurd (h2 ▸ hfy) ha
        · exact h2
      exact ih h1 x hx2 y hy2 hfx hfy

/-- C2 as stated fails. The two unique groups of `twinRun` (objects 0 and 1)
share symbol 7; every upload succeeds (handles 200, 201 and 202) and
`uploadToGPU` returns true. The handle returned for symbol 7 of group 0 is
200 and that is what the map of group 0 stores, but the quick-lookup map of the
tile stores 201 under symbol 7, the handle returned for group 1. When the hash
containers are walked in reverse the quick-lookup map stores 200 and it is the
handle of group 1, 201, that it does not store. -/
theorem uploadToGPU_stores_two_handles_for_symbol :
    twinRun.map (fun p => p.1.returned) = some (some true) ∧
    twinRun.map (fun p => p.1.calls)
      = some [Event.uploadSymbolToGPU 0 7 (some 200), Event.uploadSymbolToGPU 1 7 (some 201),
          Event.uploadSymbolToGPU 1 8 (some 202)] ∧
    twinRun.map (fun p => p.1.tile._uniqueGroupsResources) = some [0, 1] ∧
    twinRun.map (fun p => (p.1.world.groups 0).group.symbols) = some [7] ∧
    twinRun.map (fun p => QHash.constFind (p.1.world.groups 0).resourcesInGPU 7)
      = some (some 200) ∧
    twinRun.map (fun p => getGpuResourceFor p.1.tile 7) = some (some 201) ∧
    twinRun.map (fun p => p.2.returned) = some (some true) ∧
    twinRun.map (fun p => (p.2.world.groups 1).group.symbols) = some [7, 8] ∧
    twinRun.map (fun p => QHash.constFind (p.2.world.groups 1).resourcesInGPU 7)
      = some (some 201) ∧
    twinRun.map (fun p => getGpuResourceFor p.2.tile 7) = some (some 200) := by
  decide

/-- C2, amended. When the owner's upload succeeds for each symbol the call is
to upload (every symbol of every unique group, then every symbol of every
referenced shared group whose map is empty at the start), `uploadToGPU`
returns true and makes exactly those uploads, in that order. For every such
group and every symbol of it the bitmap is absent afterwards, the map of the
group stores under the symbol the handle returned by the upload of that symbol
for that group, and the quick-lookup map of the tile stores under the symbol a
handle returned by an upload of that symbol during the call: the same handle
as the map of the group whenever that symbol is uploaded once in the call. -/
theorem uploadToGPU_records_uploads {σ : Type} (O : HashOrder)
    (up : σ → MapSymbol → Option ResourceInGPU × σ) (o : σ)
    (t : MapRendererTiledSymbolsResource) (w : World)
    (h : uploadsSucceed up o ((uploadTargets t w).map Prod.snd) = true) :
    (uploadToGPU O up o t w).returned = some true ∧
    (uploadToGPU O up o t w).calls.map Event.uploadTarget = (uploadTargets t w).map some ∧
    ∀ g, (g ∈ t._uniqueGroupsResources ∨
        (g ∈ t._referencedSharedGroupsResources ∧ (w.groups g).resourcesInGPU = [])) →
      ∀ s ∈ (w.groups g).group.symbols,
        (uploadToGPU O up o t w).world.bitmap s = none ∧
        ∃ r, Event.uploadSymbolToGPU g s (some r) ∈ (uploadToGPU O up o t w).calls ∧
          QHash.constFind ((uploadToGPU O up o t w).world.groups g).resourcesInGPU s = some r ∧
          (∃ g1 r1, Event.uploadSymbolToGPU g1 s (some r1) ∈ (uploadToGPU O up o t w).calls ∧
            getGpuResourceFor (uploadToGPU O up o t w).tile s = some r1) ∧
          (((uploadTargets t w).map Prod.snd).count s = 1 →
            getGpuResourceFor (uploadToGPU O up o t w).tile s = some r) := by
  have hf : (sharedPass up o t w).anyUploadFailed = false := sharedPass_succeed up o t w h
  obtain ⟨hok, htile, hworld⟩ := uploadToGPU_succeeded O up o t w hf
  obtain ⟨u1, u2, u3, u4, u5, u6⟩ := uploadUnique_spec up w t._uniqueGroupsResources
    { owner := o, uploaded := [], anyUploadFailed := false, calls := [], assertsHeld := true }
  obtain ⟨s1, s3, s4, s5, s6⟩ := sharedPass_spec up o t w
  obtain ⟨huf, _⟩ := uniquePass_ok_of_sharedPass_ok up o t w hf
  have htargets : (uploadToGPU O up o t w).calls.map Event.uploadTarget
      = (uploadTargets t w).map some := by
    rw [uploadToGPU_calls O]
    exact sharedPass_targets up o t w hf
  have hnull : (uploadToGPU O up o t w).nullDereferenced = false := by
    cases hq : (uploadToGPU O up o t w).nullDereferenced with
    | false => rfl
    | true =>
      rw [uploadToGPU_null, uploadToGPU_calls O] at hq
      have := any_failed_of_any_null w _ hq
      rw [sharedPass_flag, hf] at this
      cases this
  -- every committed entry has its successful call
  have hcall : ∀ e ∈ committed O up o t w,
      Event.uploadSymbolToGPU e.1 e.2.1 (some e.2.2) ∈ (uploadToGPU O up o t w).calls := by
    intro e he
    rw [uploadToGPU_calls O]
    rcases (mem_committed O up o t w e).mp he with he | he
    · rcases u5 e he with h0 | ⟨_, h2⟩
      · cases h0
      · exact s3 _ h2
    · exact (s5 e he).2.2
  refine ⟨by simp only [UploadResult.returned, hnull, hok, Bool.false_eq_true, if_false],
    htargets, ?_⟩
  intro g hg s hs
  have hentry : ∃ r, (g, s, r) ∈ committed O up o t w := by
    rcases hg with hg | ⟨hg, hm⟩
    · obtain ⟨r, hr⟩ := u4 huf g hg s hs
      exact ⟨r, (mem_committed O up o t w _).mpr (Or.inl hr)⟩
    · obtain ⟨r, hr⟩ := s4 hf g hg hm s hs
      exact ⟨r, (mem_committed O up o t w _).mpr (Or.inr hr)⟩
  obtain ⟨r0, hr0⟩ := hentry
  refine ⟨?_, ?_⟩
  · rw [hworld]
    exact commitUploaded_bitmap_none _ s _ (Or.inr ⟨g, r0, hr0⟩)
  · rcases commitUploaded_group_find (committed O up o t w) g s (t, w) with
      ⟨r, hm, hfind⟩ | ⟨hn, _⟩
    · rcases commitUploaded_tile_find (committed O up o t w) s (t, w) with
        ⟨g1, r1, hm1, hfind1⟩ | ⟨hn1, _⟩
      · have hgfind : QHash.constFind ((uploadToGPU O up o t w).world.groups g).resourcesInGPU s
            = some r := by rw [hworld]; exact hfind
        have htfind : getGpuResourceFor (uploadToGPU O up o t w).tile s = some r1 := by
          rw [getGpuResourceFor, htile]; exact hfind1
        refine ⟨r, hcall _ hm, hgfind, ⟨g1, r1, hcall _ hm1, htfind⟩, ?_⟩
        intro hcount
        have hfm : (uploadToGPU O up o t w).calls.filterMap
            (fun e => (Event.uploadTarget e).map Prod.snd)
            = (uploadTargets t w).map Prod.snd := by
          apply filterMap_of_map_eq_some
          have : (uploadToGPU O up o t w).calls.map
              (fun e => (Event.uploadTarget e).map Prod.snd)
              = ((uploadToGPU O up o t w).calls.map Event.uploadTarget).map
                  (Option.map Prod.snd) := by
            rw [List.map_map]; rfl
          rw [this, htargets, List.map_map, List.map_map]
          rfl
        rw [← hfm] at hcount
        have heq := eq_of_count_filterMap_eq_one
          (fun e => (Event.uploadTarget e).map Prod.snd) s _ hcount
          _ (hcall _ hm) _ (hcall _ hm1) rfl rfl
        injection heq with _ _ h3
        injection h3 with h3
        have h4 : r = r1 := h3
        rw [htfind, h4]
      · exact absurd hr0 (hn1 g r0)
    · exact absurd hr0 (hn r0)

/-- C2 (amended) at a concrete input: the tile of `obtainedBoth` holds the
unique group 0 (symbol 5) and the shared group 1 (symbols 7 and 8), neither
uploaded yet; all three symbols are uploaded and each handle is in both
maps. -/
theorem uploadToGPU_records_uploads_witness :
    uploadsSucceed uploadAlways ()
      ((uploadTargets obtainedBoth.tile obtainedBoth.world).map Prod.snd) = true ∧
    (obtainedBoth.tile._uniqueGroupsResources = [0] ∧
      obtainedBoth.tile._referencedSharedGroupsResources = [1] ∧
      (obtainedBoth.world.groups 1).group.symbols = [7, 8] ∧
      (obtainedBoth.world.groups 1).resourcesInGPU = []) ∧
    uploadedBoth.returned = some true ∧
    uploadedBoth.calls.map Event.uploadTarget
      = (uploadTargets obtainedBoth.tile obtainedBoth.world).map some ∧
    uploadedBoth.calls
      = [Event.uploadSymbolToGPU 0 5 (some 105), Event.uploadSymbolToGPU 1 7 (some 107),
          Event.uploadSymbolToGPU 1 8 (some 108)] ∧
    QHash.constFind (uploadedBoth.world.groups 1).resourcesInGPU 7 = some 107 ∧
    getGpuResourceFor uploadedBoth.tile 7 = some 107 ∧
    QHash.constFind (uploadedBoth.world.groups 0).resourcesInGPU 5 = some 105 ∧
    getGpuResourceFor uploadedBoth.tile 5 = some 105 ∧
    uploadedBoth.world.bitmap 7 = none :=
  ⟨by decide, ⟨by decide, by decide, by decide, by decide⟩,
   (uploadToGPU_records_uploads HashOrder.insertion uploadAlways () obtainedBoth.tile
     obtainedBoth.world (by decide)).1,
   (uploadToGPU_records_uploads HashOrder.insertion uploadAlways () obtainedBoth.tile
     obtainedBoth.world (by decide)).2.1,
   by decide, by decide, by decide, by decide, by decide, by decide⟩

/-! ## uploadToGPU: groups uploaded by another tile -/

end OsmAnd

namespace OsmAnd

/-! ## Shared groups across tiles -/

/-- C3, evaluated where it fails. Tiles A and B hold the same shared group
(object 0, symbols 7 and 8); A uploads it, then B's `uploadToGPU` succeeds.
The group's map holds the handle of symbol 7, yet `getGpuResourceFor` on B
returns null for it: the branch that skips an already uploaded group adds
nothing to B's quick-lookup map. -/
theorem uploadToGPU_second_tile_lookup :
    sharedGroupRun.map (fun r => (r.aUploaded.ok, r.bUploaded.ok)) = some (true, true) ∧
    sharedGroupRun.map (fun r => r.bUploaded.tile._referencedSharedGroupsResources)
      = some [0] ∧
    sharedGroupRun.map (fun r => (r.bUploaded.world.groups 0).group.symbols) = some [7, 8] ∧
    sharedGroupRun.map (fun r =>
      QHash.constFind (r.bUploaded.world.groups 0).resourcesInGPU 7) = some (some 107) ∧
    sharedGroupRun.map (fun r => r.bUploaded.world.bitmap 7) = some none ∧
    sharedGroupRun.map (fun r => getGpuResourceFor r.aUploaded.tile 7) = some (some 107) ∧
    sharedGroupRun.map (fun r => getGpuResourceFor r.bUploaded.tile 7) = some none := by
  decide

/-- C5, evaluated where it fails. In the run of `sharedGroupRun` tile A took one
reference to group 42 (the count is 2 once B has its own), but its
`unloadFromGPU` and its `releaseData` each call `releaseReference` for id 42:
two releases for one reference, after which the entry is gone although B
still holds the group. In `obtainThenRelease` a tile that was never uploaded
is released without any `releaseReference` call, and the count stays at 1
although no tile holds the group. -/
theorem releaseReference_calls_unbalanced :
    sharedGroupRun.map (fun r => r.aObtained.tile._referencedSharedGroupsResources)
      = some [0] ∧
    sharedGroupRun.map (fun r => r.bObtained.world.sharedGroupsResources 10 42)
      = some (CacheEntry.resolved 0 2) ∧
    sharedGroupRun.map (fun r =>
      (r.aUnloaded.trace ++ r.aReleased.trace).countP (Event.isReleaseOf 42)) = some 2 ∧
    sharedGroupRun.map (fun r => r.aReleased.world.sharedGroupsResources 10 42)
      = some CacheEntry.absent ∧
    sharedGroupRun.map (fun r => r.bUploaded.tile._referencedSharedGroupsResources)
      = some [0] ∧
    obtainThenRelease.map (fun p => p.1.tile._referencedSharedGroupsResources) = some [0] ∧
    obtainThenRelease.map (fun p => p.1.world.sharedGroupsResources 10 42)
      = some (CacheEntry.resolved 0 1) ∧
    obtainThenRelease.map (fun p => p.2.trace.countP (Event.isReleaseOf 42)) = some 0 ∧
    obtainThenRelease.map (fun p => p.2.tile._referencedSharedGroupsResources) = some [] ∧
    obtainThenRelease.map (fun p => p.2.world.sharedGroupsResources 10 42)
      = some (CacheEntry.resolved 0 1) := by
  decide

/-- C6, evaluated where it fails. In the run of `sharedGroupRun` tile B holds
the shared group throughout. A's `unloadFromGPU` leaves the group's map intact
and posts nothing, but A's `releaseData` then posts the release of both GPU
resources and clears the map, while B still holds the group. -/
theorem releaseData_releases_group_still_held :
    sharedGroupRun.map (fun r => r.bUploaded.tile._referencedSharedGroupsResources)
      = some [0] ∧
    sharedGroupRun.map (fun r => (r.aUnloaded.world.groups 0).resourcesInGPU)
      = some [(8, 108), (7, 107)] ∧
    sharedGroupRun.map (fun r => r.aUnloaded.world.dispatcher) = some [] ∧
    sharedGroupRun.map (fun r => r.aReleased.world.dispatcher) = some [108, 107] ∧
    sharedGroupRun.map (fun r => (r.aReleased.world.groups 0).resourcesInGPU) = some [] := by
  decide

/-! ## obtainData -/

/-- C7, evaluated where it fails. A provider offers the shareable group 42 and
then fails. On an unseen id the callback claims it, and after `obtainData`
has returned false the id is still claimed; on a resolved id the callback
takes a reference, and after `obtainData` has returned false the count is
still incremented although the tile holds nothing. -/
theorem obtainData_failed_request_keeps_cache_changes :
    World.initial.sharedGroupsResources 10 42 = CacheEntry.absent ∧
    (obtainData (some failingProvider42) false tileA World.initial).map (fun r => r.ok)
      = some false ∧
    (obtainData (some failingProvider42) false tileA World.initial).map (fun r =>
      r.world.sharedGroupsResources 10 42) = some (CacheEntry.promised 0) ∧
    obtainThenFailedRequest.map (fun p => p.1.world.sharedGroupsResources 10 42)
      = some (CacheEntry.resolved 0 1) ∧
    obtainThenFailedRequest.map (fun p => p.2.ok) = some false ∧
    obtainThenFailedRequest.map (fun p => p.2.tile._referencedSharedGroupsResources)
      = some [] ∧
    obtainThenFailedRequest.map (fun p => p.2.world.sharedGroupsResources 10 42)
      = some (CacheEntry.resolved 0 2) := by
  decide

/-- After the failed request of C7 the claim on id 42 is never fulfilled: the
next tile that is offered the group receives a future for it, and its
`obtainData` does not return. -/
theorem obtainData_waits_on_abandoned_claim : failedRequestThenObtain.isSome = false := by
  decide

/-- C8. Without a provider bound to the collection `obtainData` returns false;
no provider is queried, no callback runs, and the tile resource (source data,
both group lists, quick-lookup map), the world (shared caches, registry and
all the rest) and the caller's `dataAvailable` are as before the call. -/
theorem obtainData_without_provider (dataAvailable : Bool)
    (t : MapRendererTiledSymbolsResource) (w : World) :
    ∃ r, obtainData none dataAvailable t w = some r ∧
      r.ok = false ∧ r.dataAvailable = dataAvailable ∧ r.tile = t ∧ r.world = w ∧
      Event.providerObtainData ∉ r.trace ∧ (∀ g a, Event.acceptGroup g a ∉ r.trace) := by
  cases hl : t.link <;> simp [obtainData, hl]

theorem acceptGroup_trace (st : CallbackState) (group : MapSymbolsGroup) :
    (acceptGroup st group).2.trace
      = st.trace ++ [Event.acceptGroup group (acceptGroup st group).1] := by
  unfold acceptGroup
  split
  · rfl
  · split <;> rfl

theorem runProvider_trace :
    ∀ (run : ProviderRun) (st : CallbackState),
      ∀ ev ∈ (runProvider run st).2.2.trace,
        ev ∈ st.trace ∨ ∃ g a, ev = Event.acceptGroup g a := by
  intro run
  induction run with
  | done ok tile =>
    intro st ev h
    exact Or.inl h
  | ask group next ih =>
    intro st ev h
    simp only [runProvider] at h
    rcases ih _ _ ev h with h1 | h1
    · rw [acceptGroup_trace] at h1
      rcases List.mem_append.mp h1 with h2 | h2
      · exact Or.inl h2
      · exact Or.inr ⟨_, _, List.mem_singleton.mp h2⟩
    · exact Or.inr h1

/-- C10. The acceptance callback answers true exactly when the group is not
shareable or the shared cache reports its id as unseen (which it does exactly
for an absent entry, and which claims the id for this call). For a resolved id
it appends the resolved reference to the local list and answers false; for an
id being loaded elsewhere it appends the future and answers false; and the
to-be-loaded set gains an id exactly when that id was reported unseen. -/
theorem acceptGroup_decision (st : CallbackState) (group : MapSymbolsGroup) :
    ((acceptGroup st group).1 = true ↔
      (group.shareableId = none ∨ ∃ id, group.shareableId = some id ∧
        (obtainReferenceOrFutureReferenceOrMakePromise st.sharedGroupsResources id).1
          = ObtainAnswer.claimed)) ∧
    (∀ id, (obtainReferenceOrFutureReferenceOrMakePromise st.sharedGroupsResources id).1
        = ObtainAnswer.claimed ↔ st.sharedGroupsResources id = CacheEntry.absent) ∧
    (∀ id r, group.shareableId = some id →
      (obtainReferenceOrFutureReferenceOrMakePromise st.sharedGroupsResources id).1
        = ObtainAnswer.resolved r →
      (acceptGroup st group).1 = false ∧
      (acceptGroup st group).2.referencedSharedGroupsResources
        = st.referencedSharedGroupsResources ++ [r] ∧
      (acceptGroup st group).2.futureReferencedSharedGroupsResources
        = st.futureReferencedSharedGroupsResources) ∧
    (∀ id f, group.shareableId = some id →
      (obtainReferenceOrFutureReferenceOrMakePromise st.sharedGroupsResources id).1
        = ObtainAnswer.future f →
      (acceptGroup st group).1 = false ∧
      (acceptGroup st group).2.futureReferencedSharedGroupsResources
        = st.futureReferencedSharedGroupsResources ++ [f] ∧
      (acceptGroup st group).2.referencedSharedGroupsResources
        = st.referencedSharedGroupsResources) ∧
    (∀ x, x ∈ (acceptGroup st group).2.loadedSharedGroups ↔
      (x ∈ st.loadedSharedGroups ∨ (group.shareableId = some x ∧
        (obtainReferenceOrFutureReferenceOrMakePromise st.sharedGroupsResources x).1
          = ObtainAnswer.claimed))) ∧
    ((acceptGroup st group).1 = true →
      (acceptGroup st group).2.referencedSharedGroupsResources
        = st.referencedSharedGroupsResources ∧
      (acceptGroup st group).2.futureReferencedSharedGroupsResources
        = st.futureReferencedSharedGroupsResources) := by
  refine ⟨?_, ?_, ?_, ?_, ?_, ?_⟩
  · cases hs : group.shareableId with
    | none => simp [acceptGroup, hs]
    | some id =>
      rcases ha : obtainReferenceOrFutureReferenceOrMakePromise st.sharedGroupsResources id
        with ⟨ans, c⟩
      cases ans <;> simp [acceptGroup, hs, ha]
  · intro id
    unfold obtainReferenceOrFutureReferenceOrMakePromise
    cases st.sharedGroupsResources id <;> simp
  · intro id r hs ha
    rcases hb : obtainReferenceOrFutureReferenceOrMakePromise st.sharedGroupsResources id
      with ⟨ans, c⟩
    rw [hb] at ha
    simp only at ha
    subst ha
    simp [acceptGroup, hs, hb]
  · intro id f hs ha
    rcases hb : obtainReferenceOrFutureReferenceOrMakePromise st.sharedGroupsResources id
      with ⟨ans, c⟩
    rw [hb] at ha
    simp only at ha
    subst ha
    simp [acceptGroup, hs, hb]
  · intro x
    cases hs : group.shareableId with
    | none => simp [acceptGroup, hs]
    | some id =>
      rcases ha : obtainReferenceOrFutureReferenceOrMakePromise st.sharedGroupsResources id
        with ⟨ans, c⟩
      cases ans with
      | resolved r =>
        simp only [acceptGroup, hs, ha]
        constructor
        · intro h; exact Or.inl h
        · rintro (h | ⟨h1, h2⟩)
          · exact h
          · injection h1 with h1
            subst h1
            rw [ha] at h2
            cases h2
      | future f =>
        simp only [acceptGroup, hs, ha]
        constructor
        · intro h; exact Or.inl h
        · rintro (h | ⟨h1, h2⟩)
          · exact h
          · injection h1 with h1
            subst h1
            rw [ha] at h2
            cases h2
      | claimed =>
        simp only [acceptGroup, hs, ha]
        split
        · rename_i hc
          constructor
          · intro h; exact Or.inl h
          · rintro (h | ⟨h1, _⟩)
            · exact h
            · injection h1 with h1
              subst h1
              simpa using hc
        · constructor
          · intro h
            rcases List.mem_append.mp h with h | h
            · exact Or.inl h
            · have hx : x = id := List.mem_singleton.mp h
              subst hx
              exact Or.inr ⟨rfl, by rw [ha]⟩
          · rintro (h | ⟨h1, _⟩)
            · exact List.mem_append_left _ h
            · injection h1 with h1
              subst h1
              exact List.mem_append_right _ (List.mem_singleton.mpr rfl)
  · intro h
    cases hs : group.shareableId with
    | none => simp [acceptGroup, hs]
    | some id =>
      rcases ha : obtainReferenceOrFutureReferenceOrMakePromise st.sharedGroupsResources id
        with ⟨ans, c⟩
      cases ans <;> simp [acceptGroup, hs, ha] at h ⊢

end OsmAnd

namespace OsmAnd

/-! ## unloadFromGPU -/

theorem foldlM_option_rel {S α : Type} (f : S → α → Option S) (R : S → S → Prop)
    (hrefl : ∀ a, R a a) (htrans : ∀ a b c, R a b → R b c → R a c)
    (hstep : ∀ a x b, f a x = some b → R a b) :
    ∀ (l : List α) (a b : S), l.foldlM f a = some b → R a b := by
  intro l
  induction l with
  | nil =>
    intro a b h
    simp only [List.foldlM_nil] at h
    cases h
    exact hrefl a
  | cons x rest ih =>
    intro a b h
    simp only [List.foldlM_cons] at h
    cases hx : f a x with
    | none => rw [hx] at h; cases h
    | some c =>
      rw [hx] at h
      exact htrans a c b (hstep a x c hx) (ih c b h)

theorem unloadShared_eq_foldlM (zoom : Nat) :
    ∀ (gs : List GroupRef) (acc : World × List Event),
      unloadShared zoom gs acc = gs.foldlM (unloadSharedGroup zoom) acc := by
  intro gs
  induction gs with
  | nil => intro acc; rfl
  | cons g rest ih =>
    intro acc
    simp only [unloadShared, List.foldlM_cons, unloadSharedGroup]
    split
    · rfl
    · split
      · rfl
      · exact ih _

/-- What one iteration of the shared loop of `unloadFromGPU` does, when it
completes: one `releaseReference` call with removal allowed for the id of
the group, the map of the group cleared exactly when removal was reported,
nothing else changed apart from the cache. -/
theorem unloadSharedGroup_spec (zoom : Nat) (acc out : World × List Event) (g : GroupRef)
    (h : unloadSharedGroup zoom acc g = some out) :
    ∃ id c wasRemoved n,
      (acc.1.groups g).group.shareableId = some id ∧
      releaseReference (acc.1.sharedGroupsResources zoom) id true = some (c, wasRemoved, n) ∧
      out.2 = acc.2 ++ [Event.releaseReference id true wasRemoved] ∧
      out.1.sharedGroupsResources = upd acc.1.sharedGroupsResources zoom c ∧
      (out.1.groups g).resourcesInGPU
        = (if wasRemoved then [] else (acc.1.groups g).resourcesInGPU) ∧
      (∀ x, (out.1.groups x).group = (acc.1.groups x).group) ∧
      (∀ x, x ≠ g → out.1.groups x = acc.1.groups x) ∧
      out.1.dispatcher = acc.1.dispatcher ∧ out.1.registry = acc.1.registry ∧
      out.1.bitmap = acc.1.bitmap ∧ out.1.nextGroup = acc.1.nextGroup := by
  unfold unloadSharedGroup at h
  split at h
  · cases h
  · rename_i id hid
    split at h
    · cases h
    · rename_i c wasRemoved n hrel
      simp only [Option.some.injEq] at h
      subst h
      refine ⟨id, c, wasRemoved, n, hid, hrel, rfl, ?_, ?_, ?_, ?_, ?_, ?_, ?_, ?_⟩
      · cases wasRemoved <;> rfl
      · cases wasRemoved
        · rfl
        · simp [upd_same]
      · intro x
        cases wasRemoved
        · rfl
        · by_cases hx : x = g
          · subst hx; simp [upd_same]
          · simp [upd_other _ _ _ _ hx]
      · intro x hx
        cases wasRemoved
        · rfl
        · simp [upd_other _ _ _ _ hx]
      · cases wasRemoved <;> rfl
      · cases wasRemoved <;> rfl
      · cases wasRemoved <;> rfl
      · cases wasRemoved <;> rfl

theorem unloadUnique_spec :
    ∀ (gs : List GroupRef) (w : World),
      (∀ g, g ∈ gs → ((unloadUnique gs w).groups g).resourcesInGPU = []) ∧
      (∀ g, g ∉ gs → (unloadUnique gs w).groups g = w.groups g) ∧
      (∀ g, ((unloadUnique gs w).groups g).group = (w.groups g).group) ∧
      (∀ g, ((unloadUnique gs w).groups g).resourcesInGPU = [] ∨
        (unloadUnique gs w).groups g = w.groups g) ∧
      (unloadUnique gs w).sharedGroupsResources = w.sharedGroupsResources ∧
      (unloadUnique gs w).dispatcher = w.dispatcher ∧
      (unloadUnique gs w).registry = w.registry ∧
      (unloadUnique gs w).bitmap = w.bitmap ∧
      (unloadUnique gs w).nextGroup = w.nextGroup := by
  intro gs
  induction gs with
  | nil =>
    intro w
    simp [unloadUnique]
  | cons x rest ih =>
    intro w
    have hstep : unloadUnique (x :: rest) w = unloadUnique rest
        { w with groups := upd w.groups x { (w.groups x) with resourcesInGPU := [] } } := rfl
    rw [hstep]
    obtain ⟨h1, h2, h3, h4, h5, h6, h7, h8, h9⟩ := ih
      { w with groups := upd w.groups x { (w.groups x) with resourcesInGPU := [] } }
    refine ⟨?_, ?_, ?_, ?_, h5, h6, h7, h8, h9⟩
    · intro g hg
      by_cases hr : g ∈ rest
      · exact h1 g hr
      · have hgx : g = x := by
          rcases List.mem_cons.mp hg with h | h
          · exact h
          · exact absurd h hr
        rw [h2 g hr, hgx]
        simp [upd_same]
    · intro g hg
      have hr : g ∉ rest := fun h => hg (List.mem_cons_of_mem _ h)
      have hx : g ≠ x := fun h => hg (h ▸ List.mem_cons_self _ _)
      rw [h2 g hr]
      simp [upd_other _ _ _ _ hx]
    · intro g
      rw [h3 g]
      by_cases hx : g = x
      · subst hx; simp [upd_same]
      · simp [upd_other _ _ _ _ hx]
    · intro g
      rcases h4 g with h | h
      · exact Or.inl h
      · by_cases hx : g = x
        · left
          rw [h, hx]
          simp [upd_same]
        · right
          rw [h]
          simp [upd_other _ _ _ _ hx]

/-- What the shared loop of `unloadFromGPU` leaves alone. -/
theorem unloadShared_frame (zoom : Nat) (gs : List GroupRef) (acc out : World × List Event)
    (h : unloadShared zoom gs acc = some out) :
    (∀ x, (out.1.groups x).group = (acc.1.groups x).group) ∧
    (∀ x, (out.1.groups x).resourcesInGPU = [] ∨ out.1.groups x = acc.1.groups x) ∧
    out.1.dispatcher = acc.1.dispatcher ∧ out.1.registry = acc.1.registry ∧
    out.1.bitmap = acc.1.bitmap ∧ out.1.nextGroup = acc.1.nextGroup := by
  rw [unloadShared_eq_foldlM] at h
  refine foldlM_option_rel (unloadSharedGroup zoom)
    (fun a b : World × List Event =>
      (∀ x, (b.1.groups x).group = (a.1.groups x).group) ∧
      (∀ x, (b.1.groups x).resourcesInGPU = [] ∨ b.1.groups x = a.1.groups x) ∧
      b.1.dispatcher = a.1.dispatcher ∧ b.1.registry = a.1.registry ∧
      b.1.bitmap = a.1.bitmap ∧ b.1.nextGroup = a.1.nextGroup)
    ?_ ?_ ?_ gs acc out h
  · intro a
    exact ⟨fun _ => rfl, fun _ => Or.inr rfl, rfl, rfl, rfl, rfl⟩
  · rintro a b c ⟨h1, h2, h3, h4, h5, h6⟩ ⟨k1, k2, k3, k4, k5, k6⟩
    refine ⟨fun x => (k1 x).trans (h1 x), ?_, k3.trans h3, k4.trans h4, k5.trans h5,
      k6.trans h6⟩
    intro x
    rcases k2 x with k | k
    · exact Or.inl k
    · rcases h2 x with h | h
      · exact Or.inl (by rw [k]; exact h)
      · exact Or.inr (k.trans h)
  · intro a g b hs
    obtain ⟨id, c, wasRemoved, n, _, _, _, _, hmap, hgrp, hoth, hd, hr, hb, hn⟩ :=
      unloadSharedGroup_spec zoom a b g hs
    refine ⟨hgrp, ?_, hd, hr, hb, hn⟩
    intro x
    by_cases hx : x = g
    · subst hx
      cases wasRemoved
      · right
        have h1 := hgrp x
        have h2 : (b.1.groups x).resourcesInGPU = (a.1.groups x).resourcesInGPU := by
          simpa using hmap
        cases hb1 : b.1.groups x
        cases ha1 : a.1.groups x
        rw [hb1, ha1] at h1 h2
        simp only at h1 h2
        rw [h1, h2]
      · left
        simpa using hmap
    · exact Or.inr (hoth x hx)

/-- The calls of the shared loop of `unloadFromGPU`: one `releaseReference`
with removal allowed per element of the list, in the order of the list, for
the id of that group. -/
theorem unloadShared_trace (zoom : Nat) :
    ∀ (gs : List GroupRef) (acc out : World × List Event),
      unloadShared zoom gs acc = some out →
      ∃ evs, out.2 = acc.2 ++ evs ∧
        List.Forall₂ (fun g ev => ∃ id wasRemoved,
          (acc.1.groups g).group.shareableId = some id ∧
          ev = Event.releaseReference id true wasRemoved) gs evs := by
  intro gs
  induction gs with
  | nil =>
    intro acc out h
    simp only [unloadShared, Option.some.injEq] at h
    subst h
    exact ⟨[], by simp, List.Forall₂.nil⟩
  | cons g rest ih =>
    intro acc out h
    rw [unloadShared_eq_foldlM, List.foldlM_cons] at h
    cases hs : unloadSharedGroup zoom acc g with
    | none => rw [hs] at h; cases h
    | some mid =>
      rw [hs] at h
      have h2 : unloadShared zoom rest mid = some out := by
        rw [unloadShared_eq_foldlM]; exact h
      obtain ⟨id, c, wasRemoved, n, hid, _, htr, _, _, hgrp, _⟩ :=
        unloadSharedGroup_spec zoom acc mid g hs
      obtain ⟨evs, hevs, hall⟩ := ih mid out h2
      refine ⟨Event.releaseReference id true wasRemoved :: evs, ?_, ?_⟩
      · rw [hevs, htr]; simp
      · refine List.Forall₂.cons ⟨id, wasRemoved, hid, rfl⟩ ?_
        refine List.Forall₂.imp ?_ hall
        rintro x ev ⟨id2, rem2, hid2, hev⟩
        exact ⟨id2, rem2, by rw [← hgrp x]; exact hid2, hev⟩

end OsmAnd

namespace OsmAnd

/-! ## releaseData -/

theorem unregisterMapSymbol_foldl (self : Nat) :
    ∀ (syms : List MapSymbol) (acc : World × List Event),
      syms.foldl (unregisterMapSymbol self) acc
        = ({ acc.1 with
              registry := (syms.map (fun s => (s, self))).foldl List.erase acc.1.registry },
           acc.2 ++ syms.map (fun s => Event.unregisterMapSymbol s self)) := by
  intro syms
  induction syms with
  | nil => intro acc; simp
  | cons s rest ih =>
    intro acc
    simp only [List.foldl_cons, List.map_cons]
    rw [ih]
    simp [unregisterMapSymbol]

theorem postReleases_eq (O : HashOrder) (m : GpuMap) (acc : World × List Event) :
    postReleases O m acc
      = ({ acc.1 with dispatcher := acc.1.dispatcher ++ (O.ord m).map Prod.snd },
         acc.2 ++ (O.ord m).map (fun e => Event.invokeAsync e.2)) := by
  unfold postReleases
  generalize O.ord m = L
  induction L generalizing acc with
  | nil => simp
  | cons e rest ih =>
    simp only [List.foldl_cons, List.map_cons]
    rw [ih]
    simp

theorem releaseShared_eq_foldlM (O : HashOrder) (self zoom : Nat) :
    ∀ (gs : List GroupRef) (acc : World × List Event),
      releaseShared O self zoom gs acc = gs.foldlM (releaseSharedGroup O self zoom) acc := by
  intro gs
  induction gs with
  | nil => intro acc; rfl
  | cons g rest ih =>
    intro acc
    simp only [releaseShared, List.foldlM_cons, releaseSharedGroup]
    split
    · exact ih _
    · split
      · rfl
      · split
        · rfl
        · split
          · exact ih _
          · exact ih _

/-- What one iteration of the shared loop of `releaseData` does, when it
completes. The symbols of the group are unregistered. With an empty map
nothing else happens. Otherwise `releaseReference` is called once with
removal allowed; if it reports removal one task per entry of the map is posted
and the map is cleared, if not no task is posted and the map is kept. -/
theorem releaseSharedGroup_spec (O : HashOrder) (self zoom : Nat)
    (acc out : World × List Event) (g : GroupRef)
    (h : releaseSharedGroup O self zoom acc g = some out) :
    out.1.registry
      = ((acc.1.groups g).group.symbols.map (fun s => (s, self))).foldl List.erase
          acc.1.registry ∧
    (∀ x, (out.1.groups x).group = (acc.1.groups x).group) ∧
    (∀ x, x ≠ g → out.1.groups x = acc.1.groups x) ∧
    out.1.bitmap = acc.1.bitmap ∧ out.1.nextGroup = acc.1.nextGroup ∧
    ((acc.1.groups g).resourcesInGPU = [] →
      out.2 = acc.2 ++ (acc.1.groups g).group.symbols.map
        (fun s => Event.unregisterMapSymbol s self) ∧
      out.1.dispatcher = acc.1.dispatcher ∧
      out.1.sharedGroupsResources = acc.1.sharedGroupsResources ∧
      (out.1.groups g).resourcesInGPU = []) ∧
    ((acc.1.groups g).resourcesInGPU ≠ [] →
      ∃ id c wasRemoved n,
        (acc.1.groups g).group.shareableId = some id ∧
        releaseReference (acc.1.sharedGroupsResources zoom) id true
          = some (c, wasRemoved, n) ∧
        out.1.sharedGroupsResources = upd acc.1.sharedGroupsResources zoom c ∧
        out.2 = acc.2 ++ (acc.1.groups g).group.symbols.map
            (fun s => Event.unregisterMapSymbol s self)
          ++ [Event.releaseReference id true wasRemoved]
          ++ (if wasRemoved then
                (O.ord (acc.1.groups g).resourcesInGPU).map (fun e => Event.invokeAsync e.2)
              else []) ∧
        out.1.dispatcher = acc.1.dispatcher
          ++ (if wasRemoved then (O.ord (acc.1.groups g).resourcesInGPU).map Prod.snd
              else []) ∧
        (out.1.groups g).resourcesInGPU
          = (if wasRemoved then [] else (acc.1.groups g).resourcesInGPU)) := by
  unfold releaseSharedGroup at h
  rw [unregisterMapSymbol_foldl] at h
  simp only at h
  split at h
  · rename_i he
    have hm : (acc.1.groups g).resourcesInGPU = [] := List.isEmpty_iff.mp he
    simp only [Option.some.injEq] at h
    subst h
    refine ⟨rfl, fun _ => rfl, fun _ _ => rfl, rfl, rfl, ?_, ?_⟩
    · intro _
      exact ⟨rfl, rfl, rfl, hm⟩
    · intro hne
      exact absurd hm hne
  · rename_i he
    have hm : (acc.1.groups g).resourcesInGPU ≠ [] := by
      intro h0
      rw [h0] at he
      simp at he
    split at h
    · cases h
    · rename_i id hid
      split at h
      · cases h
      · rename_i c wasRemoved n hrel
        cases wasRemoved with
        | false =>
          simp only [Bool.not_false, if_true, Option.some.injEq] at h
          subst h
          refine ⟨rfl, fun _ => rfl, fun _ _ => rfl, rfl, rfl, fun h0 => absurd h0 hm, ?_⟩
          intro _
          exact ⟨id, c, false, n, hid, hrel, rfl, by simp, by simp, by simp⟩
        | true =>
          simp only [Bool.not_true, Bool.false_eq_true, if_false, Option.some.injEq] at h
          rw [postReleases_eq] at h
          subst h
          refine ⟨rfl, ?_, ?_, rfl, rfl, fun h0 => absurd h0 hm, ?_⟩
          · intro x
            by_cases hx : x = g
            · subst hx; simp [upd_same]
            · simp [upd_other _ _ _ _ hx]
          · intro x hx
            simp [upd_other _ _ _ _ hx]
          · intro _
            exact ⟨id, c, true, n, hid, hrel, rfl, by simp, by simp, by simp [upd_same]⟩

theorem filter_map_of_true {α : Type} (p : Event → Bool) (f : α → Event)
    (h : ∀ x, p (f x) = true) (l : List α) : (l.map f).filter p = l.map f := by
  induction l with
  | nil => rfl
  | cons x rest ih => simp [List.filter_cons, h x, ih]

theorem filter_map_of_false {α : Type} (p : Event → Bool) (f : α → Event)
    (h : ∀ x, p (f x) = false) (l : List α) : (l.map f).filter p = [] := by
  induction l with
  | nil => rfl
  | cons x rest ih => simp [List.filter_cons, h x, ih]

theorem filter_unregister_unregs (self : Nat) (syms : List MapSymbol) :
    (syms.map (fun s => Event.unregisterMapSymbol s self)).filter Event.isUnregister
      = syms.map (fun s => Event.unregisterMapSymbol s self) :=
  filter_map_of_true Event.isUnregister (fun s => Event.unregisterMapSymbol s self)
    (fun _ => rfl) syms

theorem filter_unregister_invokes (l : List (MapSymbol × ResourceInGPU)) :
    (l.map (fun e => Event.invokeAsync e.2)).filter Event.isUnregister = [] :=
  filter_map_of_false Event.isUnregister
    (fun e : MapSymbol × ResourceInGPU => Event.invokeAsync e.2) (fun _ => rfl) l

theorem filter_release_unregs (self : Nat) (syms : List MapSymbol) :
    (syms.map (fun s => Event.unregisterMapSymbol s self)).filter Event.isRelease = [] :=
  filter_map_of_false Event.isRelease (fun s => Event.unregisterMapSymbol s self)
    (fun _ => rfl) syms

theorem filter_release_invokes (l : List (MapSymbol × ResourceInGPU)) :
    (l.map (fun e => Event.invokeAsync e.2)).filter Event.isRelease = [] :=
  filter_map_of_false Event.isRelease
    (fun e : MapSymbol × ResourceInGPU => Event.invokeAsync e.2) (fun _ => rfl) l

/-- What the loop over the unique groups of `releaseData` does to the registry
and which calls it makes: it unregisters the symbols of the groups, in order,
and calls no `releaseReference`. -/
theorem releaseUnique_spec (O : HashOrder) (self : Nat) :
    ∀ (gs : List GroupRef) (acc : World × List Event),
      (∀ x, ((releaseUnique O self gs acc).1.groups x).group = (acc.1.groups x).group) ∧
      (releaseUnique O self gs acc).1.registry
        = ((symbolsOf acc.1 gs).map (fun s => (s, self))).foldl List.erase acc.1.registry ∧
      (releaseUnique O self gs acc).2.filter Event.isUnregister
        = acc.2.filter Event.isUnregister
          ++ (symbolsOf acc.1 gs).map (fun s => Event.unregisterMapSymbol s self) ∧
      (releaseUnique O self gs acc).2.filter Event.isRelease
        = acc.2.filter Event.isRelease ∧
      (releaseUnique O self gs acc).1.sharedGroupsResources = acc.1.sharedGroupsResources ∧
      (releaseUnique O self gs acc).1.bitmap = acc.1.bitmap ∧
      (releaseUnique O self gs acc).1.nextGroup = acc.1.nextGroup := by
  intro gs
  induction gs with
  | nil =>
    intro acc
    simp [releaseUnique, symbolsOf]
  | cons g rest ih =>
    intro acc
    have hstep : releaseUnique O self (g :: rest) acc
        = releaseUnique O self rest
          ({ acc.1 with
              registry := ((acc.1.groups g).group.symbols.map (fun s => (s, self))).foldl
                List.erase acc.1.registry
              dispatcher := acc.1.dispatcher
                ++ (O.ord (acc.1.groups g).resourcesInGPU).map Prod.snd },
           acc.2 ++ (acc.1.groups g).group.symbols.map
              (fun s => Event.unregisterMapSymbol s self)
            ++ (O.ord (acc.1.groups g).resourcesInGPU).map
              (fun e => Event.invokeAsync e.2)) := by
      simp only [releaseUnique, List.foldl_cons]
      rw [unregisterMapSymbol_foldl, postReleases_eq]
    rw [hstep]
    obtain ⟨h1, h2, h3, h4, h5, h6, h7⟩ := ih
      ({ acc.1 with
          registry := ((acc.1.groups g).group.symbols.map (fun s => (s, self))).foldl
            List.erase acc.1.registry
          dispatcher := acc.1.dispatcher
            ++ (O.ord (acc.1.groups g).resourcesInGPU).map Prod.snd },
       acc.2 ++ (acc.1.groups g).group.symbols.map
          (fun s => Event.unregisterMapSymbol s self)
        ++ (O.ord (acc.1.groups g).resourcesInGPU).map
          (fun e => Event.invokeAsync e.2))
    have hsym : symbolsOf
        ({ acc.1 with
            registry := ((acc.1.groups g).group.symbols.map (fun s => (s, self))).foldl
              List.erase acc.1.registry
            dispatcher := acc.1.dispatcher
              ++ (O.ord (acc.1.groups g).resourcesInGPU).map Prod.snd } : World) rest
        = symbolsOf acc.1 rest := rfl
    refine ⟨?_, ?_, ?_, ?_, h5, h6, h7⟩
    · intro x
      rw [h1 x]
    · rw [h2, hsym, symbolsOf_cons, List.map_append, List.foldl_append]
    · rw [h3, hsym, symbolsOf_cons]
      simp only [List.filter_append, List.map_append, List.append_assoc]
      rw [filter_unregister_unregs, filter_unregister_invokes]
      simp
    · rw [h4]
      simp only [List.filter_append]
      rw [filter_release_unregs, filter_release_invokes]
      simp

/-- What the loop over the referenced shared groups of `releaseData` does to
the registry and which calls it makes, when it completes: it unregisters the
symbols of the groups, in order, and calls `releaseReference` at most once per
group, always with removal allowed. -/
theorem releaseShared_spec (O : HashOrder) (self zoom : Nat) :
    ∀ (gs : List GroupRef) (acc out : World × List Event),
      releaseShared O self zoom gs acc = some out →
      (∀ x, (out.1.groups x).group = (acc.1.groups x).group) ∧
      out.1.registry
        = ((symbolsOf acc.1 gs).map (fun s => (s, self))).foldl List.erase acc.1.registry ∧
      out.2.filter Event.isUnregister
        = acc.2.filter Event.isUnregister
          ++ (symbolsOf acc.1 gs).map (fun s => Event.unregisterMapSymbol s self) ∧
      (∃ rel, out.2.filter Event.isRelease = acc.2.filter Event.isRelease ++ rel ∧
        rel.length ≤ gs.length ∧
        ∀ ev ∈ rel, ∃ id wasRemoved, ev = Event.releaseReference id true wasRemoved) ∧
      out.1.bitmap = acc.1.bitmap ∧ out.1.nextGroup = acc.1.nextGroup := by
  intro gs
  induction gs with
  | nil =>
    intro acc out h
    simp only [releaseShared, Option.some.injEq] at h
    subst h
    exact ⟨fun _ => rfl, by simp [symbolsOf], by simp [symbolsOf],
      ⟨[], by simp, by simp, fun ev h => by cases h⟩, rfl, rfl⟩
  | cons g rest ih =>
    intro acc out h
    rw [releaseShared_eq_foldlM, List.foldlM_cons] at h
    cases hs : releaseSharedGroup O self zoom acc g with
    | none => rw [hs] at h; cases h
    | some mid =>
      rw [hs] at h
      have h2 : releaseShared O self zoom rest mid = some out := by
        rw [releaseShared_eq_foldlM]; exact h
      obtain ⟨s1, s2, s3, s4, s5, s6, s7⟩ := releaseSharedGroup_spec O self zoom acc mid g hs
      obtain ⟨i1, i2, i3, ⟨rel, i4, i5, i6⟩, i7, i8⟩ := ih mid out h2
      have hsym : symbolsOf mid.1 rest = symbolsOf acc.1 rest := symbolsOf_congr _ _ s2 rest
      have hmidU : mid.2.filter Event.isUnregister = acc.2.filter Event.isUnregister
          ++ (acc.1.groups g).group.symbols.map
            (fun s => Event.unregisterMapSymbol s self) := by
        by_cases hm : (acc.1.groups g).resourcesInGPU = []
        · rw [(s6 hm).1, List.filter_append,
            filter_unregister_unregs]
        · obtain ⟨id, c, wasRemoved, n, _, _, _, htr, _, _⟩ := s7 hm
          rw [htr]
          simp only [List.filter_append]
          rw [filter_unregister_unregs]
          cases wasRemoved
          · simp [List.filter_cons, Event.isUnregister]
          · simp only [if_true]
            rw [filter_unregister_invokes]
            simp [List.filter_cons, Event.isUnregister]
      have hmidR : ∃ one, mid.2.filter Event.isRelease = acc.2.filter Event.isRelease ++ one ∧
          one.length ≤ 1 ∧
          ∀ ev ∈ one, ∃ id wasRemoved, ev = Event.releaseReference id true wasRemoved := by
        by_cases hm : (acc.1.groups g).resourcesInGPU = []
        · refine ⟨[], ?_, by simp, fun ev h => by cases h⟩
          rw [(s6 hm).1, List.filter_append, filter_release_unregs]
        · obtain ⟨id, c, wasRemoved, n, _, _, _, htr, _, _⟩ := s7 hm
          refine ⟨[Event.releaseReference id true wasRemoved], ?_, by simp, ?_⟩
          · rw [htr]
            simp only [List.filter_append]
            rw [filter_release_unregs]
            cases wasRemoved
            · simp [List.filter_cons, Event.isRelease]
            · simp only [if_true]
              rw [filter_release_invokes]
              simp [List.filter_cons, Event.isRelease]
          · intro ev hev
            exact ⟨id, wasRemoved, List.mem_singleton.mp hev⟩
      obtain ⟨one, r1, r2, r3⟩ := hmidR
      refine ⟨fun x => (i1 x).trans (s2 x), ?_, ?_, ?_, i7.trans s4, i8.trans s5⟩
      · rw [i2, hsym, s1, symbolsOf_cons, List.map_append, List.foldl_append]
      · rw [i3, hsym, hmidU, symbolsOf_cons, List.map_append, List.append_assoc]
      · refine ⟨one ++ rel, ?_, ?_, ?_⟩
        · rw [i4, r1, List.append_assoc]
        · simp only [List.length_append, List.length_cons]
          omega
        · intro ev hev
          rcases List.mem_append.mp hev with hev | hev
          · exact r3 ev hev
          · exact i6 ev hev

end OsmAnd

namespace OsmAnd

/-! ## unloadFromGPU, releaseData and getGpuResourceFor: the claims -/

theorem forall₂_mem_right {α β : Type} {R : α → β → Prop} {l : List α} {m : List β}
    (h : List.Forall₂ R l m) : ∀ b ∈ m, ∃ a ∈ l, R a b := by
  induction h with
  | nil => intro b hb; cases hb
  | cons hab _ ih =>
    intro b hb
    rcases List.mem_cons.mp hb with hb | hb
    · subst hb
      exact ⟨_, List.mem_cons_self _ _, hab⟩
    · obtain ⟨a, ha, hr⟩ := ih b hb
      exact ⟨a, List.mem_cons_of_mem _ ha, hr⟩

theorem unloadFromGPU_eq (t : MapRendererTiledSymbolsResource) (w : World) (r : Step)
    (h : unloadFromGPU t w = some r) :
    t.link = true ∧
    unloadShared t.zoom t._referencedSharedGroupsResources
      (unloadUnique t._uniqueGroupsResources w, []) = some (r.world, r.trace) ∧
    r.tile = { t with _resourcesInGPU := [] } := by
  unfold unloadFromGPU at h
  cases hl : t.link with
  | false => simp [hl] at h
  | true =>
    simp only [hl, Bool.not_true, Bool.false_eq_true, if_false] at h
    split at h
    · cases h
    · rename_i x hx
      simp only [Option.some.injEq] at h
      subst h
      exact ⟨rfl, hx, rfl⟩

theorem releaseData_eq (O : HashOrder) (t : MapRendererTiledSymbolsResource) (w : World)
    (z : Step) (h : releaseData O t w = some z) :
    t.link = true ∧
    releaseShared O t.self t.zoom t._referencedSharedGroupsResources
      (releaseUnique O t.self t._uniqueGroupsResources (w, [])) = some (z.world, z.trace) ∧
    z.tile = { t with
      _resourcesInGPU := []
      _uniqueGroupsResources := []
      _referencedSharedGroupsResources := []
      _sourceData := none } := by
  unfold releaseData at h
  cases hl : t.link with
  | false => simp [hl] at h
  | true =>
    simp only [hl, Bool.not_true, Bool.false_eq_true, if_false] at h
    split at h
    · cases h
    · rename_i x hx
      simp only [Option.some.injEq] at h
      subst h
      exact ⟨rfl, hx, rfl⟩

theorem filter_invoke_unregs (self : Nat) (syms : List MapSymbol) :
    (syms.map (fun s => Event.unregisterMapSymbol s self)).filter Event.isInvokeAsync = [] :=
  filter_map_of_false Event.isInvokeAsync (fun s => Event.unregisterMapSymbol s self)
    (fun _ => rfl) syms

theorem filter_invoke_invokes (l : List ResourceInGPU) :
    (l.map Event.invokeAsync).filter Event.isInvokeAsync = l.map Event.invokeAsync :=
  filter_map_of_true Event.isInvokeAsync Event.invokeAsync (fun _ => rfl) l

/-- C15. A returning `releaseData` runs the loop body once per element of the
referenced-shared list; in a run of the body that calls `releaseReference`
(the map of the group is not empty): if the call reports removal, one task per
entry of the map is posted to the dispatcher, each releasing the resource of
its entry, and the map is then empty; if not, no task is posted and the map is
as before. -/
theorem releaseData_posts_tasks_on_removal (O : HashOrder)
    (t : MapRendererTiledSymbolsResource) (w : World) (z : Step)
    (h : releaseData O t w = some z) :
    t._referencedSharedGroupsResources.foldlM (releaseSharedGroup O t.self t.zoom)
      (releaseUnique O t.self t._uniqueGroupsResources (w, [])) = some (z.world, z.trace) ∧
    (∀ acc out g, releaseSharedGroup O t.self t.zoom acc g = some out →
      (acc.1.groups g).resourcesInGPU ≠ [] →
      ∃ id c wasRemoved n,
        (acc.1.groups g).group.shareableId = some id ∧
        releaseReference (acc.1.sharedGroupsResources t.zoom) id true
          = some (c, wasRemoved, n) ∧
        Event.releaseReference id true wasRemoved ∈ out.2 ∧
        (wasRemoved = true →
          ∃ tasks, tasks.Perm ((acc.1.groups g).resourcesInGPU.map Prod.snd) ∧
            out.1.dispatcher = acc.1.dispatcher ++ tasks ∧
            out.2.filter Event.isInvokeAsync
              = acc.2.filter Event.isInvokeAsync ++ tasks.map Event.invokeAsync ∧
            (out.1.groups g).resourcesInGPU = []) ∧
        (wasRemoved = false →
          out.1.dispatcher = acc.1.dispatcher ∧
          out.2.filter Event.isInvokeAsync = acc.2.filter Event.isInvokeAsync ∧
          (out.1.groups g).resourcesInGPU = (acc.1.groups g).resourcesInGPU)) := by
  obtain ⟨_, hloop, _⟩ := releaseData_eq O t w z h
  refine ⟨?_, ?_⟩
  · rw [← releaseShared_eq_foldlM]; exact hloop
  · intro acc out g hs hm
    obtain ⟨_, _, _, _, _, _, s7⟩ := releaseSharedGroup_spec O t.self t.zoom acc out g hs
    obtain ⟨id, c, wasRemoved, n, hid, hrel, _, htr, hdisp, hmap⟩ := s7 hm
    refine ⟨id, c, wasRemoved, n, hid, hrel, ?_, ?_, ?_⟩
    · rw [htr]
      simp
    · intro hw
      subst hw
      refine ⟨(O.ord (acc.1.groups g).resourcesInGPU).map Prod.snd,
        (O.perm _).map Prod.snd, by simpa using hdisp, ?_, by simpa using hmap⟩
      rw [htr]
      simp only [List.filter_append, if_true]
      rw [filter_invoke_unregs]
      have hmm : (O.ord (acc.1.groups g).resourcesInGPU).map (fun e => Event.invokeAsync e.2)
          = ((O.ord (acc.1.groups g).resourcesInGPU).map Prod.snd).map Event.invokeAsync := by
        rw [List.map_map]; rfl
      rw [hmm, filter_invoke_invokes]
      simp [List.filter_cons, Event.isInvokeAsync]
    · intro hw
      subst hw
      refine ⟨by simpa using hdisp, ?_, by simpa using hmap⟩
      rw [htr]
      simp only [List.filter_append]
      rw [filter_invoke_unregs]
      simp [List.filter_cons, Event.isInvokeAsync]

/-- C15 at a concrete input: the tile of `demoTile` as last holder of its
shared group; the one task posted releases handle 109. -/
theorem releaseData_posts_tasks_on_removal_witness :
    (∃ z, releaseData HashOrder.insertion demoTile demoWorldLast = some z ∧
      demoTile._referencedSharedGroupsResources.foldlM
        (releaseSharedGroup HashOrder.insertion demoTile.self demoTile.zoom)
        (releaseUnique HashOrder.insertion demoTile.self demoTile._uniqueGroupsResources
          (demoWorldLast, [])) = some (z.world, z.trace)) ∧
    (releaseData HashOrder.insertion demoTile demoWorldLast).map
      (fun z => z.trace.filter Event.isRelease) = some [Event.releaseReference 42 true true] ∧
    (releaseData HashOrder.insertion demoTile demoWorldLast).map
      (fun z => z.world.dispatcher) = some [109] ∧
    (releaseData HashOrder.insertion demoTile demoWorldLast).map
      (fun z => (z.world.groups 1).resourcesInGPU) = some [] :=
  ⟨match h : releaseData HashOrder.insertion demoTile demoWorldLast with
    | some z =>
      ⟨z, rfl,
        (releaseData_posts_tasks_on_removal HashOrder.insertion demoTile demoWorldLast z h).1⟩
    | none =>
      absurd (show (releaseData HashOrder.insertion demoTile demoWorldLast).isSome = true
        by decide) (by rw [h]; decide),
   by decide, by decide, by decide⟩

/-- C16. A returning `unloadFromGPU` runs the loop body once per element of the
referenced-shared list, in order; each run of the body makes exactly one
`releaseReference` call, with removal allowed, for the id of its group, clears
the map of that group exactly when the call reported removal, and leaves the
dispatcher alone. So the calls made are one `releaseReference` per element of
the list and nothing is posted to the dispatcher. -/
theorem unloadFromGPU_releases_each_shared_group
    (t : MapRendererTiledSymbolsResource) (w : World) (r : Step)
    (h : unloadFromGPU t w = some r) :
    t._referencedSharedGroupsResources.foldlM (unloadSharedGroup t.zoom)
      (unloadUnique t._uniqueGroupsResources w, []) = some (r.world, r.trace) ∧
    List.Forall₂ (fun g ev => ∃ id wasRemoved,
        (w.groups g).group.shareableId = some id ∧
        ev = Event.releaseReference id true wasRemoved)
      t._referencedSharedGroupsResources r.trace ∧
    (∀ acc out g, unloadSharedGroup t.zoom acc g = some out →
      ∃ id c wasRemoved n,
        (acc.1.groups g).group.shareableId = some id ∧
        releaseReference (acc.1.sharedGroupsResources t.zoom) id true
          = some (c, wasRemoved, n) ∧
        out.2 = acc.2 ++ [Event.releaseReference id true wasRemoved] ∧
        (out.1.groups g).resourcesInGPU
          = (if wasRemoved then [] else (acc.1.groups g).resourcesInGPU) ∧
        out.1.dispatcher = acc.1.dispatcher) ∧
    r.world.dispatcher = w.dispatcher ∧
    (∀ x, Event.invokeAsync x ∉ r.trace) := by
  obtain ⟨_, hloop, _⟩ := unloadFromGPU_eq t w r h
  obtain ⟨u1, u2, u3, u4, u5, u6, u7, u8, u9⟩ := unloadUnique_spec t._uniqueGroupsResources w
  obtain ⟨evs, hevs, hall⟩ := unloadShared_trace t.zoom _ _ _ hloop
  obtain ⟨_, _, hd, _⟩ := unloadShared_frame t.zoom _ _ _ hloop
  have htr : r.trace = evs := by simpa using hevs
  refine ⟨?_, ?_, ?_, ?_, ?_⟩
  · rw [← unloadShared_eq_foldlM]; exact hloop
  · rw [htr]
    refine List.Forall₂.imp ?_ hall
    rintro g ev ⟨id, rem, hid, hev⟩
    exact ⟨id, rem, by rw [← u3 g]; exact hid, hev⟩
  · intro acc out g hs
    obtain ⟨id, c, wasRemoved, n, h1, h2, h3, _, h5, _, _, h8, _⟩ :=
      unloadSharedGroup_spec t.zoom acc out g hs
    exact ⟨id, c, wasRemoved, n, h1, h2, h3, h5, h8⟩
  · exact hd.trans u6
  · intro x hx
    rw [htr] at hx
    obtain ⟨g, _, id, rem, _, hev⟩ := forall₂_mem_right hall _ hx
    cases hev

/-- C16 at a concrete input: the tile of `demoTile` holds one shared group,
which another tile references as well. -/
theorem unloadFromGPU_releases_each_shared_group_witness :
    ∃ r, unloadFromGPU demoTile demoWorld = some r ∧
      List.Forall₂ (fun g ev => ∃ id wasRemoved,
          (demoWorld.groups g).group.shareableId = some id ∧
          ev = Event.releaseReference id true wasRemoved)
        demoTile._referencedSharedGroupsResources r.trace ∧
      r.world.dispatcher = demoWorld.dispatcher :=
  match h : unloadFromGPU demoTile demoWorld with
  | some r =>
    ⟨r, rfl, (unloadFromGPU_releases_each_shared_group demoTile demoWorld r h).2.1,
      (unloadFromGPU_releases_each_shared_group demoTile demoWorld r h).2.2.2.1⟩
  | none =>
    absurd (show (unloadFromGPU demoTile demoWorld).isSome = true by decide)
      (by rw [h]; decide)

/-- C17. A returning `unloadFromGPU` leaves the quick-lookup map of the tile
and the map of every unique group empty, and leaves the unique list, the
referenced-shared list, the source data and the registry as they were; it
makes no call other than `releaseReference`. -/
theorem unloadFromGPU_frame
    (t : MapRendererTiledSymbolsResource) (w : World) (r : Step)
    (h : unloadFromGPU t w = some r) :
    r.tile._resourcesInGPU = [] ∧
    (∀ g ∈ t._uniqueGroupsResources, (r.world.groups g).resourcesInGPU = []) ∧
    r.tile._uniqueGroupsResources = t._uniqueGroupsResources ∧
    r.tile._referencedSharedGroupsResources = t._referencedSharedGroupsResources ∧
    r.tile._sourceData = t._sourceData ∧
    r.world.registry = w.registry ∧
    (∀ ev ∈ r.trace, ev.isRelease = true) := by
  obtain ⟨_, hloop, htile⟩ := unloadFromGPU_eq t w r h
  obtain ⟨u1, u2, u3, u4, u5, u6, u7, u8, u9⟩ := unloadUnique_spec t._uniqueGroupsResources w
  obtain ⟨evs, hevs, hall⟩ := unloadShared_trace t.zoom _ _ _ hloop
  obtain ⟨_, hmaps, _, hreg, _⟩ := unloadShared_frame t.zoom _ _ _ hloop
  have htr : r.trace = evs := by simpa using hevs
  refine ⟨by rw [htile], ?_, by rw [htile], by rw [htile], by rw [htile], hreg.trans u7, ?_⟩
  · intro g hg
    rcases hmaps g with hm | hm
    · exact hm
    · have : r.world.groups g = (unloadUnique t._uniqueGroupsResources w).groups g := hm
      rw [this]
      exact u1 g hg
  · intro ev hev
    rw [htr] at hev
    obtain ⟨g, _, id, rem, _, he⟩ := forall₂_mem_right hall _ hev
    rw [he]
    rfl

theorem QHash.constFind_eq_none (m : GpuMap) (s : MapSymbol) :
    QHash.constFind m s = none ↔ ∀ r, (s, r) ∉ m := by
  induction m with
  | nil => simp [QHash.constFind]
  | cons e rest ih =>
    obtain ⟨k, v⟩ := e
    by_cases hk : k = s
    · subst hk
      simp only [QHash.constFind, if_true]
      constructor
      · intro h; cases h
      · intro h; exact absurd (List.mem_cons_self _ _) (h v)
    · simp only [QHash.constFind, hk, if_false, ih]
      constructor
      · intro h r hm
        rcases List.mem_cons.mp hm with hm | hm
        · injection hm with h1 _
          exact hk h1.symm
        · exact h r hm
      · intro h r hm
        exact h r (List.mem_cons_of_mem _ hm)

theorem QHash.constFind_mem (m : GpuMap) (s : MapSymbol) (r : ResourceInGPU)
    (h : QHash.constFind m s = some r) : (s, r) ∈ m := by
  induction m with
  | nil => simp [QHash.constFind] at h
  | cons e rest ih =>
    obtain ⟨k, v⟩ := e
    by_cases hk : k = s
    · subst hk
      simp only [QHash.constFind, if_true, Option.some.injEq] at h
      subst h
      exact List.mem_cons_self _ _
    · simp only [QHash.constFind, hk, if_false] at h
      exact List.mem_cons_of_mem _ (ih h)

/-- C18. `getGpuResourceFor` is the lookup in the quick-lookup map of the tile:
it returns null exactly when the map has no entry for the symbol, a handle it
returns is stored under the symbol, and a handle just inserted under a symbol
is the one returned for it. After a returning `unloadFromGPU` or `releaseData`
it returns null for every symbol. -/
theorem getGpuResourceFor_lookup (O : HashOrder)
    (t : MapRendererTiledSymbolsResource) (w : World) :
    (∀ s, getGpuResourceFor t s = QHash.constFind t._resourcesInGPU s) ∧
    (∀ s, getGpuResourceFor t s = none ↔ ∀ r, (s, r) ∉ t._resourcesInGPU) ∧
    (∀ s r, getGpuResourceFor t s = some r → (s, r) ∈ t._resourcesInGPU) ∧
    (∀ s r, getGpuResourceFor
      { t with _resourcesInGPU := QHash.insert t._resourcesInGPU s r } s = some r) ∧
    (∀ u, unloadFromGPU t w = some u → ∀ s, getGpuResourceFor u.tile s = none) ∧
    (∀ z, releaseData O t w = some z → ∀ s, getGpuResourceFor z.tile s = none) := by
  refine ⟨fun _ => rfl, fun s => QHash.constFind_eq_none _ s,
    fun s r h => QHash.constFind_mem _ s r h,
    fun s r => QHash.constFind_insert_self _ s r, ?_, ?_⟩
  · intro u hu s
    rw [(unloadFromGPU_eq t w u hu).2.2]
    rfl
  · intro z hz s
    rw [(releaseData_eq O t w z hz).2.2]
    rfl

/-- C19, evaluated where it fails. Tile A obtains a tile with one unique group
(object 0, symbol 5) and is uploaded: the assertions hold, the upload succeeds
and the bitmap of symbol 5 is dropped. After `unloadFromGPU` the second
`uploadToGPU` uploads symbol 5 again, and the assertion `symbol->bitmap` at
line 202 does not hold. -/
theorem uploadToGPU_again_finds_no_bitmap :
    reuploadRun.map (fun p => p.1.ok) = some true ∧
    reuploadRun.map (fun p => p.1.assertsHeld) = some true ∧
    reuploadRun.map (fun p => p.1.world.bitmap 5) = some none ∧
    reuploadRun.map (fun p => p.2.calls) = some [Event.uploadSymbolToGPU 0 5 (some 105)] ∧
    reuploadRun.map (fun p => p.2.assertsHeld) = some false := by
  decide

end OsmAnd

namespace OsmAnd

/-! ## obtainData: classification and registration -/

theorem eq_some_getD {α : Type} (o : Option α) (d : α) (h : o.isSome = true) :
    o = some (o.getD d) := by
  cases o with
  | none => cases h
  | some x => rfl

theorem obtainedBoth_eq :
    obtainData (some providerBoth) false tileA World.initial = some obtainedBoth :=
  eq_some_getD _ _ (by decide)

theorem obtainedMixed_eq :
    obtainData (some providerMixed) false tileB busyWorld = some obtainedMixed :=
  eq_some_getD _ _ (by decide)

theorem unloadedBoth_eq :
    unloadFromGPU uploadedBoth.tile uploadedBoth.world = some unloadedBoth :=
  eq_some_getD _ _ (by decide)

theorem releasedBoth_eq :
    releaseData HashOrder.insertion unloadedBoth.tile unloadedBoth.world = some releasedBoth :=
  eq_some_getD _ _ (by decide)

theorem enumFrom_fst_inj {α : Type} (n : Nat) (l : List α) (a : Nat) (x y : α)
    (hx : (a, x) ∈ l.enumFrom n) (hy : (a, y) ∈ l.enumFrom n) : x = y := by
  have h1 := (List.mem_enumFrom hx).2.2
  have h2 := (List.mem_enumFrom hy).2.2
  rw [h1, h2]

theorem classifyGroups_spec (loaded : List Nat) :
    ∀ (groups : List MapSymbolsGroup) (st c : Step),
      classifyGroups loaded groups st = some c → Classified loaded groups st c := by
  intro groups
  induction groups with
  | nil =>
    intro st c h
    simp only [classifyGroups, Option.some.injEq] at h
    subst h
    simp [Classified]
  | cons group rest ih =>
    intro st c h
    -- the two ways an iteration can end
    have asUnique : isLoadedShared loaded group = false →
        classifyGroups loaded rest
          { tile := { st.tile with
              _uniqueGroupsResources := st.tile._uniqueGroupsResources ++ [st.world.nextGroup] }
            world := { st.world with
              groups := upd st.world.groups st.world.nextGroup
                { group := group, resourcesInGPU := [] }
              nextGroup := st.world.nextGroup + 1 }
            trace := st.trace } = some c → Classified loaded (group :: rest) st c := by
      intro hload hc
      obtain ⟨i1, i2, i3, i4, i5, i6, i7, i8, i9, i10, i11, i12, i13, i14⟩ := ih _ c hc
      simp only at i1 i2 i3 i4 i5 i6 i7 i8 i9 i10 i11 i12 i13 i14
      refine ⟨?_, ?_, ?_, ?_, ?_, ?_, i7, i8, i9, i10, i11, i12, i13, i14⟩
      · rw [i1, List.enumFrom_cons]
        simp [List.filter_cons, hload]
      · rw [i2, List.enumFrom_cons]
        simp [List.filter_cons, hload]
      · rw [i3, List.enumFrom_cons]
        simp [List.filter_cons, hload]
      · rw [i4, List.length_cons, Nat.add_assoc, Nat.add_comm 1 rest.length]
      · intro p hp
        rw [List.enumFrom_cons] at hp
        rcases List.mem_cons.mp hp with hp | hp
        · subst hp
          rw [i6 _ (Nat.lt_succ_self _)]
          simp [upd_same]
        · exact i5 p hp
      · intro x hx
        rw [i6 x (Nat.lt_succ_of_lt hx)]
        simp [upd_other _ _ _ _ (Nat.ne_of_lt hx)]
    simp only [classifyGroups] at h
    split at h
    · rename_i hnone
      exact asUnique (by simp [isLoadedShared, hnone]) h
    · rename_i id hid
      split at h
      · rename_i hnot
        refine asUnique ?_ h
        simp only [isLoadedShared, hid]
        simpa using hnot
      · rename_i hnot
        have hload : isLoadedShared loaded group = true := by
          simp only [isLoadedShared, hid]
          simpa using hnot
        split at h
        · cases h
        · rename_i c2 hc2
          obtain ⟨i1, i2, i3, i4, i5, i6, i7, i8, i9, i10, i11, i12, i13, i14⟩ := ih _ c h
          simp only at i1 i2 i3 i4 i5 i6 i7 i8 i9 i10 i11 i12 i13 i14
          refine ⟨?_, ?_, ?_, ?_, ?_, ?_, i7, i8, i9, i10, i11, i12, i13, i14⟩
          · rw [i1, List.enumFrom_cons]
            simp [List.filter_cons, hload]
          · rw [i2, List.enumFrom_cons]
            simp [List.filter_cons, hload]
          · rw [i3, List.enumFrom_cons]
            simp [List.filter_cons, hload, publication, hid]
          · rw [i4, List.length_cons, Nat.add_assoc, Nat.add_comm 1 rest.length]
          · intro p hp
            rw [List.enumFrom_cons] at hp
            rcases List.mem_cons.mp hp with hp | hp
            · subst hp
              rw [i6 _ (Nat.lt_succ_self _)]
              simp [upd_same]
            · exact i5 p hp
          · intro x hx
            rw [i6 x (Nat.lt_succ_of_lt hx)]
            simp [upd_other _ _ _ _ (Nat.ne_of_lt hx)]

theorem awaitFutures_spec :
    ∀ (futures : List Nat) (st f : Step),
      awaitFutures futures st = some f →
      ∃ values,
        List.Forall₂ (fun id v =>
          ∃ n, f.world.sharedGroupsResources st.tile.zoom id = CacheEntry.resolved v n)
          futures values ∧
        f.tile = { st.tile with
          _referencedSharedGroupsResources :=
            st.tile._referencedSharedGroupsResources ++ values } ∧
        f.world = { st.world with sharedGroupsResources := f.world.sharedGroupsResources } ∧
        f.trace = st.trace ∧
        (∀ id v n, st.world.sharedGroupsResources st.tile.zoom id = CacheEntry.resolved v n →
          f.world.sharedGroupsResources st.tile.zoom id = CacheEntry.resolved v n) := by
  intro futures
  induction futures with
  | nil =>
    intro st f h
    simp only [awaitFutures, Option.some.injEq] at h
    subst h
    exact ⟨[], List.Forall₂.nil, by simp, rfl, rfl, fun _ _ _ h => h⟩
  | cons id rest ih =>
    intro st f h
    simp only [awaitFutures] at h
    split at h
    · cases h
    · rename_i v c hv
      obtain ⟨values, h1, h2, h3, h4, h5⟩ := ih _ f h
      simp only at h1 h2 h3 h4 h5
      have hhead : (∃ n, c id = CacheEntry.resolved v n) ∧
          (∀ x r n, st.world.sharedGroupsResources st.tile.zoom x = CacheEntry.resolved r n →
            c x = CacheEntry.resolved r n) := by
        unfold futureGet at hv
        split at hv
        · rename_i r n hc
          simp only [Option.some.injEq, Prod.mk.injEq] at hv
          obtain ⟨hv1, hv2⟩ := hv
          subst hv1
          subst hv2
          exact ⟨⟨n, hc⟩, fun x r n hx => hx⟩
        · rename_i k hc
          split at hv
          · rename_i r hin
            simp only [Option.some.injEq, Prod.mk.injEq] at hv
            obtain ⟨hv1, hv2⟩ := hv
            subst hv1
            subst hv2
            refine ⟨⟨k + 1, upd_same _ _ _⟩, ?_⟩
            intro x r2 n hx
            have hne : x ≠ id := by
              intro hxe
              rw [hxe, hc] at hx
              cases hx
            rw [upd_other _ _ _ _ hne]
            exact hx
          · cases hv
        · cases hv
      refine ⟨v :: values, List.Forall₂.cons ?_ h1, ?_, h3, h4, ?_⟩
      · obtain ⟨n, hn⟩ := hhead.1
        exact ⟨n, h5 id v n (by rw [upd_same]; exact hn)⟩
      · rw [h2]
        simp
      · intro x r n hx
        exact h5 x r n (by rw [upd_same]; exact hhead.2 x r n hx)

theorem registerMapSymbol_foldl (self : Nat) :
    ∀ (syms : List MapSymbol) (acc : World × List Event),
      syms.foldl (registerMapSymbol self) acc
        = ({ acc.1 with registry := acc.1.registry ++ syms.map (fun s => (s, self)) },
           acc.2 ++ syms.map (fun s => Event.registerMapSymbol s self)) := by
  intro syms
  induction syms with
  | nil => intro acc; simp
  | cons s rest ih =>
    intro acc
    simp only [List.foldl_cons, List.map_cons]
    rw [ih]
    simp [registerMapSymbol]

theorem registerGroups_eq (self : Nat) :
    ∀ (gs : List GroupRef) (acc : World × List Event),
      registerGroups self gs acc
        = ({ acc.1 with
              registry := acc.1.registry ++ (symbolsOf acc.1 gs).map (fun s => (s, self)) },
           acc.2 ++ (symbolsOf acc.1 gs).map (fun s => Event.registerMapSymbol s self)) := by
  intro gs
  induction gs with
  | nil => intro acc; simp [registerGroups, symbolsOf]
  | cons g rest ih =>
    intro acc
    have hstep : registerGroups self (g :: rest) acc
        = registerGroups self rest
            ((acc.1.groups g).group.symbols.foldl (registerMapSymbol self) acc) := by
      simp [registerGroups]
    rw [hstep, registerMapSymbol_foldl, ih]
    have hsym : symbolsOf
        ({ acc.1 with registry := acc.1.registry
            ++ (acc.1.groups g).group.symbols.map (fun s => (s, self)) } : World) rest
        = symbolsOf acc.1 rest := rfl
    simp only [hsym, symbolsOf_cons, List.map_append, List.append_assoc]

/-- The shape of a call of `obtainData` that got a tile from the provider and
returned. -/
theorem obtainData_data_eq (run : ProviderRun) (dataAvailable : Bool)
    (t : MapRendererTiledSymbolsResource) (w : World) (tile : TiledMapSymbolsData)
    (r : ObtainResult)
    (hl : t.link = true) (hreq : (requestTile run t w).1 = true)
    (htile : (requestTile run t w).2.1 = some tile)
    (h : obtainData (some run) dataAvailable t w = some r) :
    ∃ c f,
      classifyGroups (requestTile run t w).2.2.loadedSharedGroups tile.symbolsGroups
        { tile := { t with
            _sourceData := some tile
            _referencedSharedGroupsResources :=
              (requestTile run t w).2.2.referencedSharedGroupsResources }
          world := { w with
            sharedGroupsResources := upd w.sharedGroupsResources t.zoom
              (requestTile run t w).2.2.sharedGroupsResources }
          trace := (requestTile run t w).2.2.trace } = some c ∧
      awaitFutures (requestTile run t w).2.2.futureReferencedSharedGroupsResources c
        = some f ∧
      r.ok = true ∧ r.dataAvailable = true ∧
      r.tile = { f.tile with _sourceData := some { symbolsGroups := [] } } ∧
      r.world = (registerGroups t.self f.tile._referencedSharedGroupsResources
        (registerGroups t.self f.tile._uniqueGroupsResources (f.world, f.trace))).1 ∧
      r.trace = (registerGroups t.self f.tile._referencedSharedGroupsResources
        (registerGroups t.self f.tile._uniqueGroupsResources (f.world, f.trace))).2 := by
  unfold obtainData at h
  rw [if_neg (by simp [hl])] at h
  simp only [hreq, Bool.not_true, Bool.false_eq_true, if_false, htile] at h
  split at h
  · cases h
  · rename_i c hc
    split at h
    · cases h
    · rename_i f hf
      simp only [Option.some.injEq] at h
      subst h
      exact ⟨c, f, hc, hf, rfl, rfl, rfl, rfl, rfl⟩

/-- A call of `obtainData` that got a tile and returned, in terms of the state
`c` after the classification loop and the values `values` of the awaited
futures. -/
theorem obtainData_data_spec (run : ProviderRun) (dataAvailable : Bool)
    (t : MapRendererTiledSymbolsResource) (w : World) (tile : TiledMapSymbolsData)
    (r : ObtainResult)
    (hl : t.link = true) (hreq : (requestTile run t w).1 = true)
    (htile : (requestTile run t w).2.1 = some tile)
    (h : obtainData (some run) dataAvailable t w = some r) :
    ∃ c values,
      Classified (requestTile run t w).2.2.loadedSharedGroups tile.symbolsGroups
        { tile := { t with
            _sourceData := some tile
            _referencedSharedGroupsResources :=
              (requestTile run t w).2.2.referencedSharedGroupsResources }
          world := { w with
            sharedGroupsResources := upd w.sharedGroupsResources t.zoom
              (requestTile run t w).2.2.sharedGroupsResources }
          trace := (requestTile run t w).2.2.trace } c ∧
      List.Forall₂ (fun id v =>
          ∃ n, r.world.sharedGroupsResources t.zoom id = CacheEntry.resolved v n)
        (requestTile run t w).2.2.futureReferencedSharedGroupsResources values ∧
      r.ok = true ∧ r.dataAvailable = true ∧
      r.tile._uniqueGroupsResources = c.tile._uniqueGroupsResources ∧
      r.tile._referencedSharedGroupsResources
        = c.tile._referencedSharedGroupsResources ++ values ∧
      r.tile._sourceData = some { symbolsGroups := [] } ∧
      r.world.groups = c.world.groups ∧
      r.world.registry = c.world.registry ++
        (symbolsOf c.world (r.tile._uniqueGroupsResources
          ++ r.tile._referencedSharedGroupsResources)).map (fun s => (s, t.self)) ∧
      r.trace = c.trace ++
        (symbolsOf c.world (r.tile._uniqueGroupsResources
          ++ r.tile._referencedSharedGroupsResources)).map
            (fun s => Event.registerMapSymbol s t.self) := by
  obtain ⟨c, f, hc, hf, hok, hda, ht, hw, htr⟩ :=
    obtainData_data_eq run dataAvailable t w tile r hl hreq htile h
  have hcl := classifyGroups_spec _ _ _ _ hc
  obtain ⟨values, hv, hft, hfw, hftr, _⟩ := awaitFutures_spec _ _ _ hf
  have hzoom : c.tile.zoom = t.zoom := hcl.2.2.2.2.2.2.2.2.2.2.1
  have hgroups : f.world.groups = c.world.groups := by rw [hfw]
  have hregistry : f.world.registry = c.world.registry := by rw [hfw]
  have hsym : ∀ gs, symbolsOf f.world gs = symbolsOf c.world gs :=
    fun gs => symbolsOf_congr _ _ (fun x => by rw [hgroups]) gs
  rw [registerGroups_eq, registerGroups_eq] at hw htr
  have hw2 : r.world = { f.world with
      registry := f.world.registry ++
        (symbolsOf f.world (f.tile._uniqueGroupsResources
          ++ f.tile._referencedSharedGroupsResources)).map (fun s => (s, t.self)) } := by
    rw [hw]
    simp only [symbolsOf_append, List.map_append, List.append_assoc]
    rfl
  have htr2 : r.trace = f.trace ++
      (symbolsOf f.world (f.tile._uniqueGroupsResources
        ++ f.tile._referencedSharedGroupsResources)).map
          (fun s => Event.registerMapSymbol s t.self) := by
    rw [htr]
    simp only [symbolsOf_append, List.map_append, List.append_assoc]
    rfl
  have hftu : f.tile._uniqueGroupsResources = c.tile._uniqueGroupsResources := by rw [hft]
  have hftr2 : f.tile._referencedSharedGroupsResources
      = c.tile._referencedSharedGroupsResources ++ values := by rw [hft]
  refine ⟨c, values, hcl, ?_, hok, hda, ?_, ?_, ?_, ?_, ?_, ?_⟩
  · have hcache : r.world.sharedGroupsResources = f.world.sharedGroupsResources := by
      rw [hw2]
    rw [hcache, ← hzoom]
    exact hv
  · rw [ht]
    exact hftu
  · rw [ht]
    exact hftr2
  · rw [ht]
  · rw [hw2]
    exact hgroups
  · rw [hw2, ht]
    simp only [hsym, hregistry]
  · rw [htr2, ht, hftr]
    simp only [hsym]

theorem requestTile_trace_filter (p : Event → Bool) (hp1 : p Event.obtainProviderFor = false)
    (hp2 : p Event.providerObtainData = false) (hp3 : ∀ g a, p (Event.acceptGroup g a) = false)
    (run : ProviderRun) (t : MapRendererTiledSymbolsResource) (w : World) :
    (requestTile run t w).2.2.trace.filter p = [] := by
  rw [List.filter_eq_nil_iff]
  intro ev hev
  rcases runProvider_trace run _ ev hev with h1 | ⟨g, a, h1⟩
  · simp only [List.mem_cons, List.mem_singleton] at h1
    rcases h1 with h1 | h1 | h1
    · rw [h1, hp1]; simp
    · rw [h1, hp2]; simp
    · cases h1
  · rw [h1, hp3]; simp

theorem filter_fulfil_publications (l : List (GroupRef × MapSymbolsGroup)) :
    (l.filterMap publication).filter Event.isFulfil = l.filterMap publication := by
  rw [List.filter_eq_self]
  intro ev hev
  obtain ⟨p, _, hp⟩ := List.mem_filterMap.mp hev
  unfold publication at hp
  cases hid : p.2.shareableId with
  | none => rw [hid] at hp; cases hp
  | some id =>
    rw [hid] at hp
    simp only [Option.map_some', Option.some.injEq] at hp
    rw [← hp]
    rfl

theorem filter_register_publications (l : List (GroupRef × MapSymbolsGroup)) :
    (l.filterMap publication).filter Event.isRegister = [] := by
  rw [List.filter_eq_nil_iff]
  intro ev hev
  obtain ⟨p, _, hp⟩ := List.mem_filterMap.mp hev
  unfold publication at hp
  cases hid : p.2.shareableId with
  | none => rw [hid] at hp; cases hp
  | some id =>
    rw [hid] at hp
    simp only [Option.map_some', Option.some.injEq] at hp
    rw [← hp]
    simp [Event.isRegister]

theorem filter_fulfil_registers (self : Nat) (syms : List MapSymbol) :
    (syms.map (fun s => Event.registerMapSymbol s self)).filter Event.isFulfil = [] :=
  filter_map_of_false Event.isFulfil (fun s => Event.registerMapSymbol s self)
    (fun _ => rfl) syms

theorem filter_register_registers (self : Nat) (syms : List MapSymbol) :
    (syms.map (fun s => Event.registerMapSymbol s self)).filter Event.isRegister
      = syms.map (fun s => Event.registerMapSymbol s self) :=
  filter_map_of_true Event.isRegister (fun s => Event.registerMapSymbol s self)
    (fun _ => rfl) syms

/-- The registration calls of a call of `obtainData` that got a tile and
returned, and what they did to the registry. -/
theorem obtainData_registration (run : ProviderRun) (dataAvailable : Bool)
    (t : MapRendererTiledSymbolsResource) (w : World) (tile : TiledMapSymbolsData)
    (r : ObtainResult)
    (hl : t.link = true) (hreq : (requestTile run t w).1 = true)
    (htile : (requestTile run t w).2.1 = some tile)
    (h : obtainData (some run) dataAvailable t w = some r) :
    r.trace.filter Event.isRegister =
      (symbolsOf r.world (r.tile._uniqueGroupsResources
        ++ r.tile._referencedSharedGroupsResources)).map
          (fun s => Event.registerMapSymbol s t.self) ∧
    r.world.registry = w.registry ++
      (symbolsOf r.world (r.tile._uniqueGroupsResources
        ++ r.tile._referencedSharedGroupsResources)).map (fun s => (s, t.self)) := by
  obtain ⟨c, values, hcl, _, _, _, _, _, _, hg, hreg, htr⟩ :=
    obtainData_data_spec run dataAvailable t w tile r hl hreq htile h
  obtain ⟨_, _, c3, _, _, _, c7, _⟩ := hcl
  simp only at c3 c7
  have hsym : ∀ gs, symbolsOf r.world gs = symbolsOf c.world gs :=
    fun gs => symbolsOf_congr _ _ (fun x => by rw [hg]) gs
  refine ⟨?_, ?_⟩
  · rw [htr, c3, hsym]
    simp only [List.filter_append]
    rw [requestTile_trace_filter Event.isRegister rfl rfl (fun _ _ => rfl),
      filter_register_publications, filter_register_registers]
    simp
  · rw [hreg, c7, hsym]

theorem obtainData_data_self (run : ProviderRun) (dataAvailable : Bool)
    (t : MapRendererTiledSymbolsResource) (w : World) (tile : TiledMapSymbolsData)
    (r : ObtainResult)
    (hl : t.link = true) (hreq : (requestTile run t w).1 = true)
    (htile : (requestTile run t w).2.1 = some tile)
    (h : obtainData (some run) dataAvailable t w = some r) :
    r.tile.self = t.self ∧ r.tile.zoom = t.zoom ∧ r.tile.link = t.link := by
  obtain ⟨c, f, hc, hf, _, _, ht, _, _⟩ :=
    obtainData_data_eq run dataAvailable t w tile r hl hreq htile h
  obtain ⟨_, _, _, _, _, _, _, _, _, c10, c11, c12, _, _⟩ := classifyGroups_spec _ _ _ _ hc
  obtain ⟨values, _, hft, _, _⟩ := awaitFutures_spec _ _ _ hf
  rw [ht, hft]
  exact ⟨c10, c11, c12⟩

/-- C12. When `obtainData` got a tile from the provider and returned, the
`registerMapSymbol` calls it made are exactly one call, with this tile
resource as key, per occurrence of a symbol in the groups of the unique list
and then of the referenced-shared list, and the registry gained exactly those
pairs. -/
theorem obtainData_registers_symbols (run : ProviderRun) (dataAvailable : Bool)
    (t : MapRendererTiledSymbolsResource) (w : World) (tile : TiledMapSymbolsData)
    (r : ObtainResult)
    (hl : t.link = true) (hreq : (requestTile run t w).1 = true)
    (htile : (requestTile run t w).2.1 = some tile)
    (h : obtainData (some run) dataAvailable t w = some r) :
    r.trace.filter Event.isRegister =
      (symbolsOf r.world (r.tile._uniqueGroupsResources
        ++ r.tile._referencedSharedGroupsResources)).map
          (fun s => Event.registerMapSymbol s t.self) ∧
    r.world.registry = w.registry ++
      (symbolsOf r.world (r.tile._uniqueGroupsResources
        ++ r.tile._referencedSharedGroupsResources)).map (fun s => (s, t.self)) := by
  exact obtainData_registration run dataAvailable t w tile r hl hreq htile h

/-- C12 at a concrete input: the run of `obtainedBoth`. -/
theorem obtainData_registers_symbols_witness :
    (tileA.link = true ∧ (requestTile providerBoth tileA World.initial).1 = true ∧
      (requestTile providerBoth tileA World.initial).2.1
        = some { symbolsGroups := [group5, group42] } ∧
      obtainData (some providerBoth) false tileA World.initial = some obtainedBoth) ∧
    obtainedBoth.trace.filter Event.isRegister =
      (symbolsOf obtainedBoth.world (obtainedBoth.tile._uniqueGroupsResources
        ++ obtainedBoth.tile._referencedSharedGroupsResources)).map
          (fun s => Event.registerMapSymbol s tileA.self) ∧
    obtainedBoth.world.registry = World.initial.registry ++
      (symbolsOf obtainedBoth.world (obtainedBoth.tile._uniqueGroupsResources
        ++ obtainedBoth.tile._referencedSharedGroupsResources)).map
          (fun s => (s, tileA.self)) :=
  ⟨⟨rfl, by decide, by decide, obtainedBoth_eq⟩,
   obtainData_registers_symbols providerBoth false tileA World.initial
     { symbolsGroups := [group5, group42] } obtainedBoth rfl (by decide) (by decide)
     obtainedBoth_eq⟩

end OsmAnd

namespace OsmAnd

/-! ## The registration round trip -/

/-- What `uploadToGPU` leaves alone, on success and on failure. -/
theorem uploadToGPU_frame {σ : Type} (O : HashOrder)
    (up : σ → MapSymbol → Option ResourceInGPU × σ) (o : σ)
    (t : MapRendererTiledSymbolsResource) (w : World) :
    (uploadToGPU O up o t w).tile._uniqueGroupsResources = t._uniqueGroupsResources ∧
    (uploadToGPU O up o t w).tile._referencedSharedGroupsResources
      = t._referencedSharedGroupsResources ∧
    (uploadToGPU O up o t w).tile.self = t.self ∧
    (uploadToGPU O up o t w).tile.zoom = t.zoom ∧
    (uploadToGPU O up o t w).tile.link = t.link ∧
    (uploadToGPU O up o t w).tile._sourceData = t._sourceData ∧
    (∀ g, ((uploadToGPU O up o t w).world.groups g).group = (w.groups g).group) ∧
    (uploadToGPU O up o t w).world.registry = w.registry := by
  cases hq : (sharedPass up o t w).anyUploadFailed with
  | true =>
    obtain ⟨_, h2, h3⟩ := uploadToGPU_failed O up o t w hq
    rw [h2, h3]
    exact ⟨rfl, rfl, rfl, rfl, rfl, rfl, fun _ => rfl, rfl⟩
  | false =>
    obtain ⟨_, h2, h3⟩ := uploadToGPU_succeeded O up o t w hq
    obtain ⟨f1, _, _, f4, _, f6, f7, f8, f9, f10, f11⟩ :=
      commitUploaded_frame (committed O up o t w) (t, w)
    rw [h2, h3]
    exact ⟨f10, f11, f6, f8, f7, f9, f1, f4⟩

/-- What `uploadToGPU` and `unloadFromGPU` calls on a tile leave alone. -/
theorem GpuCalls_frame (x y : MapRendererTiledSymbolsResource × World) (h : GpuCalls x y) :
    y.1._uniqueGroupsResources = x.1._uniqueGroupsResources ∧
    y.1._referencedSharedGroupsResources = x.1._referencedSharedGroupsResources ∧
    y.1.self = x.1.self ∧ y.1.zoom = x.1.zoom ∧
    (∀ g, (y.2.groups g).group = (x.2.groups g).group) ∧
    y.2.registry = x.2.registry := by
  induction h with
  | done x => exact ⟨rfl, rfl, rfl, rfl, fun _ => rfl, rfl⟩
  | upload O up o x y _ ih =>
    obtain ⟨f1, f2, f3, f4, _, _, f7, f8⟩ := uploadToGPU_frame O up o x.1 x.2
    obtain ⟨i1, i2, i3, i4, i5, i6⟩ := ih
    exact ⟨i1.trans f1, i2.trans f2, i3.trans f3, i4.trans f4,
      fun g => (i5 g).trans (f7 g), i6.trans f8⟩
  | unload x y s hs _ ih =>
    obtain ⟨_, hloop, htile⟩ := unloadFromGPU_eq x.1 x.2 s hs
    obtain ⟨_, _, u3, _, _, _, u7, _⟩ := unloadUnique_spec x.1._uniqueGroupsResources x.2
    obtain ⟨g1, _, _, g4, _⟩ := unloadShared_frame x.1.zoom _ _ _ hloop
    obtain ⟨i1, i2, i3, i4, i5, i6⟩ := ih
    simp only at i1 i2 i3 i4 i5 i6
    rw [htile] at i1 i2 i3 i4
    exact ⟨i1, i2, i3, i4, fun g => (i5 g).trans ((g1 g).trans (u3 g)),
      i6.trans (g4.trans u7)⟩

/-- What a returning `releaseData` does to the registry and which symbols it
unregisters: those of the unique groups and then of the referenced shared
groups, once per occurrence, with the tile resource as key. -/
theorem releaseData_unregisters (O : HashOrder)
    (t : MapRendererTiledSymbolsResource) (w : World) (z : Step)
    (h : releaseData O t w = some z) :
    z.trace.filter Event.isUnregister =
      (symbolsOf w (t._uniqueGroupsResources ++ t._referencedSharedGroupsResources)).map
        (fun s => Event.unregisterMapSymbol s t.self) ∧
    z.world.registry =
      ((symbolsOf w (t._uniqueGroupsResources ++ t._referencedSharedGroupsResources)).map
        (fun s => (s, t.self))).foldl List.erase w.registry ∧
    z.tile._uniqueGroupsResources = [] ∧
    z.tile._referencedSharedGroupsResources = [] ∧
    z.tile._sourceData = none := by
  obtain ⟨_, hloop, htile⟩ := releaseData_eq O t w z h
  obtain ⟨u1, u2, u3, _, _⟩ := releaseUnique_spec O t.self t._uniqueGroupsResources (w, [])
  obtain ⟨_, s2, s3, _, _⟩ := releaseShared_spec O t.self t.zoom _ _ _ hloop
  have hsym : symbolsOf (releaseUnique O t.self t._uniqueGroupsResources (w, [])).1
      t._referencedSharedGroupsResources = symbolsOf w t._referencedSharedGroupsResources :=
    symbolsOf_congr _ _ u1 _
  refine ⟨?_, ?_, by rw [htile], by rw [htile], by rw [htile]⟩
  · have : z.trace.filter Event.isUnregister
        = (z.world, z.trace).2.filter Event.isUnregister := rfl
    rw [this, s3, u3, hsym, symbolsOf_append, List.map_append]
    simp
  · have : z.world.registry = (z.world, z.trace).1.registry := rfl
    rw [this, s2, u2, hsym, symbolsOf_append, List.map_append, List.foldl_append]

theorem erase_perm_of_perm (p : MapSymbol × Nat) :
    ∀ L1 L2 : List (MapSymbol × Nat), L1.Perm L2 → (L1.erase p).Perm (L2.erase p) := by
  intro L1 L2 h
  induction h with
  | nil => exact List.Perm.refl _
  | cons x _ ih =>
    by_cases hx : x = p
    · subst hx
      simpa [List.erase_cons_head] using ‹List.Perm _ _›
    · have hb : (x == p) = false := by simpa using hx
      simp only [List.erase_cons, hb]
      exact List.Perm.cons x ih
  | swap x y l =>
    by_cases hx : x = p
    · subst hx
      by_cases hy : y = x
      · subst hy
        simp [List.erase_cons_head]
      · have hb : (y == x) = false := by simpa using hy
        simp only [List.erase_cons, hb, beq_self_eq_true, if_true, Bool.false_eq_true, if_false]
        exact List.Perm.refl _
    · have hbx : (x == p) = false := by simpa using hx
      by_cases hy : y = p
      · subst hy
        simp only [List.erase_cons, hbx, beq_self_eq_true, if_true, Bool.false_eq_true,
          if_false]
        exact List.Perm.refl _
      · have hby : (y == p) = false := by simpa using hy
        simp only [List.erase_cons, hbx, hby, Bool.false_eq_true, if_false]
        exact List.Perm.swap x y _
  | trans _ _ ih1 ih2 => exact ih1.trans ih2

theorem foldl_erase_perm (P : List (MapSymbol × Nat)) :
    ∀ L1 L2 : List (MapSymbol × Nat), L1.Perm L2 →
      (P.foldl List.erase L1).Perm (P.foldl List.erase L2) := by
  induction P with
  | nil => intro L1 L2 h; exact h
  | cons p rest ih =>
    intro L1 L2 h
    simp only [List.foldl_cons]
    exact ih _ _ (erase_perm_of_perm p _ _ h)

theorem foldl_erase_append_perm (R P : List (MapSymbol × Nat)) :
    (P.foldl List.erase (R ++ P)).Perm R := by
  induction P generalizing R with
  | nil => simp
  | cons p rest ih =>
    simp only [List.foldl_cons]
    have h1 : ((R ++ p :: rest).erase p).Perm (R ++ rest) := by
      have h2 : (R ++ p :: rest).Perm (p :: (R ++ rest)) := List.perm_middle
      have h3 := erase_perm_of_perm p _ _ h2
      simpa [List.erase_cons_head] using h3
    exact (foldl_erase_perm rest _ _ h1).trans (ih R)

/-- C13. Take a call of `obtainData` that got a tile and returned, then any
sequence of `uploadToGPU` and `unloadFromGPU` calls on the tile, then a
returning `releaseData`. The `unregisterMapSymbol` calls of `releaseData` are,
symbol for symbol and with the same tile as key, the `registerMapSymbol` calls
of `obtainData`: one per occurrence of a symbol in the unique and the
referenced shared groups the tile holds. The registry ends up with the entries
it had before `obtainData`, so with none keyed by this tile if it had none;
both group lists are empty and the source data is dropped. -/
theorem registration_round_trip (run : ProviderRun) (dataAvailable : Bool)
    (t : MapRendererTiledSymbolsResource) (w : World) (tile : TiledMapSymbolsData)
    (r : ObtainResult)
    (hl : t.link = true) (hreq : (requestTile run t w).1 = true)
    (htile : (requestTile run t w).2.1 = some tile)
    (hob : obtainData (some run) dataAvailable t w = some r)
    (t1 : MapRendererTiledSymbolsResource) (w1 : World)
    (hcalls : GpuCalls (r.tile, r.world) (t1, w1))
    (O : HashOrder) (z : Step) (hrel : releaseData O t1 w1 = some z) :
    r.trace.filter Event.isRegister =
      (symbolsOf r.world (r.tile._uniqueGroupsResources
        ++ r.tile._referencedSharedGroupsResources)).map
          (fun s => Event.registerMapSymbol s t.self) ∧
    z.trace.filter Event.isUnregister =
      (symbolsOf r.world (r.tile._uniqueGroupsResources
        ++ r.tile._referencedSharedGroupsResources)).map
          (fun s => Event.unregisterMapSymbol s t.self) ∧
    z.world.registry.Perm w.registry ∧
    ((∀ s, (s, t.self) ∉ w.registry) → ∀ s, (s, t.self) ∉ z.world.registry) ∧
    z.tile._uniqueGroupsResources = [] ∧
    z.tile._referencedSharedGroupsResources = [] ∧
    z.tile._sourceData = none := by
  obtain ⟨hreg, hregistry⟩ :=
    obtainData_registration run dataAvailable t w tile r hl hreq htile hob
  obtain ⟨hself, _, _⟩ := obtainData_data_self run dataAvailable t w tile r hl hreq htile hob
  obtain ⟨g1, g2, g3, _, g5, g6⟩ := GpuCalls_frame _ _ hcalls
  simp only at g1 g2 g3 g5 g6
  obtain ⟨z1, z2, z3, z4, z5⟩ := releaseData_unregisters O t1 w1 z hrel
  have hsym : symbolsOf w1 (t1._uniqueGroupsResources ++ t1._referencedSharedGroupsResources)
      = symbolsOf r.world (r.tile._uniqueGroupsResources
        ++ r.tile._referencedSharedGroupsResources) := by
    rw [g1, g2]
    exact symbolsOf_congr _ _ g5 _
  rw [hsym, g3, hself] at z1 z2
  rw [g6, hregistry] at z2
  have hperm : z.world.registry.Perm w.registry := by
    rw [z2]
    exact foldl_erase_append_perm _ _
  refine ⟨hreg, z1, hperm, ?_, z3, z4, z5⟩
  intro hnone s hs
  exact hnone s (hperm.mem_iff.mp hs)

/-- C13 at a concrete input: `obtainedBoth`, uploaded, unloaded and released. -/
theorem registration_round_trip_witness :
    (obtainData (some providerBoth) false tileA World.initial = some obtainedBoth ∧
      GpuCalls (obtainedBoth.tile, obtainedBoth.world) (unloadedBoth.tile, unloadedBoth.world) ∧
      releaseData HashOrder.insertion unloadedBoth.tile unloadedBoth.world
        = some releasedBoth) ∧
    releasedBoth.trace.filter Event.isUnregister =
      (symbolsOf obtainedBoth.world (obtainedBoth.tile._uniqueGroupsResources
        ++ obtainedBoth.tile._referencedSharedGroupsResources)).map
          (fun s => Event.unregisterMapSymbol s tileA.self) ∧
    releasedBoth.world.registry.Perm World.initial.registry ∧
    (∀ s, (s, tileA.self) ∉ releasedBoth.world.registry) ∧
    releasedBoth.tile._uniqueGroupsResources = [] ∧
    releasedBoth.tile._referencedSharedGroupsResources = [] ∧
    releasedBoth.tile._sourceData = none :=
  have calls : GpuCalls (obtainedBoth.tile, obtainedBoth.world)
      (unloadedBoth.tile, unloadedBoth.world) :=
    GpuCalls.upload HashOrder.insertion uploadAlways () _ _
      (GpuCalls.unload (uploadedBoth.tile, uploadedBoth.world) _ unloadedBoth unloadedBoth_eq
        (GpuCalls.done _))
  have h := registration_round_trip providerBoth false tileA World.initial
    { symbolsGroups := [group5, group42] } obtainedBoth rfl (by decide) (by decide)
    obtainedBoth_eq unloadedBoth.tile unloadedBoth.world calls HashOrder.insertion
    releasedBoth releasedBoth_eq
  ⟨⟨obtainedBoth_eq, calls, releasedBoth_eq⟩, h.2.1, h.2.2.1,
    h.2.2.2.1 (fun s hm => by cases hm), h.2.2.2.2⟩

end OsmAnd

namespace OsmAnd

/-! ## obtainData: when the call returns -/

/-- The ids the callback has marked to be loaded and the ids it holds a future
for are claimed in the cache, and one more run of the callback keeps it so. -/
theorem acceptGroup_pending (st : CallbackState) (group : MapSymbolsGroup)
    (h : ∀ id, (id ∈ st.loadedSharedGroups ∨ id ∈ st.futureReferencedSharedGroupsResources) →
      ∃ k, st.sharedGroupsResources id = CacheEntry.promised k) :
    ∀ id, (id ∈ (acceptGroup st group).2.loadedSharedGroups ∨
        id ∈ (acceptGroup st group).2.futureReferencedSharedGroupsResources) →
      ∃ k, (acceptGroup st group).2.sharedGroupsResources id = CacheEntry.promised k := by
  intro id hid
  cases hs : group.shareableId with
  | none =>
    simp only [acceptGroup, hs] at hid ⊢
    exact h id hid
  | some id0 =>
    cases hc : st.sharedGroupsResources id0 with
    | absent =>
      simp only [acceptGroup, hs, obtainReferenceOrFutureReferenceOrMakePromise, hc] at hid ⊢
      by_cases he : id = id0
      · subst he
        exact ⟨0, upd_same _ _ _⟩
      · rw [upd_other _ _ _ _ he]
        apply h
        rcases hid with hid | hid
        · left
          split at hid
          · exact hid
          · rcases List.mem_append.mp hid with h1 | h1
            · exact h1
            · exact absurd (List.mem_singleton.mp h1) he
        · exact Or.inr hid
    | promised k =>
      simp only [acceptGroup, hs, obtainReferenceOrFutureReferenceOrMakePromise, hc] at hid ⊢
      by_cases he : id = id0
      · subst he
        exact ⟨k + 1, upd_same _ _ _⟩
      · rw [upd_other _ _ _ _ he]
        apply h
        rcases hid with hid | hid
        · exact Or.inl hid
        · right
          rcases List.mem_append.mp hid with h1 | h1
          · exact h1
          · exact absurd (List.mem_singleton.mp h1) he
    | resolved r n =>
      simp only [acceptGroup, hs, obtainReferenceOrFutureReferenceOrMakePromise, hc] at hid ⊢
      obtain ⟨k, hk⟩ := h id hid
      have he : id ≠ id0 := by
        intro he
        rw [he, hc] at hk
        cases hk
      rw [upd_other _ _ _ _ he]
      exact ⟨k, hk⟩

theorem runProvider_pending :
    ∀ (run : ProviderRun) (st : CallbackState),
      (∀ id, (id ∈ st.loadedSharedGroups ∨ id ∈ st.futureReferencedSharedGroupsResources) →
        ∃ k, st.sharedGroupsResources id = CacheEntry.promised k) →
      ∀ id, (id ∈ (runProvider run st).2.2.loadedSharedGroups ∨
          id ∈ (runProvider run st).2.2.futureReferencedSharedGroupsResources) →
        ∃ k, (runProvider run st).2.2.sharedGroupsResources id = CacheEntry.promised k := by
  intro run
  induction run with
  | done ok tile =>
    intro st h
    exact h
  | ask group next ih =>
    intro st h
    simp only [runProvider]
    exact ih _ _ (acceptGroup_pending st group h)

/-- After the provider request every id marked to be loaded and every id a
future was collected for is claimed in the cache. -/
theorem requestTile_pending (run : ProviderRun) (t : MapRendererTiledSymbolsResource)
    (w : World) :
    ∀ id, (id ∈ (requestTile run t w).2.2.loadedSharedGroups ∨
        id ∈ (requestTile run t w).2.2.futureReferencedSharedGroupsResources) →
      ∃ k, (requestTile run t w).2.2.sharedGroupsResources id = CacheEntry.promised k := by
  apply runProvider_pending
  intro id hid
  rcases hid with hid | hid <;> cases hid

theorem isLoadedShared_eq_true (loaded : List Nat) (group : MapSymbolsGroup) :
    isLoadedShared loaded group = true ↔
      ∃ id, group.shareableId = some id ∧ id ∈ loaded := by
  unfold isLoadedShared
  cases hs : group.shareableId with
  | none => simp
  | some id => simp

/-- The classification loop completes when every group it is to publish has
its id claimed in the cache and no two of them have the same id. The ids it
published are resolved afterwards, the other entries of the cache are as
before. -/
theorem classifyGroups_returns (loaded : List Nat) :
    ∀ (groups : List MapSymbolsGroup) (st : Step),
      (∀ g ∈ groups, ∀ id, g.shareableId = some id → id ∈ loaded →
        ∃ k, st.world.sharedGroupsResources st.tile.zoom id = CacheEntry.promised k) →
      ((groups.filter (isLoadedShared loaded)).filterMap (fun g => g.shareableId)).Nodup →
      ∃ c, classifyGroups loaded groups st = some c ∧
        c.tile.zoom = st.tile.zoom ∧ c.world.inFlight = st.world.inFlight ∧
        (∀ id, (∃ g ∈ groups, g.shareableId = some id ∧ id ∈ loaded) →
          ∃ r n, c.world.sharedGroupsResources st.tile.zoom id = CacheEntry.resolved r n) ∧
        (∀ id, (¬ ∃ g ∈ groups, g.shareableId = some id ∧ id ∈ loaded) →
          c.world.sharedGroupsResources st.tile.zoom id
            = st.world.sharedGroupsResources st.tile.zoom id) := by
  intro groups
  induction groups with
  | nil =>
    intro st _ _
    refine ⟨st, rfl, rfl, rfl, ?_, fun _ _ => rfl⟩
    rintro id ⟨g, hg, _⟩
    cases hg
  | cons group rest ih =>
    intro st hp hnd
    have hprest : ∀ g ∈ rest, ∀ id, g.shareableId = some id → id ∈ loaded →
        ∃ k, st.world.sharedGroupsResources st.tile.zoom id = CacheEntry.promised k :=
      fun g hg => hp g (List.mem_cons_of_mem _ hg)
    -- an iteration that appends the group to the unique list
    have asUnique : isLoadedShared loaded group = false →
        ∀ c, classifyGroups loaded rest
          { tile := { st.tile with
              _uniqueGroupsResources := st.tile._uniqueGroupsResources ++ [st.world.nextGroup] }
            world := { st.world with
              groups := upd st.world.groups st.world.nextGroup
                { group := group, resourcesInGPU := [] }
              nextGroup := st.world.nextGroup + 1 }
            trace := st.trace } = some c →
        c.tile.zoom = st.tile.zoom → c.world.inFlight = st.world.inFlight →
        (∀ id, (∃ g ∈ rest, g.shareableId = some id ∧ id ∈ loaded) →
          ∃ r n, c.world.sharedGroupsResources st.tile.zoom id = CacheEntry.resolved r n) →
        (∀ id, (¬ ∃ g ∈ rest, g.shareableId = some id ∧ id ∈ loaded) →
          c.world.sharedGroupsResources st.tile.zoom id
            = st.world.sharedGroupsResources st.tile.zoom id) →
        (∀ id, (∃ g ∈ group :: rest, g.shareableId = some id ∧ id ∈ loaded) →
          ∃ r n, c.world.sharedGroupsResources st.tile.zoom id = CacheEntry.resolved r n) ∧
        (∀ id, (¬ ∃ g ∈ group :: rest, g.shareableId = some id ∧ id ∈ loaded) →
          c.world.sharedGroupsResources st.tile.zoom id
            = st.world.sharedGroupsResources st.tile.zoom id) := by
      intro hload c _ _ _ i4 i5
      refine ⟨?_, ?_⟩
      · rintro id ⟨g, hg, hid, hin⟩
        rcases List.mem_cons.mp hg with hg | hg
        · subst hg
          have := (isLoadedShared_eq_true loaded g).mpr ⟨id, hid, hin⟩
          rw [hload] at this
          cases this
        · exact i4 id ⟨g, hg, hid, hin⟩
      · intro id hno
        apply i5
        rintro ⟨g, hg, hid, hin⟩
        exact hno ⟨g, List.mem_cons_of_mem _ hg, hid, hin⟩
    by_cases hload : isLoadedShared loaded group = true
    · obtain ⟨id0, hid0, hin0⟩ := (isLoadedShared_eq_true loaded group).mp hload
      obtain ⟨k, hk⟩ := hp group (List.mem_cons_self _ _) id0 hid0 hin0
      have hnd2 : (id0 :: (rest.filter (isLoadedShared loaded)).filterMap
          (fun g => g.shareableId)).Nodup := by
        simpa [List.filter_cons, hload, List.filterMap_cons, hid0] using hnd
      have hnot : ¬ ∃ g ∈ rest, g.shareableId = some id0 ∧ id0 ∈ loaded := by
        rintro ⟨g, hg, hid, hin⟩
        have hmem : id0 ∈ (rest.filter (isLoadedShared loaded)).filterMap
            (fun g => g.shareableId) :=
          List.mem_filterMap.mpr ⟨g, List.mem_filter.mpr
            ⟨hg, (isLoadedShared_eq_true loaded g).mpr ⟨id0, hid, hin⟩⟩, hid⟩
        exact (List.nodup_cons.mp hnd2).1 hmem
      have hcontains : loaded.contains id0 = true := by simpa using hin0
      obtain ⟨c, hc, i2, i3, i4, i5⟩ := ih
        { tile := { st.tile with
            _referencedSharedGroupsResources :=
              st.tile._referencedSharedGroupsResources ++ [st.world.nextGroup] }
          world := { st.world with
            groups := upd st.world.groups st.world.nextGroup
              { group := group, resourcesInGPU := [] }
            nextGroup := st.world.nextGroup + 1
            sharedGroupsResources := upd st.world.sharedGroupsResources st.tile.zoom
              (upd (st.world.sharedGroupsResources st.tile.zoom) id0
                (CacheEntry.resolved st.world.nextGroup (k + 1))) }
          trace := st.trace ++ [Event.fulfilPromiseAndReference id0 st.world.nextGroup] }
        (by
          intro g hg id hid hin
          have hne : id ≠ id0 := by
            intro he
            exact hnot ⟨g, hg, he ▸ hid, hin0⟩
          obtain ⟨k2, hk2⟩ := hprest g hg id hid hin
          refine ⟨k2, ?_⟩
          simp only [upd_same, upd_other _ _ _ _ hne]
          exact hk2)
        (List.nodup_cons.mp hnd2).2
      simp only [upd_same] at i4 i5
      refine ⟨c, ?_, i2, i3, ?_, ?_⟩
      · simp only [classifyGroups, hid0, hcontains, Bool.not_true, Bool.false_eq_true,
          if_false, fulfilPromiseAndReference, hk]
        exact hc
      · rintro id ⟨g, hg, hid, hin⟩
        rcases List.mem_cons.mp hg with hg | hg
        · subst hg
          have he : id = id0 := by
            rw [hid0] at hid
            exact (Option.some.inj hid).symm
          subst he
          exact ⟨_, _, (i5 id hnot).trans (upd_same _ _ _)⟩
        · exact i4 id ⟨g, hg, hid, hin⟩
      · intro id hno
        have hne : id ≠ id0 := by
          intro he
          exact hno ⟨group, List.mem_cons_self _ _, he ▸ hid0, he ▸ hin0⟩
        have hrest : ¬ ∃ g ∈ rest, g.shareableId = some id ∧ id ∈ loaded := by
          rintro ⟨g, hg, hid, hin⟩
          exact hno ⟨g, List.mem_cons_of_mem _ hg, hid, hin⟩
        rw [i5 id hrest, upd_other _ _ _ _ hne]
    · have hload : isLoadedShared loaded group = false := by simpa using hload
      have hnd2 : ((rest.filter (isLoadedShared loaded)).filterMap
          (fun g => g.shareableId)).Nodup := by
        simpa [List.filter_cons, hload] using hnd
      obtain ⟨c, hc, i2, i3, i4, i5⟩ := ih
        { tile := { st.tile with
            _uniqueGroupsResources := st.tile._uniqueGroupsResources ++ [st.world.nextGroup] }
          world := { st.world with
            groups := upd st.world.groups st.world.nextGroup
              { group := group, resourcesInGPU := [] }
            nextGroup := st.world.nextGroup + 1 }
          trace := st.trace } hprest hnd2
      obtain ⟨j4, j5⟩ := asUnique hload c hc i2 i3 i4 i5
      refine ⟨c, ?_, i2, i3, j4, j5⟩
      simp only [classifyGroups]
      split
      · exact hc
      · rename_i id hid
        have hnc : loaded.contains id = false := by
          simpa [isLoadedShared, hid] using hload
        simp only [hnc, Bool.not_false, if_true]
        exact hc

/-- The loop over the futures completes when each awaited id is published
already, or is claimed with its load in flight. -/
theorem awaitFutures_returns :
    ∀ (futures : List Nat) (st : Step),
      (∀ id ∈ futures,
        (∃ r n, st.world.sharedGroupsResources st.tile.zoom id = CacheEntry.resolved r n) ∨
        ((∃ k, st.world.sharedGroupsResources st.tile.zoom id = CacheEntry.promised k) ∧
          (st.world.inFlight st.tile.zoom id).isSome = true)) →
      ∃ f, awaitFutures futures st = some f := by
  intro futures
  induction futures with
  | nil =>
    intro st _
    exact ⟨st, rfl⟩
  | cons id rest ih =>
    intro st h
    rcases h id (List.mem_cons_self _ _) with ⟨r, n, hr⟩ | ⟨⟨k, hk⟩, hin⟩
    · simp only [awaitFutures, futureGet, hr]
      apply ih
      intro x hx
      simp only [upd_same]
      exact h x (List.mem_cons_of_mem _ hx)
    · obtain ⟨v, hv⟩ := Option.isSome_iff_exists.mp hin
      simp only [awaitFutures, futureGet, hk, hv]
      apply ih
      intro x hx
      simp only [upd_same]
      by_cases he : x = id
      · subst he
        exact Or.inl ⟨v, k + 1, upd_same _ _ _⟩
      · rw [upd_other _ _ _ _ he]
        exact h x (List.mem_cons_of_mem _ hx)

/-- A call of `obtainData` whose provider request succeeded with a tile
returns, with true and data available, when the provider's tile holds each
group the call is to publish once and every future collected resolves. -/
theorem obtainData_returns (run : ProviderRun) (dataAvailable : Bool)
    (t : MapRendererTiledSymbolsResource) (w : World) (tile : TiledMapSymbolsData)
    (hl : t.link = true) (hreq : (requestTile run t w).1 = true)
    (htile : (requestTile run t w).2.1 = some tile)
    (hpub : PublishesOnce (requestTile run t w).2.2.loadedSharedGroups tile)
    (hfut : FuturesResolve (requestTile run t w).2.2 tile (w.inFlight t.zoom)) :
    ∃ r, obtainData (some run) dataAvailable t w = some r ∧
      r.ok = true ∧ r.dataAvailable = true := by
  have hpend := requestTile_pending run t w
  obtain ⟨c, hc, hzoom, hin, hres, hsame⟩ := classifyGroups_returns
    (requestTile run t w).2.2.loadedSharedGroups tile.symbolsGroups
    { tile := { t with
        _sourceData := some tile
        _referencedSharedGroupsResources :=
          (requestTile run t w).2.2.referencedSharedGroupsResources }
      world := { w with
        sharedGroupsResources := upd w.sharedGroupsResources t.zoom
          (requestTile run t w).2.2.sharedGroupsResources }
      trace := (requestTile run t w).2.2.trace }
    (by
      intro g _ id _ hid
      obtain ⟨k, hk⟩ := hpend id (Or.inl hid)
      exact ⟨k, by simp only [upd_same]; exact hk⟩)
    hpub
  simp only [upd_same] at hres hsame
  have hzoom2 : c.tile.zoom = t.zoom := hzoom
  have hin2 : c.world.inFlight = w.inFlight := hin
  obtain ⟨f, hf⟩ := awaitFutures_returns
    (requestTile run t w).2.2.futureReferencedSharedGroupsResources c
    (by
      intro id hid
      rw [hzoom2, hin2]
      by_cases hp : ∃ g ∈ tile.symbolsGroups, g.shareableId = some id ∧
          id ∈ (requestTile run t w).2.2.loadedSharedGroups
      · exact Or.inl (hres id hp)
      · rcases hfut id hid with h1 | h1
        · exact absurd h1 hp
        · right
          obtain ⟨k, hk⟩ := hpend id (Or.inr hid)
          exact ⟨⟨k, by rw [hsame id hp]; exact hk⟩, h1⟩)
  unfold obtainData
  rw [if_neg (by simp [hl])]
  simp only [hreq, Bool.not_true, Bool.false_eq_true, if_false, htile]
  rw [hc]
  simp only
  rw [hf]
  exact ⟨_, rfl, rfl, rfl⟩

/-! ## obtainData: classification -/

/-- C11. Take a call of `obtainData` whose provider request succeeded with a
tile. The call returns when the provider's tile holds each group the call is
to publish once and every future the callback collected resolves. Whenever it
returns, it returns true with data available, and the groups of the tile, which become
the objects `nextGroup`, `nextGroup + 1`, ... in order, are each in exactly one
of the two lists: a shareable group whose id is in the to-be-loaded set is
published with `fulfilPromiseAndReference` and appended to the referenced-shared
list, every other group is appended to the unique list. The referenced-shared
list is the references resolved during the callback phase, then the groups
published by this call, then, future by future, the values of the futures
collected during the callback phase: the `GroupResources` that the cache holds
as published under the id of the future. -/
theorem obtainData_classifies_groups (run : ProviderRun) (dataAvailable : Bool)
    (t : MapRendererTiledSymbolsResource) (w : World) (tile : TiledMapSymbolsData)
    (hl : t.link = true) (hreq : (requestTile run t w).1 = true)
    (htile : (requestTile run t w).2.1 = some tile) :
    (PublishesOnce (requestTile run t w).2.2.loadedSharedGroups tile →
      FuturesResolve (requestTile run t w).2.2 tile (w.inFlight t.zoom) →
      ∃ r, obtainData (some run) dataAvailable t w = some r) ∧
    (∀ r, obtainData (some run) dataAvailable t w = some r →
      r.ok = true ∧ r.dataAvailable = true ∧
      r.tile._uniqueGroupsResources = t._uniqueGroupsResources ++
        ((tile.symbolsGroups.enumFrom w.nextGroup).filter
          (fun p => !isLoadedShared (requestTile run t w).2.2.loadedSharedGroups p.2)).map
            Prod.fst ∧
      (∃ values,
        List.Forall₂ (fun id v =>
            ∃ n, r.world.sharedGroupsResources t.zoom id = CacheEntry.resolved v n)
          (requestTile run t w).2.2.futureReferencedSharedGroupsResources values ∧
        r.tile._referencedSharedGroupsResources =
          (requestTile run t w).2.2.referencedSharedGroupsResources ++
          ((tile.symbolsGroups.enumFrom w.nextGroup).filter
            (fun p => isLoadedShared (requestTile run t w).2.2.loadedSharedGroups p.2)).map
              Prod.fst ++ values) ∧
      (∀ p ∈ tile.symbolsGroups.enumFrom w.nextGroup, (r.world.groups p.1).group = p.2) ∧
      r.trace.filter Event.isFulfil =
        ((tile.symbolsGroups.enumFrom w.nextGroup).filter
          (fun p => isLoadedShared (requestTile run t w).2.2.loadedSharedGroups p.2)).filterMap
            publication ∧
      (∀ p ∈ tile.symbolsGroups.enumFrom w.nextGroup,
        (isLoadedShared (requestTile run t w).2.2.loadedSharedGroups p.2 = true →
          p.1 ∈ ((tile.symbolsGroups.enumFrom w.nextGroup).filter
            (fun p => isLoadedShared (requestTile run t w).2.2.loadedSharedGroups p.2)).map
              Prod.fst ∧
          p.1 ∉ ((tile.symbolsGroups.enumFrom w.nextGroup).filter
            (fun p => !isLoadedShared (requestTile run t w).2.2.loadedSharedGroups p.2)).map
              Prod.fst) ∧
        (isLoadedShared (requestTile run t w).2.2.loadedSharedGroups p.2 = false →
          p.1 ∈ ((tile.symbolsGroups.enumFrom w.nextGroup).filter
            (fun p => !isLoadedShared (requestTile run t w).2.2.loadedSharedGroups p.2)).map
              Prod.fst ∧
          p.1 ∉ ((tile.symbolsGroups.enumFrom w.nextGroup).filter
            (fun p => isLoadedShared (requestTile run t w).2.2.loadedSharedGroups p.2)).map
              Prod.fst))) := by
  refine ⟨fun hpub hfut => ?_, ?_⟩
  · obtain ⟨r, hr, _⟩ := obtainData_returns run dataAvailable t w tile hl hreq htile hpub hfut
    exact ⟨r, hr⟩
  intro r h
  obtain ⟨c, values, hcl, hv, hok, hda, hu, hr, _, hg, _, htr⟩ :=
    obtainData_data_spec run dataAvailable t w tile r hl hreq htile h
  obtain ⟨c1, c2, c3, _, c5, _⟩ := hcl
  simp only at c1 c2 c3 c5
  refine ⟨hok, hda, by rw [hu, c1], ⟨values, hv, by rw [hr, c2]⟩, ?_, ?_, ?_⟩
  · intro p hp
    rw [hg, c5 p hp]
  · rw [htr, c3]
    simp only [List.filter_append]
    rw [requestTile_trace_filter Event.isFulfil rfl rfl (fun _ _ => rfl),
      filter_fulfil_publications, filter_fulfil_registers]
    simp
  · intro p hp
    refine ⟨?_, ?_⟩
    · intro hload
      refine ⟨List.mem_map.mpr ⟨p, List.mem_filter.mpr ⟨hp, hload⟩, rfl⟩, ?_⟩
      intro hmem
      obtain ⟨q, hq, hq1⟩ := List.mem_map.mp hmem
      obtain ⟨hq2, hq3⟩ := List.mem_filter.mp hq
      have hq4 : (p.1, q.2) ∈ tile.symbolsGroups.enumFrom w.nextGroup := by
        rw [← hq1]; exact hq2
      have := enumFrom_fst_inj _ _ _ _ _ hq4 hp
      rw [this, hload] at hq3
      simp at hq3
    · intro hload
      refine ⟨List.mem_map.mpr ⟨p, List.mem_filter.mpr ⟨hp, by simp [hload]⟩, rfl⟩, ?_⟩
      intro hmem
      obtain ⟨q, hq, hq1⟩ := List.mem_map.mp hmem
      obtain ⟨hq2, hq3⟩ := List.mem_filter.mp hq
      have hq4 : (p.1, q.2) ∈ tile.symbolsGroups.enumFrom w.nextGroup := by
        rw [← hq1]; exact hq2
      have := enumFrom_fst_inj _ _ _ _ _ hq4 hp
      rw [this, hload] at hq3
      simp at hq3

/-- C11 at a concrete input: tile B in `busyWorld` is offered the unique
group 5, group 41 that another tile has published (object 0), the unseen group
42, and group 43 that another tile is loading (it publishes object 1). The
provider's tile holds groups 5 and 42: the first becomes object 2 in the unique
list, the second is published as object 3. The referenced-shared list is the
resolved reference 0, the published object 3 and the value 1 of the future. -/
theorem obtainData_classifies_groups_witness :
    (tileB.link = true ∧ (requestTile providerMixed tileB busyWorld).1 = true ∧
      (requestTile providerMixed tileB busyWorld).2.1
        = some { symbolsGroups := [group5, group42] }) ∧
    ((requestTile providerMixed tileB busyWorld).2.2.referencedSharedGroupsResources = [0] ∧
      (requestTile providerMixed tileB busyWorld).2.2.loadedSharedGroups = [42] ∧
      (requestTile providerMixed tileB busyWorld).2.2.futureReferencedSharedGroupsResources
        = [43] ∧
      busyWorld.sharedGroupsResources 10 43 = CacheEntry.promised 0 ∧
      busyWorld.inFlight 10 43 = some 1) ∧
    (∃ r, obtainData (some providerMixed) false tileB busyWorld = some r) ∧
    obtainData (some providerMixed) false tileB busyWorld = some obtainedMixed ∧
    (obtainedMixed.ok = true ∧ obtainedMixed.dataAvailable = true ∧
      obtainedMixed.tile._uniqueGroupsResources = tileB._uniqueGroupsResources ++
        (([group5, group42].enumFrom busyWorld.nextGroup).filter
          (fun p => !isLoadedShared
            (requestTile providerMixed tileB busyWorld).2.2.loadedSharedGroups p.2)).map
              Prod.fst ∧
      ∃ values,
        List.Forall₂ (fun id v =>
            ∃ n, obtainedMixed.world.sharedGroupsResources tileB.zoom id
              = CacheEntry.resolved v n)
          (requestTile providerMixed tileB busyWorld).2.2.futureReferencedSharedGroupsResources
          values ∧
        obtainedMixed.tile._referencedSharedGroupsResources =
          (requestTile providerMixed tileB busyWorld).2.2.referencedSharedGroupsResources ++
          (([group5, group42].enumFrom busyWorld.nextGroup).filter
            (fun p => isLoadedShared
              (requestTile providerMixed tileB busyWorld).2.2.loadedSharedGroups p.2)).map
                Prod.fst ++ values) ∧
    obtainedMixed.tile._uniqueGroupsResources = [2] ∧
    obtainedMixed.tile._referencedSharedGroupsResources = [0, 3, 1] ∧
    obtainedMixed.world.sharedGroupsResources 10 43 = CacheEntry.resolved 1 2 ∧
    obtainedMixed.world.sharedGroupsResources 10 42 = CacheEntry.resolved 3 1 ∧
    obtainedMixed.trace.filter Event.isFulfil = [Event.fulfilPromiseAndReference 42 3] :=
  ⟨⟨rfl, by decide, by decide⟩,
   ⟨by decide, by decide, by decide, by decide, by decide⟩,
   (obtainData_classifies_groups providerMixed false tileB busyWorld
      { symbolsGroups := [group5, group42] } rfl (by decide) (by decide)).1
      (by unfold PublishesOnce; decide) (by unfold FuturesResolve; decide),
   obtainedMixed_eq,
   ⟨((obtainData_classifies_groups providerMixed false tileB busyWorld
      { symbolsGroups := [group5, group42] } rfl (by decide) (by decide)).2
      obtainedMixed obtainedMixed_eq).1,
    ((obtainData_classifies_groups providerMixed false tileB busyWorld
      { symbolsGroups := [group5, group42] } rfl (by decide) (by decide)).2
      obtainedMixed obtainedMixed_eq).2.1,
    ((obtainData_classifies_groups providerMixed false tileB busyWorld
      { symbolsGroups := [group5, group42] } rfl (by decide) (by decide)).2
      obtainedMixed obtainedMixed_eq).2.2.1,
    ((obtainData_classifies_groups providerMixed false tileB busyWorld
      { symbolsGroups := [group5, group42] } rfl (by decide) (by decide)).2
      obtainedMixed obtainedMixed_eq).2.2.2.1⟩,
   by decide, by decide, by decide, by decide, by decide⟩

/-! ## obtainData: what it returns -/

end OsmAnd

namespace OsmAnd

/-! ## releaseData after unloadFromGPU -/

/-- C17 at a concrete input: the tile of `uploadedBoth` has three entries in
its quick-lookup map and its unique group 0 has one entry in its map; after
`unloadFromGPU` both maps are empty, and the two lists, the source data and
the registry (three pairs) are as before. -/
theorem unloadFromGPU_frame_witness :
    (unloadFromGPU uploadedBoth.tile uploadedBoth.world = some unloadedBoth ∧
      uploadedBoth.tile._resourcesInGPU.length = 3 ∧
      uploadedBoth.tile._uniqueGroupsResources = [0] ∧
      uploadedBoth.tile._referencedSharedGroupsResources = [1] ∧
      (uploadedBoth.world.groups 0).resourcesInGPU = [(5, 105)] ∧
      uploadedBoth.world.registry = [(5, 1), (7, 1), (8, 1)]) ∧
    (unloadedBoth.tile._resourcesInGPU = [] ∧
      (∀ g ∈ uploadedBoth.tile._uniqueGroupsResources,
        (unloadedBoth.world.groups g).resourcesInGPU = []) ∧
      unloadedBoth.tile._uniqueGroupsResources = uploadedBoth.tile._uniqueGroupsResources ∧
      unloadedBoth.tile._referencedSharedGroupsResources
        = uploadedBoth.tile._referencedSharedGroupsResources ∧
      unloadedBoth.tile._sourceData = uploadedBoth.tile._sourceData ∧
      unloadedBoth.world.registry = uploadedBoth.world.registry ∧
      (∀ ev ∈ unloadedBoth.trace, ev.isRelease = true)) ∧
    (unloadedBoth.world.groups 0).resourcesInGPU = [] ∧
    unloadedBoth.world.registry = [(5, 1), (7, 1), (8, 1)] :=
  ⟨⟨unloadedBoth_eq, by decide, by decide, by decide, by decide, by decide⟩,
   unloadFromGPU_frame uploadedBoth.tile uploadedBoth.world unloadedBoth unloadedBoth_eq,
   by decide, by decide⟩

end OsmAnd
